import Mathlib

/-!
IaC scan report validation: a verification development.

A shallow embedding of the rule-evaluation code of
`ReportValidator/validator/iacscanreport.go` and
`ReportValidator/expressionprocessor/expressionprocessor.go`, of the converter
`SARIFConverter/converter/iacscanreport.go`, and of the templates
`templates/iacscanreport.go` and `templates/sarif.go`.

Modelling conventions.

* A Go `string` is a list of runes (`Str`), that is, a string of valid
  UTF-8.  `strings.ToUpper` maps rune by rune: `a`..`z` to `A`..`Z`, and the
  two runes beyond ASCII whose upper case is an ASCII letter to that letter
  (U+0131 to `I`, U+017F to `S`), so that "hıgh" is the severity HIGH, as
  in Go.  The other runes beyond ASCII are left alone; Go gives them an upper
  case beyond ASCII, which the code can only compare with its ASCII words or
  print in an error.
* A Go `map[string]V` is either `nil` or a list of entries; the order of the
  list stands for one iteration order of the map, and a well-formed map has
  pairwise distinct keys.  Reading a `nil` map behaves like reading an empty
  one.  A `range` over a map visits the entries in the order of the list:
  the same map in another order is another list, and a statement on every
  order is a statement on every permutation of the entries.
* A Go `int` is a mathematical integer.  The only arithmetic of the code is
  the increment of a count, which the number of violations bounds;
  `strconv.Atoi` rejects literals outside the 64-bit range, which is the only
  place where the width shows.
* `strings.Split` is modelled for a separator of one character, as both call
  sites use it.
* A Go `error` is `Option Error`, `none` being `nil`; an index out of range
  is the outcome `panics`.
* A Go slice is a list; the nil slice and the empty slice are both `[]`.
* Where the order of a `range` over a map shows in the output (the rules of
  the converter), the order is a parameter `rangeOrder` of the function: the
  run time may visit the entries in any permutation.
-/

set_option autoImplicit false

namespace IacValidation

/-! ## Strings -/

/-- A Go string. -/
abbrev Str := List Char

/-- Go `unicode.ToUpper` on one rune.  The letters `a`..`z` go to `A`..`Z`;
beyond ASCII, the two runes whose upper case is an ASCII letter go to it:
U+0131 (dotless i) to `I` and U+017F (long s) to `S`.  Every other rune
beyond ASCII is left as it is: its upper case in Go is again beyond ASCII,
so that no comparison of the code with one of its ASCII words (the severity
names, `OPERATOR`, `AND`, `OR`) and no test for a digit tells the two
apart. -/
def toUpperRune (c : Char) : Char :=
  if 97 ≤ c.toNat ∧ c.toNat ≤ 122 then Char.ofNat (c.toNat - 32)
  else if c.toNat = 305 then 'I'
  else if c.toNat = 383 then 'S'
  else c

/-- Go `strings.ToUpper`. -/
def ToUpper (s : Str) : Str := s.map toUpperRune

/-- Go `strings.Split(s, sep)` for a separator of one character: the pieces
of `s` between the occurrences of `sep`, at least one piece. -/
def Split : Str → Char → List Str
  | [], _ => [[]]
  | c :: cs, sep =>
    if c = sep then [] :: Split cs sep
    else
      match Split cs sep with
      | [] => [[c]]
      | piece :: pieces => (c :: piece) :: pieces

/-- Text that strings.ToUpper treats exactly as the model does. -/
def isASCII (s : Str) : Prop := ∀ c ∈ s, c.toNat < 128

instance (s : Str) : Decidable (isASCII s) := by
  unfold isASCII; infer_instance

/-! ## Maps -/

/-- A Go `map[string]V`: `nil`, or the entries in one iteration order. -/
inductive GoMap (V : Type) where
  | nil : GoMap V
  | mk (entries : List (Str × V)) : GoMap V
  deriving DecidableEq

namespace GoMap

variable {V : Type}

/-- The entries a `range` loop visits; a nil map has none. -/
def entries : GoMap V → List (Str × V)
  | nil => []
  | mk es => es

/-- The keys of the map. -/
def keys (m : GoMap V) : List Str := m.entries.map Prod.fst

/-- Go `len(m)`. -/
def len (m : GoMap V) : Nat := m.entries.length

/-- Go `v, ok := m[k]`: `none` when `ok` is false. -/
def lookup (m : GoMap V) (k : Str) : Option V :=
  (m.entries.find? (fun e => decide (e.1 = k))).map Prod.snd

/-- Go `m[k]` on an integer map: the zero value when the key is absent. -/
def index (m : GoMap Int) (k : Str) : Int := (m.lookup k).getD 0

/-- A map proper has no key twice. -/
def WF (m : GoMap V) : Prop := m.keys.Nodup

end GoMap

/-- Go `m[k] = v` on the entries of a non-nil map. -/
def setEntry {V : Type} : List (Str × V) → Str → V → List (Str × V)
  | [], k, v => [(k, v)]
  | (k', v') :: rest, k, v =>
    if k' = k then (k, v) :: rest else (k', v') :: setEntry rest k v

/-! ## Report template (`templates/iacscanreport.go`) -/

structure PostureDetails where
  PostureDeployment : Str := []
  PostureDeploymentTargetResource : Str := []
  Posture : Str := []
  PostureRevisionID : Str := []
  PolicySet : Str := []
  deriving DecidableEq

structure PolicyDetails where
  Constraint : Str := []
  ConstraintType : Str := []
  ComplianceStandards : List Str := []
  Description : Str := []
  deriving DecidableEq

structure AssetDetails where
  Asset : Str := []
  AssetType : Str := []
  deriving DecidableEq

structure Violation where
  AssetID : Str := []
  PolicyID : Str := []
  ViolatedPosture : PostureDetails := {}
  ViolatedPolicy : PolicyDetails := {}
  ViolatedAsset : AssetDetails := {}
  Severity : Str := []
  NextSteps : Str := []
  deriving DecidableEq

structure IACValidationReport where
  Violations : List Violation := []
  Note : Str := []
  deriving DecidableEq

structure Responses where
  Name : Str := []
  CreateTime : Str := []
  UpdateTime : Str := []
  IacValidationReport : IACValidationReport := {}
  deriving DecidableEq

structure IACReportTemplate where
  Response : Responses := {}
  deriving DecidableEq

/-! ## Errors -/

/-- The error of `strconv.Atoi`, with the text it was given. -/
inductive NumError where
  | badSyntax (input : Str)
  | outOfRange (input : Str)
  deriving DecidableEq

/-- The errors the two packages build with `fmt.Errorf`, one constructor for
each format string, carrying the argument that is formatted. -/
inductive Error where
  /-- The validator: "invalid severity operator: %v". -/
  | invalidSeverityOperator (operator : Str)
  /-- Both packages: "invalid severity expression: %s". -/
  | invalidSeverityExpression (severity : Str)
  /-- The validator: "fetchVoilationFromIACReport(): %v". -/
  | fetchViolation (cause : Error)
  /-- The parser: "more than one operator found in the expression %v". -/
  | moreThanOneOperator (finalOperator : Str)
  /-- The parser: "invalid operator: %v". -/
  | invalidOperator (finalOperator : Str)
  /-- The parser: "duplicate severity found: %v". -/
  | duplicateSeverity (key : Str)
  /-- The parser: "error converting value to integer: %v". -/
  | convertingValue (cause : NumError)
  /-- The parser: "validation expression can not have negative values". -/
  | negativeValues
  /-- The parser: "no voilaition parameter found in expression". -/
  | noViolationParameter
  /-- The parser: "no operator found in expression". -/
  | noOperator
  deriving DecidableEq

/-- What a call does: it returns, or it aborts with a run-time panic. -/
inductive Outcome (α : Type) where
  | returns (a : α) : Outcome α
  | panics : Outcome α
  deriving DecidableEq

/-! ## The validator (`ReportValidator/validator/iacscanreport.go`) -/

/-- The severity test of `fetchViolationFromIACReport` and `validateSeverity`. -/
def isSeverityName (s : Str) : Bool :=
  s == "CRITICAL".toList || s == "HIGH".toList || s == "MEDIUM".toList || s == "LOW".toList

/-- The loop of `fetchViolationFromIACReport` over the violations still to
visit, `severityCounts` being the entries counted so far. -/
def fetchLoop : List Violation → List (Str × Int) → GoMap Int × Option Error
  | [], severityCounts => (GoMap.mk severityCounts, none)
  | v :: rest, severityCounts =>
    let s := ToUpper v.Severity
    if !(isSeverityName s) then
      (GoMap.nil, some (Error.invalidSeverityExpression s))
    else
      fetchLoop rest
        (setEntry severityCounts (ToUpper v.Severity)
          ((GoMap.mk severityCounts).index (ToUpper v.Severity) + 1))

def fetchViolationFromIACReport (iacReport : IACReportTemplate) : GoMap Int × Option Error :=
  fetchLoop iacReport.Response.IacValidationReport.Violations []

/-- The loop of `computeViolationState` over the threshold entries still to
visit, in the order the `range` takes.  The flag is stored under the
upper-cased key: of two keys that upper-casing makes one, the later visited
decides. -/
def computeLoop (severityCounts : GoMap Int) :
    List (Str × Int) → List (Str × Bool) → List (Str × Bool)
  | [], failureCriteriaViolations => failureCriteriaViolations
  | (k, t) :: rest, failureCriteriaViolations =>
    let severity := ToUpper k
    if severityCounts.index severity = 0 then
      computeLoop severityCounts rest (setEntry failureCriteriaViolations severity false)
    else
      computeLoop severityCounts rest
        (setEntry failureCriteriaViolations severity (decide (severityCounts.index severity ≥ t)))

def computeViolationState (severityCounts thresholds : GoMap Int) : GoMap Bool :=
  GoMap.mk (computeLoop severityCounts thresholds.entries [])

/-- The loop of `all`: false at the first false flag, true at the end. -/
def allLoop : List (Str × Bool) → Bool
  | [] => true
  | (_, v) :: rest => if !v then false else allLoop rest

def all (failureCriteriaViolations : GoMap Bool) : Bool :=
  if failureCriteriaViolations.len = 0 then false
  else allLoop failureCriteriaViolations.entries

/-- The loop of `any`: true at the first true flag, false at the end. -/
def anyLoop : List (Str × Bool) → Bool
  | [] => false
  | (_, v) :: rest => if v then true else anyLoop rest

def any (failureCriteriaViolations : GoMap Bool) : Bool :=
  if failureCriteriaViolations.len = 0 then false
  else anyLoop failureCriteriaViolations.entries

def isBreachingThreshold (operator : Str) (failureCriteriaViolations : GoMap Bool) :
    Bool × Option Error :=
  if operator = "AND".toList then (all failureCriteriaViolations, none)
  else if operator = "OR".toList then (any failureCriteriaViolations, none)
  else (true, some (Error.invalidSeverityOperator operator))

def EvaluateIACScanReport (iacReport : IACReportTemplate) (thresholds : GoMap Int)
    (operator : Str) : Bool × Option Error :=
  match fetchViolationFromIACReport iacReport with
  | (_, some err) => (false, some (Error.fetchViolation err))
  | (severityCounts, none) =>
    isBreachingThreshold operator (computeViolationState severityCounts thresholds)

/-! ## The expression parser (`ReportValidator/expressionprocessor/expressionprocessor.go`) -/

/-- One decimal digit. -/
def isDigit (c : Char) : Bool := decide (48 ≤ c.toNat ∧ c.toNat ≤ 57)

/-- The number a run of decimal digits denotes, `acc` being the value of the
digits already read. -/
def digitsValue : List Char → Nat → Nat
  | [], acc => acc
  | c :: cs, acc => digitsValue cs (acc * 10 + (c.toNat - 48))

/-- The part of a literal after its optional sign. -/
def unsignedPart : Str → Str
  | [] => []
  | c :: cs => if c = '-' ∨ c = '+' then cs else c :: cs

/-- Go `strconv.Atoi` with a 64-bit `int`: an optional sign and one or more
decimal digits, the value within `-2^63 .. 2^63 - 1`. -/
def Atoi (s : Str) : Except NumError Int :=
  let digits := unsignedPart s
  if digits = [] ∨ digits.all isDigit = false then Except.error (NumError.badSyntax s)
  else
    let un := digitsValue digits 0
    if s.head? = some '-' then
      if un > 2 ^ 63 then Except.error (NumError.outOfRange s) else Except.ok (-(un : Int))
    else
      if un ≥ 2 ^ 63 then Except.error (NumError.outOfRange s) else Except.ok (un : Int)

def validateOperator (finalOperator expressionOperator : Str) : Str × Option Error :=
  if finalOperator ≠ [] then
    ([], some (Error.moreThanOneOperator finalOperator))
  else if expressionOperator = "AND".toList ∨ expressionOperator = "OR".toList then
    (expressionOperator, none)
  else
    ([], some (Error.invalidOperator finalOperator))

def validateSeverity (severity : Str) (severityCount : Int) : Option Error :=
  if severityCount < 0 then some Error.negativeValues
  else if isSeverityName severity then none
  else some (Error.invalidSeverityExpression severity)

/-- What `ParseFailureExpression` returns: operator, thresholds, error. -/
abbrev ParseResult := Str × GoMap Int × Option Error

/-- The return statement of every failing path of the parser. -/
def parseFail (err : Error) : Outcome ParseResult :=
  Outcome.returns ([], GoMap.nil, some err)

/-- The loop of `ParseFailureExpression` over the pairs still to visit,
followed by the two checks after the loop.  `parts[0]` and `parts[1]` are
the first and second piece of the pair; a missing piece is a panic. -/
def parseLoop : List Str → Str → List (Str × Int) → Outcome ParseResult
  | [], operator, userViolationCount =>
    if userViolationCount.length = 0 then parseFail Error.noViolationParameter
    else if operator = [] then parseFail Error.noOperator
    else Outcome.returns (operator, GoMap.mk userViolationCount, none)
  | pair :: rest, operator, userViolationCount =>
    match Split pair ':' with
    | [] => Outcome.panics
    | part0 :: parts =>
      let key := ToUpper part0
      if key = "OPERATOR".toList then
        match parts with
        | [] => Outcome.panics
        | part1 :: _ =>
          match validateOperator operator (ToUpper part1) with
          | (_, some err) => parseFail err
          | (op, none) => parseLoop rest op userViolationCount
      else if ((GoMap.mk userViolationCount).lookup key).isSome then
        parseFail (Error.duplicateSeverity key)
      else
        match parts with
        | [] => Outcome.panics
        | part1 :: _ =>
          match Atoi part1 with
          | Except.error err => parseFail (Error.convertingValue err)
          | Except.ok value =>
            match validateSeverity key value with
            | some err => parseFail err
            | none => parseLoop rest operator (setEntry userViolationCount key value)

def ParseFailureExpression (expression : Str) : Outcome ParseResult :=
  let pairs := Split expression ','
  if expression = [] then
    Outcome.returns ("OR".toList,
      GoMap.mk [("CRITICAL".toList, 1), ("HIGH".toList, 1), ("MEDIUM".toList, 1), ("LOW".toList, 1)],
      none)
  else
    parseLoop pairs [] []

/-! ## SARIF template (`templates/sarif.go`) -/

structure FullDescription where
  Text : Str := []
  deriving DecidableEq

structure RuleProperties where
  Severity : Str := []
  PolicyType : Str := []
  ComplianceStandard : List Str := []
  PolicySet : Str := []
  Posture : Str := []
  PostureRevisionID : Str := []
  PostureDeploymentID : Str := []
  Constraints : Str := []
  NextSteps : Str := []
  deriving DecidableEq

structure Rule where
  ID : Str := []
  FullDescription : FullDescription := {}
  Properties : RuleProperties := {}
  deriving DecidableEq

structure Message where
  Text : Str := []
  deriving DecidableEq

structure LogicalLocations where
  FullyQualifiedName : Str := []
  deriving DecidableEq

structure Location where
  LogicalLocations : List LogicalLocations := []
  deriving DecidableEq

structure ResultProperties where
  AssetID : Str := []
  AssetType : Str := []
  Asset : Str := []
  deriving DecidableEq

structure Result where
  RuleID : Str := []
  Message : Message := {}
  Locations : List Location := []
  Properties : ResultProperties := {}
  deriving DecidableEq

structure Driver where
  Name : Str := []
  Version : Str := []
  InformationURI : Str := []
  Rules : List Rule := []
  deriving DecidableEq

structure Tool where
  Driver : Driver := {}
  deriving DecidableEq

structure Run where
  Tool : Tool := {}
  Results : List Result := []
  deriving DecidableEq

structure SarifOutput where
  Version : Str := []
  Schema : Str := []
  Runs : List Run := []
  deriving DecidableEq

/-! ## The converter (`SARIFConverter/converter/iacscanreport.go`) -/

def VERSION : Str := "1.0.0".toList

def SARIF_SCHEMA : Str :=
  "https://raw.githubusercontent.com/oasis-tcs/sarif-spec/master/Schemata/sarif-schema-2.1.0.json".toList

def SARIF_VERSION : Str := "2.1.0".toList

def IAC_TOOL_DOCUMENTATION_LINK : Str :=
  "https://cloud.google.com/security-command-center/docs/validate-iac".toList

def IAC_TOOL_NAME : Str := "analyze-code-security-scc".toList

/-- The errors the converter builds with `fmt.Errorf`. -/
inductive ConverterError where
  /-- In constructRules: "isSeverityValid() invalid severity: %s ". -/
  | invalidSeverity (severity : Str)
  /-- In FromIACScanReport: "constructRules: %v". -/
  | constructRules (cause : ConverterError)
  deriving DecidableEq

/-- The order in which a `range` visits the entries of a map. -/
abbrev RangeOrder := List (Str × Violation) → List (Str × Violation)

/-- An order the run time can take: a permutation of the entries. -/
def RangeOrder.valid (rangeOrder : RangeOrder) : Prop := ∀ es, (rangeOrder es).Perm es

def isSeverityValid (severity : Str) : Bool :=
  severity == "CRITICAL".toList || severity == "HIGH".toList || severity == "MEDIUM".toList
    || severity == "LOW".toList

/-- The loop of `getUniqueViolations` over the violations still to visit. -/
def getUniqueLoop : List Violation → List (Str × Violation) → List (Str × Violation)
  | [], policyToViolationMap => policyToViolationMap
  | violation :: rest, policyToViolationMap =>
    let policyID := violation.PolicyID
    if !((GoMap.mk policyToViolationMap).lookup policyID).isSome then
      getUniqueLoop rest (setEntry policyToViolationMap policyID violation)
    else
      getUniqueLoop rest policyToViolationMap

def getUniqueViolations (violations : List Violation) : GoMap Violation :=
  GoMap.mk (getUniqueLoop violations [])

/-- The rule `constructRules` builds for one entry of the map. -/
def ruleOf (policyID : Str) (violation : Violation) : Rule :=
  { ID := policyID
    FullDescription := { Text := violation.ViolatedPolicy.Description }
    Properties :=
      { Severity := violation.Severity
        PolicyType := violation.ViolatedPolicy.ConstraintType
        ComplianceStandard := violation.ViolatedPolicy.ComplianceStandards
        PolicySet := violation.ViolatedPosture.PolicySet
        Posture := violation.ViolatedPosture.Posture
        PostureRevisionID := violation.ViolatedPosture.PostureRevisionID
        PostureDeploymentID := violation.ViolatedPosture.PostureDeployment
        Constraints := violation.ViolatedPolicy.Constraint
        NextSteps := violation.NextSteps } }

/-- The loop of `constructRules` over the entries still to visit. -/
def constructRulesLoop : List (Str × Violation) → List Rule → List Rule × Option ConverterError
  | [], rules => (rules, none)
  | (policyID, violation) :: rest, rules =>
    if !(isSeverityValid violation.Severity) then
      ([], some (ConverterError.invalidSeverity violation.Severity))
    else
      constructRulesLoop rest (rules ++ [ruleOf policyID violation])

def constructRules (rangeOrder : RangeOrder) (policyToViolationMap : GoMap Violation) :
    List Rule × Option ConverterError :=
  constructRulesLoop (rangeOrder policyToViolationMap.entries) []

/-- The result `constructResults` builds for one violation; the message is
the `fmt.Sprintf` of "Asset type: %s has a violation, next steps: %s". -/
def resultOf (violation : Violation) : Result :=
  { RuleID := violation.PolicyID
    Message :=
      { Text := "Asset type: ".toList ++ violation.ViolatedAsset.AssetType
          ++ " has a violation, next steps: ".toList ++ violation.NextSteps }
    Locations := [{ LogicalLocations := [{ FullyQualifiedName := violation.AssetID }] }]
    Properties :=
      { AssetID := violation.AssetID
        Asset := violation.ViolatedAsset.Asset
        AssetType := violation.ViolatedAsset.AssetType } }

/-- The loop of `constructResults` over the violations still to visit. -/
def constructResultsLoop : List Violation → List Result → List Result
  | [], results => results
  | violation :: rest, results => constructResultsLoop rest (results ++ [resultOf violation])

def constructResults (violations : List Violation) : List Result :=
  constructResultsLoop violations []

def FromIACScanReport (rangeOrder : RangeOrder) (report : IACValidationReport) :
    SarifOutput × Option ConverterError :=
  let policyToViolationMap := getUniqueViolations report.Violations
  match constructRules rangeOrder policyToViolationMap with
  | (_, some err) => ({}, some (ConverterError.constructRules err))
  | (rules, none) =>
    let results := constructResults report.Violations
    ({ Version := SARIF_VERSION
       Schema := SARIF_SCHEMA
       Runs :=
        [{ Tool :=
            { Driver :=
              { Name := IAC_TOOL_NAME
                Version := VERSION
                InformationURI := IAC_TOOL_DOCUMENTATION_LINK
                Rules := rules } }
           Results := results }] }, none)

/-- The text of an error of the validator or of the parser, as `fmt.Errorf`
formats it; `numErrorText` is the text strconv gives to its own error. -/
def Error.message (numErrorText : NumError → Str) : Error → Str
  | Error.invalidSeverityOperator operator => "invalid severity operator: ".toList ++ operator
  | Error.invalidSeverityExpression severity =>
    "invalid severity expression: ".toList ++ severity
  | Error.fetchViolation cause =>
    "fetchVoilationFromIACReport(): ".toList ++ Error.message numErrorText cause
  | Error.moreThanOneOperator finalOperator =>
    "more than one operator found in the expression ".toList ++ finalOperator
  | Error.invalidOperator finalOperator => "invalid operator: ".toList ++ finalOperator
  | Error.duplicateSeverity key => "duplicate severity found: ".toList ++ key
  | Error.convertingValue cause =>
    "error converting value to integer: ".toList ++ numErrorText cause
  | Error.negativeValues => "validation expression can not have negative values".toList
  | Error.noViolationParameter => "no voilaition parameter found in expression".toList
  | Error.noOperator => "no operator found in expression".toList

/-! ## Vocabulary of the statements -/

/-- The violations of a report. -/
def violationsOf (iacReport : IACReportTemplate) : List Violation :=
  iacReport.Response.IacValidationReport.Violations

/-- The number of violations whose upper-cased severity is `k`. -/
def countSeverity (violations : List Violation) (k : Str) : Nat :=
  violations.countP (fun v => decide (ToUpper v.Severity = k))

/-- The severity of a violation is, ignoring case, one of the four levels. -/
def validSeverity (v : Violation) : Prop := isSeverityName (ToUpper v.Severity) = true

instance (v : Violation) : Decidable (validSeverity v) := by
  unfold validSeverity; infer_instance

/-- A string that upper-casing leaves alone. -/
def isUpperCase (k : Str) : Prop := ToUpper k = k

instance (k : Str) : Decidable (isUpperCase k) := by
  unfold isUpperCase; infer_instance

instance {V : Type} (m : GoMap V) : Decidable m.WF := by
  unfold GoMap.WF; infer_instance

/-- The flag `computeViolationState` stores for a threshold `t` on key `k`. -/
def breachFlag (severityCounts : GoMap Int) (k : Str) (t : Int) : Bool :=
  if severityCounts.index k = 0 then false else decide (severityCounts.index k ≥ t)

/-- The count a key has after the counting loop has run over `vs` from the
entries `acc`. -/
def countedFrom (acc : List (Str × Int)) (vs : List Violation) (k : Str) : Option Int :=
  match (GoMap.mk acc).lookup k with
  | some c => some (c + countSeverity vs k)
  | none => if countSeverity vs k = 0 then none else some (countSeverity vs k : Int)

/-- One pair of an expression, as the grammar of the expression language
writes it: the operator pair or a severity pair. -/
inductive Token where
  | operator (key value : Str) : Token
  | severity (name literal : Str) : Token
  deriving DecidableEq

/-- The text of a pair: key, colon, value. -/
def Token.text : Token → Str
  | Token.operator key value => key ++ ':' :: value
  | Token.severity name literal => name ++ ':' :: literal

/-- The text of an expression: its pairs joined by commas. -/
def render : List Token → Str
  | [] => []
  | t :: ts =>
    match ts with
    | [] => t.text
    | _ :: _ => t.text ++ ',' :: render ts

/-- The operator pairs. -/
def Token.isOperator : Token → Bool
  | Token.operator _ _ => true
  | Token.severity _ _ => false

/-- A non-negative integer literal: one or more decimal digits. -/
def isLiteral (l : Str) : Bool := !l.isEmpty && l.all isDigit

/-- A pair of the grammar: OPERATOR with AND or OR, or a severity name with a
non-negative integer literal, keys and operator values in any letter case. -/
def Token.wellFormed : Token → Prop
  | Token.operator key value =>
    ToUpper key = "OPERATOR".toList
      ∧ (ToUpper value = "AND".toList ∨ ToUpper value = "OR".toList)
  | Token.severity name literal =>
    isSeverityName (ToUpper name) = true ∧ isLiteral literal = true

instance (t : Token) : Decidable t.wellFormed := by
  cases t <;> unfold Token.wellFormed <;> infer_instance

/-- The literal of a severity pair denotes a value of the 64-bit `int`. -/
def Token.inRange : Token → Prop
  | Token.operator _ _ => True
  | Token.severity _ literal => digitsValue literal 0 < 2 ^ 63

instance (t : Token) : Decidable t.inRange := by
  cases t <;> unfold Token.inRange <;> infer_instance

/-- The upper-cased severity names of the severity pairs, in order. -/
def severityKeys : List Token → List Str
  | [] => []
  | Token.operator _ _ :: ts => severityKeys ts
  | Token.severity name _ :: ts => ToUpper name :: severityKeys ts

/-- The thresholds the severity pairs supply, in order. -/
def thresholdsOf : List Token → List (Str × Int)
  | [] => []
  | Token.operator _ _ :: ts => thresholdsOf ts
  | Token.severity name literal :: ts =>
    (ToUpper name, (digitsValue literal 0 : Int)) :: thresholdsOf ts

/-- The upper-cased value of the last operator pair, `operator` when there is
none. -/
def operatorOf : List Token → Str → Str
  | [], operator => operator
  | Token.operator _ value :: ts, _ => operatorOf ts (ToUpper value)
  | Token.severity _ _ :: ts, operator => operatorOf ts operator

/-- An expression of exactly one operator pair and one or more severity pairs
with pairwise distinct names, in any order. -/
def WellFormedExpression (ts : List Token) : Prop :=
  (∀ t ∈ ts, t.wellFormed)
    ∧ (ts.filter Token.isOperator).length = 1
    ∧ severityKeys ts ≠ []
    ∧ (severityKeys ts).Nodup

instance (ts : List Token) : Decidable (WellFormedExpression ts) := by
  unfold WellFormedExpression; infer_instance

/-- What a caller sees of a call of the parser: the operator, the map, and
whether an error came back, the text of the error apart. -/
def observe : Outcome ParseResult → Outcome (Str × GoMap Int × Bool)
  | Outcome.returns (operator, thresholds, err) =>
    Outcome.returns (operator, thresholds, err.isSome)
  | Outcome.panics => Outcome.panics

/-- The key of a pair as the parser reads it: the first piece, upper-cased. -/
def keyOf (pair : Str) : Str :=
  match Split pair ':' with
  | [] => []
  | part0 :: _ => ToUpper part0

/-- The value of a pair as the parser reads it: the second piece, when there
is one. -/
def valueOf (pair : Str) : Option Str :=
  match Split pair ':' with
  | _ :: part1 :: _ => some part1
  | _ => none

/-- The keys of the pairs that are not the operator key, in order: the keys
the parser treats as severity names. -/
def severityKeysOf (pairs : List Str) : List Str :=
  (pairs.map keyOf).filter (fun k => decide (k ≠ "OPERATOR".toList))

/-- The pairs whose key is the operator key. -/
def operatorPairsOf (pairs : List Str) : List Str :=
  pairs.filter (fun pair => decide (keyOf pair = "OPERATOR".toList))

/-- Every pair of the expression holds a colon. -/
def allColon (expression : Str) : Prop := ∀ pair ∈ Split expression ',', ':' ∈ pair

instance (expression : Str) : Decidable (allColon expression) := by
  unfold allColon; infer_instance

/-- The call returns an error. -/
def returnsError (o : Outcome ParseResult) : Prop := ∃ err, o = parseFail err

/-- A pair the loop accepts on its own: it has a value, and is the operator
key with AND or OR, or a severity name with an integer that is not negative. -/
def pairAccepted (pair : Str) : Prop :=
  ∃ v, valueOf pair = some v
    ∧ ((keyOf pair = "OPERATOR".toList
          ∧ (ToUpper v = "AND".toList ∨ ToUpper v = "OR".toList))
      ∨ (keyOf pair ≠ "OPERATOR".toList ∧ isSeverityName (keyOf pair) = true
          ∧ ∃ n, Atoi v = Except.ok n ∧ 0 ≤ n))

/-- A value the parser rejects for a severity: no integer, or a negative one. -/
def rejectedValue (v : Str) : Prop :=
  match Atoi v with
  | Except.ok n => n < 0
  | Except.error _ => True

instance (v : Str) : Decidable (rejectedValue v) := by
  unfold rejectedValue
  cases Atoi v <;> infer_instance

/-- A severity pair whose value is a negative integer or no integer. -/
def hasRejectedValue (pair : Str) : Prop :=
  keyOf pair ≠ "OPERATOR".toList ∧ ∃ v, valueOf pair = some v ∧ rejectedValue v

/-- A pair key:value whose key is neither the operator key nor a severity
name. -/
def hasUnknownKey (pair : Str) : Prop :=
  (∃ v, valueOf pair = some v) ∧ keyOf pair ≠ "OPERATOR".toList
    ∧ isSeverityName (keyOf pair) = false

/-- A pair operator:v whose value is, ignoring case, neither AND nor OR. -/
def hasUnknownOperator (pair : Str) : Prop :=
  keyOf pair = "OPERATOR".toList
    ∧ ∃ v, valueOf pair = some v ∧ ToUpper v ≠ "AND".toList ∧ ToUpper v ≠ "OR".toList

/-- Pairs the loop accepts one after the other: each well formed with a
literal in the range of int, the operator key once at most, no severity name
twice; at least one pair. -/
def ValidPairs (ts : List Token) : Prop :=
  ts ≠ [] ∧ (∀ t ∈ ts, t.wellFormed) ∧ (∀ t ∈ ts, t.inRange)
    ∧ (ts.filter Token.isOperator).length ≤ 1 ∧ (severityKeys ts).Nodup

instance (ts : List Token) : Decidable (ValidPairs ts) := by
  unfold ValidPairs; infer_instance

/-- The second list is the first with violations added, anywhere, each of a
valid severity that no key of `thresholds` names, ignoring case. -/
inductive AddedUnnamed (thresholds : GoMap Int) : List Violation → List Violation → Prop where
  | done : AddedUnnamed thresholds [] []
  | keep (v : Violation) {vs vs' : List Violation} :
      AddedUnnamed thresholds vs vs' → AddedUnnamed thresholds (v :: vs) (v :: vs')
  | add (v : Violation) {vs vs' : List Violation} :
      validSeverity v → (∀ k ∈ thresholds.keys, ToUpper k ≠ ToUpper v.Severity) →
      AddedUnnamed thresholds vs vs' → AddedUnnamed thresholds vs (v :: vs')

/-- Two count maps give the same count to every key of `thresholds`. -/
def agreeOn (thresholds m m' : GoMap Int) : Prop :=
  ∀ k ∈ thresholds.keys, m.index (ToUpper k) = m'.index (ToUpper k)

/-- The first violation of the list that carries the policy identifier. -/
def firstWith (violations : List Violation) (policyID : Str) : Option Violation :=
  violations.find? (fun v => decide (v.PolicyID = policyID))

/-- The rules of an output: those of the drivers of its runs. -/
def rulesOf (output : SarifOutput) : List Rule :=
  output.Runs.flatMap (fun run => run.Tool.Driver.Rules)

/-- The results of an output: those of its runs. -/
def resultsOf (output : SarifOutput) : List Result :=
  output.Runs.flatMap (fun run => run.Results)

/-- The text `sub` occurs in the text `s`. -/
def containsText : Str → Str → Bool
  | [], sub => sub.isEmpty
  | c :: cs, sub => sub.isPrefixOf (c :: cs) || containsText cs sub

/-- The distinct policy identifiers of the list in the order in which they
are first seen. -/
def firstSeenIDs : List Violation → List Str
  | [] => []
  | v :: rest => v.PolicyID :: (firstSeenIDs rest).filter (fun k => decide (k ≠ v.PolicyID))

/-- A violation that is the first of its policy identifier in the list and
whose severity the converter does not accept. -/
def firstSeenInvalid (violations : List Violation) (v : Violation) : Prop :=
  firstWith violations v.PolicyID = some v ∧ isSeverityValid v.Severity = false

instance (violations : List Violation) (v : Violation) :
    Decidable (firstSeenInvalid violations v) := by
  unfold firstSeenInvalid; infer_instance

/-- The flag of a threshold as the claim of the zero-count override words it:
the count reaches the threshold raised to 1 at least. -/
def flagSpec (c t : Int) : Bool := decide (c ≥ max t 1)

/-- The threshold map with every threshold 0 replaced by 1. -/
def raiseZero : GoMap Int → GoMap Int
  | GoMap.nil => GoMap.nil
  | GoMap.mk es => GoMap.mk (es.map (fun e => (e.1, if e.2 = 0 then 1 else e.2)))

/-- The flag of a threshold entry in terms of the number of violations. -/
def reached (violations : List Violation) (e : Str × Int) : Bool :=
  decide ((countSeverity violations e.1 : Int) ≥ 1 ∧ (countSeverity violations e.1 : Int) ≥ e.2)

/-- How the loop of `ParseFailureExpression` ends: it is left by a return
statement or a panic, or it completes with an operator and a map. -/
inductive LoopEnd where
  | leaves (result : Outcome ParseResult) : LoopEnd
  | completes (operator : Str) (userViolationCount : List (Str × Int)) : LoopEnd
  deriving DecidableEq

/-- The loop of `ParseFailureExpression` alone, without the two checks that
follow it. -/
def runLoop : List Str → Str → List (Str × Int) → LoopEnd
  | [], operator, userViolationCount => LoopEnd.completes operator userViolationCount
  | pair :: rest, operator, userViolationCount =>
    match Split pair ':' with
    | [] => LoopEnd.leaves Outcome.panics
    | part0 :: parts =>
      let key := ToUpper part0
      if key = "OPERATOR".toList then
        match parts with
        | [] => LoopEnd.leaves Outcome.panics
        | part1 :: _ =>
          match validateOperator operator (ToUpper part1) with
          | (_, some err) => LoopEnd.leaves (parseFail err)
          | (op, none) => runLoop rest op userViolationCount
      else if ((GoMap.mk userViolationCount).lookup key).isSome then
        LoopEnd.leaves (parseFail (Error.duplicateSeverity key))
      else
        match parts with
        | [] => LoopEnd.leaves Outcome.panics
        | part1 :: _ =>
          match Atoi part1 with
          | Except.error err => LoopEnd.leaves (parseFail (Error.convertingValue err))
          | Except.ok value =>
            match validateSeverity key value with
            | some err => LoopEnd.leaves (parseFail err)
            | none => runLoop rest operator (setEntry userViolationCount key value)

/-- The two checks after the loop, when the loop completes. -/
def afterLoop : LoopEnd → Outcome ParseResult
  | LoopEnd.leaves result => result
  | LoopEnd.completes operator userViolationCount => parseLoop [] operator userViolationCount

/-! ## Inputs of the examples -/

/-- A report of two critical findings, one written in lower case. -/
def twoCritical : IACReportTemplate :=
  { Response := { IacValidationReport := { Violations :=
      [{ Severity := "critical".toList }, { Severity := "CRITICAL".toList }] } } }

/-- A report with one finding of each level, in mixed case. -/
def oneOfEach : IACReportTemplate :=
  { Response := { IacValidationReport := { Violations :=
      [{ Severity := "CRITICAL".toList }, { Severity := "high".toList },
       { Severity := "Medium".toList }, { Severity := "LOW".toList },
       { Severity := "HIGH".toList }] } } }

/-- The pairs of "HiGH:1,oPERATOR:oR,critical:02". -/
def mixedCasePairs : List Token :=
  [Token.severity "HiGH".toList "1".toList, Token.operator "oPERATOR".toList "oR".toList,
   Token.severity "critical".toList "02".toList]

/-- The pairs of "critical:9223372036854775808,operator:or". -/
def overflowingPairs : List Token :=
  [Token.severity "critical".toList "9223372036854775808".toList,
   Token.operator "operator".toList "or".toList]

/-- The thresholds CRITICAL:2 and HIGH:1. -/
def criticalHigh : GoMap Int := GoMap.mk [("CRITICAL".toList, 2), ("HIGH".toList, 1)]

/-- A report of two critical findings and a high one. -/
def breaching : IACReportTemplate :=
  { Response := { IacValidationReport := { Violations :=
      [{ Severity := "CRITICAL".toList }, { Severity := "CRITICAL".toList },
       { Severity := "HIGH".toList }] } } }

/-- The report `breaching` with a medium finding added in the middle. -/
def breachingPlusMedium : IACReportTemplate :=
  { Response := { IacValidationReport := { Violations :=
      [{ Severity := "CRITICAL".toList }, { Severity := "medium".toList },
       { Severity := "CRITICAL".toList }, { Severity := "HIGH".toList }] } } }

/-- The pairs of "oPerator:or". -/
def operatorOnlyPairs : List Token := [Token.operator "oPerator".toList "or".toList]

/-- The pairs of "critical:2,high:1,medium:3". -/
def severityOnlyPairs : List Token :=
  [Token.severity "critical".toList "2".toList, Token.severity "high".toList "1".toList,
   Token.severity "medium".toList "3".toList]

/-- The valid report of the tests of the converter. -/
def IACValidationValidReport : IACValidationReport :=
  { Violations :=
      [{ AssetID := "Asset 1".toList
         PolicyID := "P1".toList
         Severity := "HIGH".toList
         ViolatedPolicy :=
           { Description := "High-level violation message".toList
             ConstraintType := "Type 1".toList
             ComplianceStandards := ["Standard 1".toList] }
         NextSteps := "Next steps 1".toList
         ViolatedPosture :=
           { PolicySet := "Set 1".toList
             Posture := "Posture 1".toList
             PostureRevisionID := "Rev 1".toList
             PostureDeployment := "Dep 1".toList }
         ViolatedAsset := { AssetType := "Type 1".toList, Asset := "Asset 1".toList } }] }

/-- The report of the tests of the converter whose severity is invalid. -/
def IACValidationReportWithInvalidSeverity : IACValidationReport :=
  { Violations :=
      [{ AssetID := "Asset 1".toList
         PolicyID := "P1".toList
         Severity := "INVALID_SEVERITY".toList
         NextSteps := "Next steps 1".toList }] }

/-- The output the tests of the converter expect for the valid report. -/
def IACValidSarifOutput : SarifOutput :=
  { Version := "2.1.0".toList
    Schema :=
      "https://raw.githubusercontent.com/oasis-tcs/sarif-spec/master/Schemata/sarif-schema-2.1.0.json".toList
    Runs :=
      [{ Tool :=
          { Driver :=
            { Name := "analyze-code-security-scc".toList
              Version := "1.0.0".toList
              InformationURI :=
                "https://cloud.google.com/security-command-center/docs/validate-iac".toList
              Rules :=
                [{ ID := "P1".toList
                   FullDescription := { Text := "High-level violation message".toList }
                   Properties :=
                     { Severity := "HIGH".toList
                       PolicyType := "Type 1".toList
                       ComplianceStandard := ["Standard 1".toList]
                       PolicySet := "Set 1".toList
                       Posture := "Posture 1".toList
                       PostureRevisionID := "Rev 1".toList
                       PostureDeploymentID := "Dep 1".toList
                       NextSteps := "Next steps 1".toList } }] } }
         Results :=
           [{ RuleID := "P1".toList
              Message :=
                { Text := "Asset type: Type 1 has a violation, next steps: Next steps 1".toList }
              Locations :=
                [{ LogicalLocations := [{ FullyQualifiedName := "Asset 1".toList }] }]
              Properties :=
                { AssetID := "Asset 1".toList
                  Asset := "Asset 1".toList
                  AssetType := "Type 1".toList } }] }] }

/-- Three violations, the first and the last of the same policy. -/
def sharedPolicy : IACValidationReport :=
  { Violations :=
      [{ PolicyID := "P1".toList, Severity := "HIGH".toList, NextSteps := "first".toList },
       { PolicyID := "P2".toList, Severity := "LOW".toList },
       { PolicyID := "P1".toList, Severity := "MEDIUM".toList, NextSteps := "last".toList }] }

/-- Two violations of the same policy, the second of an invalid severity. -/
def duplicateInvalid : IACValidationReport :=
  { Violations :=
      [{ PolicyID := "P1".toList, Severity := "HIGH".toList },
       { PolicyID := "P1".toList, Severity := "INVALID".toList }] }

/-- One violation whose severity is written in lower case. -/
def lowerCaseHigh : IACValidationReport :=
  { Violations := [{ PolicyID := "P1".toList, Severity := "high".toList }] }

/-- Two violations of two policies. -/
def twoPolicies : IACValidationReport :=
  { Violations :=
      [{ PolicyID := "P1".toList, Severity := "HIGH".toList },
       { PolicyID := "P2".toList, Severity := "LOW".toList }] }

/-- A report with a valid and an invalid severity. -/
def invalidSeverityReport : IACReportTemplate :=
  { Response := { IacValidationReport := { Violations :=
      [{ Severity := "CRITICAL".toList }, { Severity := "INVALID".toList }] } } }

/-- The counts CRITICAL:3 and HIGH:0. -/
def threeCritical : GoMap Int := GoMap.mk [("CRITICAL".toList, 3), ("HIGH".toList, 0)]

/-- The thresholds CRITICAL:0, HIGH:0 and LOW:2. -/
def zeroThresholds : GoMap Int :=
  GoMap.mk [("CRITICAL".toList, 0), ("HIGH".toList, 0), ("LOW".toList, 2)]

/-- The report `twoCritical` with a high finding appended. -/
def twoCriticalPlusHigh : IACReportTemplate :=
  { Response := { IacValidationReport := { Violations :=
      [{ Severity := "critical".toList }, { Severity := "CRITICAL".toList },
       { Severity := "High".toList }] } } }

/-- A report of one low finding. -/
def oneLow : IACReportTemplate :=
  { Response := { IacValidationReport := { Violations := [{ Severity := "low".toList }] } } }

/-- The thresholds high:5 and HIGH:1, two keys that upper-casing makes one,
ranged over in this order. -/
def highTwice : GoMap Int := GoMap.mk [("high".toList, 5), ("HIGH".toList, 1)]

/-- The map `highTwice` ranged over in the other order. -/
def highTwiceReversed : GoMap Int := GoMap.mk [("HIGH".toList, 1), ("high".toList, 5)]

/-- A report of one high finding. -/
def oneHigh : IACReportTemplate :=
  { Response := { IacValidationReport := { Violations := [{ Severity := "HIGH".toList }] } } }

/-- The report `oneHigh` with a medium finding added. -/
def oneHighPlusMedium : IACReportTemplate :=
  { Response := { IacValidationReport := { Violations :=
      [{ Severity := "HIGH".toList }, { Severity := "MEDIUM".toList }] } } }

/-- The map `criticalHigh` ranged over in the other order. -/
def highCritical : GoMap Int := GoMap.mk [("HIGH".toList, 1), ("CRITICAL".toList, 2)]

/-- A report of one high finding, written with the dotless i (U+0131). -/
def dotlessHigh : IACReportTemplate :=
  { Response := { IacValidationReport := { Violations := [{ Severity := "hıgh".toList }] } } }

/-! ## Lemmas on maps -/

theorem setEntry_of_not_mem {V : Type} (es : List (Str × V)) (k : Str) (v : V)
    (h : k ∉ es.map Prod.fst) : setEntry es k v = es ++ [(k, v)] := by
  induction es with
  | nil => rfl
  | cons e rest ih =>
    obtain ⟨k', v'⟩ := e
    simp only [List.map_cons, List.mem_cons, not_or] at h
    have hne : ¬ k' = k := fun hk => h.1 hk.symm
    simp [setEntry, hne, ih h.2]

theorem keys_setEntry {V : Type} (es : List (Str × V)) (k : Str) (v : V) :
    ∀ k', k' ∈ (setEntry es k v).map Prod.fst ↔ k' = k ∨ k' ∈ es.map Prod.fst := by
  induction es with
  | nil => intro k'; simp [setEntry]
  | cons e rest ih =>
    obtain ⟨k0, v0⟩ := e
    intro k'
    by_cases hk : k0 = k
    · subst hk
      simp only [setEntry, if_true, List.map_cons, List.mem_cons]
      tauto
    · simp only [setEntry, hk, if_false, List.map_cons, List.mem_cons, ih k']
      tauto

theorem nodup_setEntry {V : Type} (es : List (Str × V)) (k : Str) (v : V)
    (h : (es.map Prod.fst).Nodup) : ((setEntry es k v).map Prod.fst).Nodup := by
  induction es with
  | nil => simp [setEntry]
  | cons e rest ih =>
    obtain ⟨k0, v0⟩ := e
    simp only [List.map_cons, List.nodup_cons] at h
    by_cases hk : k0 = k
    · subst hk
      simp only [setEntry, if_true, List.map_cons, List.nodup_cons]
      exact h
    · simp only [setEntry, hk, if_false, List.map_cons, List.nodup_cons]
      refine ⟨?_, ih h.2⟩
      rw [keys_setEntry]
      rintro (h1 | h1)
      · exact hk h1
      · exact h.1 h1

theorem lookup_mk_cons {V : Type} (k0 : Str) (v0 : V) (rest : List (Str × V)) (k : Str) :
    (GoMap.mk ((k0, v0) :: rest)).lookup k
      = if k0 = k then some v0 else (GoMap.mk rest).lookup k := by
  by_cases hk : k0 = k <;> simp [GoMap.lookup, GoMap.entries, List.find?, hk]

theorem lookup_setEntry {V : Type} (es : List (Str × V)) (k : Str) (v : V) (k' : Str) :
    (GoMap.mk (setEntry es k v)).lookup k'
      = if k = k' then some v else (GoMap.mk es).lookup k' := by
  induction es with
  | nil => simp [setEntry, lookup_mk_cons, GoMap.lookup, GoMap.entries]
  | cons e rest ih =>
    obtain ⟨k0, v0⟩ := e
    by_cases hk : k0 = k
    · subst hk
      simp only [setEntry, if_true, lookup_mk_cons]
      by_cases hk' : k0 = k'
      · simp only [hk', if_true]
      · simp only [hk', if_false]
    · simp only [setEntry, hk, if_false, lookup_mk_cons, ih]
      by_cases hk0 : k0 = k'
      · subst hk0
        have : ¬ k = k0 := fun h => hk h.symm
        simp only [this, if_true, if_false]
      · simp only [hk0, if_false]

theorem lookup_eq_none_iff {V : Type} (es : List (Str × V)) (k : Str) :
    (GoMap.mk es).lookup k = none ↔ k ∉ es.map Prod.fst := by
  induction es with
  | nil => simp [GoMap.lookup, GoMap.entries]
  | cons e rest ih =>
    obtain ⟨k0, v0⟩ := e
    rw [lookup_mk_cons]
    by_cases hk : k0 = k
    · subst hk
      simp only [if_true, List.map_cons, List.mem_cons, true_or, not_true_eq_false,
        iff_false]
      exact fun h => Option.noConfusion h
    · have hk' : ¬ k = k0 := fun h => hk h.symm
      simp only [hk, if_false, ih, List.map_cons, List.mem_cons, hk', false_or]

theorem lookup_of_mem {V : Type} (es : List (Str × V)) (h : (es.map Prod.fst).Nodup)
    (k : Str) (v : V) (hm : (k, v) ∈ es) : (GoMap.mk es).lookup k = some v := by
  induction es with
  | nil => simp at hm
  | cons e rest ih =>
    obtain ⟨k0, v0⟩ := e
    simp only [List.map_cons, List.nodup_cons] at h
    rw [lookup_mk_cons]
    rcases List.mem_cons.1 hm with heq | hrest
    · simp only [Prod.mk.injEq] at heq
      simp [heq.1, heq.2]
    · have hne : ¬ k0 = k := by
        intro hk
        apply h.1
        rw [hk]
        exact List.mem_map_of_mem Prod.fst hrest
      simp [hne, ih h.2 hrest]

/-! ## Lemmas on the validator -/

theorem allLoop_iff (es : List (Str × Bool)) :
    allLoop es = true ↔ ∀ e ∈ es, e.2 = true := by
  induction es with
  | nil => simp [allLoop]
  | cons e rest ih =>
    obtain ⟨k, v⟩ := e
    cases v <;> simp [allLoop, ih]

theorem anyLoop_iff (es : List (Str × Bool)) :
    anyLoop es = true ↔ ∃ e ∈ es, e.2 = true := by
  induction es with
  | nil => simp [anyLoop]
  | cons e rest ih =>
    obtain ⟨k, v⟩ := e
    cases v <;> simp [anyLoop, ih]

theorem all_iff (m : GoMap Bool) :
    all m = true ↔ m.entries ≠ [] ∧ ∀ e ∈ m.entries, e.2 = true := by
  unfold all GoMap.len
  by_cases h : m.entries = []
  · simp [h]
  · have hl : ¬ m.entries.length = 0 := by
      simpa [List.length_eq_zero] using h
    simp [hl, h, allLoop_iff]

theorem any_iff (m : GoMap Bool) :
    any m = true ↔ ∃ e ∈ m.entries, e.2 = true := by
  unfold any GoMap.len
  by_cases h : m.entries = []
  · simp [h]
  · have hl : ¬ m.entries.length = 0 := by
      simpa [List.length_eq_zero] using h
    simp [hl, anyLoop_iff]

theorem computeLoop_eq (severityCounts : GoMap Int) (es : List (Str × Int)) :
    ∀ acc : List (Str × Bool),
      (es.map Prod.fst).Nodup →
      (∀ k ∈ es.map Prod.fst, ToUpper k = k) →
      (∀ k ∈ es.map Prod.fst, k ∉ acc.map Prod.fst) →
      computeLoop severityCounts es acc
        = acc ++ es.map (fun e => (e.1, breachFlag severityCounts e.1 e.2)) := by
  induction es with
  | nil => intro acc _ _ _; simp [computeLoop]
  | cons e rest ih =>
    obtain ⟨k, t⟩ := e
    intro acc hnd hup hdisj
    simp only [List.map_cons, List.nodup_cons] at hnd
    have hk : ToUpper k = k := hup k (by simp)
    have hnot : k ∉ acc.map Prod.fst := hdisj k (by simp)
    have hstep : ∀ b : Bool, computeLoop severityCounts rest (setEntry acc k b)
        = (acc ++ [(k, b)]) ++ rest.map (fun e => (e.1, breachFlag severityCounts e.1 e.2)) := by
      intro b
      rw [setEntry_of_not_mem acc k b hnot]
      apply ih _ hnd.2
      · intro k' hk'
        exact hup k' (by simp [hk'])
      · intro k' hk'
        have h1 : k' ∉ acc.map Prod.fst := hdisj k' (by simp [hk'])
        have h2 : k' ≠ k := by
          rintro rfl
          exact hnd.1 hk'
        simp only [List.map_append, List.map_cons, List.map_nil, List.mem_append,
          List.mem_singleton, not_or]
        exact ⟨h1, h2⟩
    simp only [computeLoop, hk, breachFlag]
    by_cases h0 : severityCounts.index k = 0
    · simp only [h0, if_true]
      rw [hstep]
      simp only [List.append_assoc, List.singleton_append, List.map_cons, breachFlag, h0,
        if_true]
    · simp only [h0, if_false]
      rw [hstep]
      simp only [List.append_assoc, List.singleton_append, List.map_cons, breachFlag, h0,
        if_false]

theorem computeViolationState_eq (severityCounts thresholds : GoMap Int)
    (hwf : thresholds.WF) (hupper : ∀ k ∈ thresholds.keys, isUpperCase k) :
    computeViolationState severityCounts thresholds
      = GoMap.mk (thresholds.entries.map
          (fun e => (e.1, breachFlag severityCounts e.1 e.2))) := by
  unfold computeViolationState
  rw [computeLoop_eq severityCounts thresholds.entries [] hwf hupper (by simp)]
  rfl

theorem breachFlag_iff (severityCounts : GoMap Int) (k : Str) (t : Int) :
    breachFlag severityCounts k t = true
      ↔ severityCounts.index k ≠ 0 ∧ severityCounts.index k ≥ t := by
  unfold breachFlag
  by_cases h0 : severityCounts.index k = 0
  · simp [h0]
  · simp [h0]

theorem countSeverity_cons (v : Violation) (rest : List Violation) (k : Str) :
    countSeverity (v :: rest) k
      = countSeverity rest k + (if ToUpper v.Severity = k then 1 else 0) := by
  unfold countSeverity
  rw [List.countP_cons]
  by_cases h : ToUpper v.Severity = k <;> simp [h]

theorem countSeverity_pos_iff (vs : List Violation) (k : Str) :
    countSeverity vs k ≠ 0 ↔ ∃ v ∈ vs, ToUpper v.Severity = k := by
  unfold countSeverity
  rw [Nat.ne_zero_iff_zero_lt, List.countP_pos_iff]
  simp

theorem fetchLoop_valid (vs : List Violation) :
    ∀ acc : List (Str × Int), (∀ v ∈ vs, validSeverity v) →
      ∃ es, fetchLoop vs acc = (GoMap.mk es, none)
        ∧ ((acc.map Prod.fst).Nodup → (es.map Prod.fst).Nodup)
        ∧ ∀ k, (GoMap.mk es).lookup k = countedFrom acc vs k := by
  induction vs with
  | nil =>
    intro acc _
    refine ⟨acc, rfl, id, ?_⟩
    intro k
    unfold countedFrom
    cases h : (GoMap.mk acc).lookup k <;> simp [countSeverity]
  | cons v rest ih =>
    intro acc hvalid
    have hv : isSeverityName (ToUpper v.Severity) = true := hvalid v (by simp)
    obtain ⟨es, hes, hnd, hlook⟩ :=
      ih (setEntry acc (ToUpper v.Severity)
            ((GoMap.mk acc).index (ToUpper v.Severity) + 1))
        (fun w hw => hvalid w (by simp [hw]))
    refine ⟨es, ?_, fun h => hnd (nodup_setEntry _ _ _ h), ?_⟩
    · simp only [fetchLoop, hv, Bool.not_true, Bool.false_eq_true, if_false]
      exact hes
    · intro k
      rw [hlook k]
      unfold countedFrom
      rw [lookup_setEntry, countSeverity_cons]
      by_cases hk : ToUpper v.Severity = k
      · subst hk
        simp only [if_true, GoMap.index]
        cases h : (GoMap.mk acc).lookup (ToUpper v.Severity) with
        | none =>
          simp only [Option.getD_none]
          have : ¬ countSeverity rest (ToUpper v.Severity) + 1 = 0 := by omega
          simp only [this, if_false, Option.some.injEq]
          push_cast
          ring
        | some c =>
          simp only [Option.getD_some, Option.some.injEq]
          push_cast
          ring
      · simp only [hk, if_false, Nat.add_zero]

theorem fetchLoop_invalid (vs : List Violation) :
    ∀ acc : List (Str × Int), (∃ v ∈ vs, ¬ validSeverity v) →
      ∃ s, isSeverityName s = false
        ∧ fetchLoop vs acc = (GoMap.nil, some (Error.invalidSeverityExpression s)) := by
  induction vs with
  | nil => intro acc h; simp at h
  | cons v rest ih =>
    intro acc h
    by_cases hv : isSeverityName (ToUpper v.Severity) = true
    · have hrest : ∃ w ∈ rest, ¬ validSeverity w := by
        obtain ⟨w, hw, hbad⟩ := h
        rcases List.mem_cons.1 hw with rfl | hw'
        · exact absurd hv hbad
        · exact ⟨w, hw', hbad⟩
      obtain ⟨s, hs, heq⟩ := ih (setEntry acc (ToUpper v.Severity)
            ((GoMap.mk acc).index (ToUpper v.Severity) + 1)) hrest
      refine ⟨s, hs, ?_⟩
      simp only [fetchLoop, hv, Bool.not_true, Bool.false_eq_true, if_false]
      exact heq
    · have hv' : isSeverityName (ToUpper v.Severity) = false := by
        simpa using hv
      refine ⟨ToUpper v.Severity, hv', ?_⟩
      simp [fetchLoop, hv']

theorem fetch_valid (iacReport : IACReportTemplate)
    (hvalid : ∀ v ∈ violationsOf iacReport, validSeverity v) :
    ∃ es, fetchViolationFromIACReport iacReport = (GoMap.mk es, none)
      ∧ (es.map Prod.fst).Nodup
      ∧ ∀ k, (GoMap.mk es).lookup k
          = if countSeverity (violationsOf iacReport) k = 0 then none
            else some (countSeverity (violationsOf iacReport) k : Int) := by
  obtain ⟨es, hes, hnd, hlook⟩ := fetchLoop_valid (violationsOf iacReport) [] hvalid
  refine ⟨es, hes, hnd (by simp), ?_⟩
  intro k
  rw [hlook k]
  simp [countedFrom, GoMap.lookup, GoMap.entries]

theorem index_of_lookup (es : List (Str × Int)) (k : Str) (n : Nat)
    (h : (GoMap.mk es).lookup k = if n = 0 then none else some (n : Int)) :
    (GoMap.mk es).index k = (n : Int) := by
  unfold GoMap.index
  rw [h]
  by_cases hn : n = 0 <;> simp [hn]

/-! ## The verdict -/

/-- C1: on a report whose violations all have a valid severity, with a
threshold map of distinct upper-case keys and operator AND or OR,
EvaluateIACScanReport returns no error; under OR the verdict is true exactly
when some threshold key has a count of at least one that reaches its
threshold, under AND exactly when the map is non-empty and every key has
such a count. -/
theorem EvaluateIACScanReport_verdict (iacReport : IACReportTemplate)
    (thresholds : GoMap Int) (operator : Str)
    (hvalid : ∀ v ∈ violationsOf iacReport, validSeverity v)
    (hwf : thresholds.WF) (hupper : ∀ k ∈ thresholds.keys, isUpperCase k)
    (hop : operator = "AND".toList ∨ operator = "OR".toList) :
    (EvaluateIACScanReport iacReport thresholds operator).2 = none
    ∧ (operator = "OR".toList →
        ((EvaluateIACScanReport iacReport thresholds operator).1 = true
          ↔ ∃ e ∈ thresholds.entries,
              (countSeverity (violationsOf iacReport) e.1 : Int) ≥ 1
              ∧ (countSeverity (violationsOf iacReport) e.1 : Int) ≥ e.2))
    ∧ (operator = "AND".toList →
        ((EvaluateIACScanReport iacReport thresholds operator).1 = true
          ↔ thresholds.entries ≠ []
            ∧ ∀ e ∈ thresholds.entries,
              (countSeverity (violationsOf iacReport) e.1 : Int) ≥ 1
              ∧ (countSeverity (violationsOf iacReport) e.1 : Int) ≥ e.2)) := by
  obtain ⟨es, hes, _, hlook⟩ := fetch_valid iacReport hvalid
  have hidx : ∀ k, (GoMap.mk es).index k = (countSeverity (violationsOf iacReport) k : Int) :=
    fun k => index_of_lookup es k _ (hlook k)
  have hflag : ∀ e : Str × Int, breachFlag (GoMap.mk es) e.1 e.2 = true
      ↔ (countSeverity (violationsOf iacReport) e.1 : Int) ≥ 1
        ∧ (countSeverity (violationsOf iacReport) e.1 : Int) ≥ e.2 := by
    intro e
    rw [breachFlag_iff, hidx]
    constructor
    · rintro ⟨h1, h2⟩
      exact ⟨by omega, h2⟩
    · rintro ⟨h1, h2⟩
      exact ⟨by omega, h2⟩
  have heval : EvaluateIACScanReport iacReport thresholds operator
      = isBreachingThreshold operator (GoMap.mk (thresholds.entries.map
          (fun e => (e.1, breachFlag (GoMap.mk es) e.1 e.2)))) := by
    unfold EvaluateIACScanReport
    rw [hes]
    simp only
    rw [computeViolationState_eq _ _ hwf hupper]
  rw [heval]
  refine ⟨?_, ?_, ?_⟩
  · rcases hop with h | h <;> subst h <;> simp [isBreachingThreshold]
  · intro h
    subst h
    have hne : ¬ "OR".toList = "AND".toList := by decide
    simp only [isBreachingThreshold, hne, if_false, if_true, any_iff, GoMap.entries]
    constructor
    · rintro ⟨e', he', hb⟩
      obtain ⟨e, he, rfl⟩ := List.mem_map.1 he'
      exact ⟨e, he, (hflag e).1 hb⟩
    · rintro ⟨e, he, hb⟩
      exact ⟨_, List.mem_map_of_mem _ he, (hflag e).2 hb⟩
  · intro h
    subst h
    simp only [isBreachingThreshold, if_true, all_iff, GoMap.entries]
    constructor
    · rintro ⟨hnil, hall⟩
      refine ⟨fun h0 => hnil (by rw [h0]; rfl), ?_⟩
      intro e he
      exact (hflag e).1 (hall _ (List.mem_map_of_mem _ he))
    · rintro ⟨hnil, hall⟩
      refine ⟨fun h0 => hnil (List.map_eq_nil_iff.1 h0), ?_⟩
      intro e' he'
      obtain ⟨e, he, rfl⟩ := List.mem_map.1 he'
      exact (hflag e).2 (hall e he)

/-- Witness of C1: two critical findings against the threshold CRITICAL:2
under OR. -/
theorem EvaluateIACScanReport_verdict_witness :
    (∀ v ∈ violationsOf twoCritical, validSeverity v)
    ∧ (GoMap.mk [("CRITICAL".toList, (2 : Int))]).WF
    ∧ EvaluateIACScanReport twoCritical (GoMap.mk [("CRITICAL".toList, 2)]) "OR".toList
        = (true, none)
    ∧ (EvaluateIACScanReport twoCritical (GoMap.mk [("CRITICAL".toList, 2)])
        "OR".toList).2 = none :=
  ⟨by decide, by decide, by decide,
    (EvaluateIACScanReport_verdict twoCritical (GoMap.mk [("CRITICAL".toList, 2)])
      "OR".toList (by decide) (by decide) (by decide) (by decide)).1⟩

/-- C2: for a threshold map with upper-case keys, computeViolationState
returns a flag map whose keys are exactly the threshold keys; the flag of a
key is false when its observed count is zero or absent, whatever the
threshold, and otherwise tells whether the count reaches the threshold. -/
theorem computeViolationState_flags (severityCounts thresholds : GoMap Int)
    (hwf : thresholds.WF) (hupper : ∀ k ∈ thresholds.keys, isUpperCase k) :
    (computeViolationState severityCounts thresholds).WF
    ∧ (∀ k, k ∈ (computeViolationState severityCounts thresholds).keys
          ↔ k ∈ thresholds.keys)
    ∧ (∀ k t, (k, t) ∈ thresholds.entries →
        (severityCounts.index k = 0 →
          (computeViolationState severityCounts thresholds).lookup k = some false)
        ∧ (severityCounts.index k ≠ 0 →
          (computeViolationState severityCounts thresholds).lookup k
            = some (decide (severityCounts.index k ≥ t)))) := by
  rw [computeViolationState_eq _ _ hwf hupper]
  have hkeys : (thresholds.entries.map
      (fun e => (e.1, breachFlag severityCounts e.1 e.2))).map Prod.fst
        = thresholds.entries.map Prod.fst := by
    rw [List.map_map]; rfl
  refine ⟨?_, ?_, ?_⟩
  · show ((thresholds.entries.map
      (fun e => (e.1, breachFlag severityCounts e.1 e.2))).map Prod.fst).Nodup
    rw [hkeys]
    exact hwf
  · intro k
    show k ∈ (thresholds.entries.map
      (fun e => (e.1, breachFlag severityCounts e.1 e.2))).map Prod.fst ↔ _
    rw [hkeys]
    rfl
  · intro k t hkt
    have hl := lookup_of_mem
      (thresholds.entries.map (fun e => (e.1, breachFlag severityCounts e.1 e.2)))
      (by rw [hkeys]; exact hwf) k (breachFlag severityCounts k t)
      (List.mem_map.2 ⟨(k, t), hkt, rfl⟩)
    rw [hl]
    constructor
    · intro h0
      simp [breachFlag, h0]
    · intro h0
      simp [breachFlag, h0]

/-- Witness of C2: counts CRITICAL:2 and MEDIUM:0 against thresholds
CRITICAL:2 and MEDIUM:0. -/
theorem computeViolationState_flags_witness :
    (GoMap.mk [("CRITICAL".toList, (2 : Int)), ("MEDIUM".toList, 0)]).WF
    ∧ computeViolationState
        (GoMap.mk [("CRITICAL".toList, 2), ("MEDIUM".toList, 0)])
        (GoMap.mk [("CRITICAL".toList, 2), ("MEDIUM".toList, 0)])
      = GoMap.mk [("CRITICAL".toList, true), ("MEDIUM".toList, false)]
    ∧ (computeViolationState
        (GoMap.mk [("CRITICAL".toList, 2), ("MEDIUM".toList, 0)])
        (GoMap.mk [("CRITICAL".toList, 2), ("MEDIUM".toList, 0)])).WF :=
  ⟨by decide, by decide,
    (computeViolationState_flags
      (GoMap.mk [("CRITICAL".toList, 2), ("MEDIUM".toList, 0)])
      (GoMap.mk [("CRITICAL".toList, 2), ("MEDIUM".toList, 0)])
      (by decide) (by decide)).1⟩

/-- C3: with operator AND, isBreachingThreshold returns without error, and
returns true exactly when the flag map is non-empty and every flag in it is
true; the empty flag map gives false. -/
theorem isBreachingThreshold_AND (failureCriteriaViolations : GoMap Bool) :
    (isBreachingThreshold "AND".toList failureCriteriaViolations).2 = none
    ∧ ((isBreachingThreshold "AND".toList failureCriteriaViolations).1 = true
        ↔ failureCriteriaViolations.len ≠ 0
          ∧ ∀ e ∈ failureCriteriaViolations.entries, e.2 = true)
    ∧ isBreachingThreshold "AND".toList (GoMap.mk []) = (false, none)
    ∧ isBreachingThreshold "AND".toList GoMap.nil = (false, none) := by
  refine ⟨by simp [isBreachingThreshold], ?_, by decide, by decide⟩
  simp only [isBreachingThreshold, if_true, all_iff, GoMap.len, ne_eq,
    List.length_eq_zero]

/-- C4: with operator OR, isBreachingThreshold returns without error, and
returns true exactly when at least one flag of the map is true; the empty
flag map gives false. -/
theorem isBreachingThreshold_OR (failureCriteriaViolations : GoMap Bool) :
    (isBreachingThreshold "OR".toList failureCriteriaViolations).2 = none
    ∧ ((isBreachingThreshold "OR".toList failureCriteriaViolations).1 = true
        ↔ ∃ e ∈ failureCriteriaViolations.entries, e.2 = true)
    ∧ isBreachingThreshold "OR".toList (GoMap.mk []) = (false, none)
    ∧ isBreachingThreshold "OR".toList GoMap.nil = (false, none) := by
  have hne : ¬ "OR".toList = "AND".toList := by decide
  refine ⟨by simp [isBreachingThreshold, hne], ?_, by decide, by decide⟩
  simp only [isBreachingThreshold, hne, if_false, if_true, any_iff]

/-- C5: for an operator string other than exactly AND or OR,
isBreachingThreshold returns an error that carries the operator, and the
boolean beside the error is true, whatever the flag map. -/
theorem isBreachingThreshold_invalid (operator : Str)
    (failureCriteriaViolations : GoMap Bool)
    (hand : operator ≠ "AND".toList) (hor : operator ≠ "OR".toList) :
    isBreachingThreshold operator failureCriteriaViolations
      = (true, some (Error.invalidSeverityOperator operator)) := by
  unfold isBreachingThreshold
  rw [if_neg hand, if_neg hor]

/-- Witness of C5: the lower-case operator "and" is not taken for AND. -/
theorem isBreachingThreshold_invalid_witness :
    "and".toList ≠ "AND".toList ∧ "and".toList ≠ "OR".toList
    ∧ isBreachingThreshold "and".toList (GoMap.mk [("HIGH".toList, false)])
      = (true, some (Error.invalidSeverityOperator "and".toList)) :=
  ⟨by decide, by decide,
    isBreachingThreshold_invalid "and".toList (GoMap.mk [("HIGH".toList, false)])
      (by decide) (by decide)⟩

/-- C6: on a violation list whose severities are all, ignoring case, one of
the four levels, fetchViolationFromIACReport succeeds with a map whose keys
are exactly the upper-cased severities that occur, each mapped to the number
of violations of that severity; no key maps to 0 and the empty list gives
the empty map. -/
theorem fetchViolationFromIACReport_counts (iacReport : IACReportTemplate)
    (hvalid : ∀ v ∈ violationsOf iacReport, validSeverity v) :
    (fetchViolationFromIACReport iacReport).2 = none
    ∧ (fetchViolationFromIACReport iacReport).1 ≠ GoMap.nil
    ∧ (fetchViolationFromIACReport iacReport).1.WF
    ∧ (∀ k, k ∈ (fetchViolationFromIACReport iacReport).1.keys
        ↔ ∃ v ∈ violationsOf iacReport, ToUpper v.Severity = k)
    ∧ (∀ k ∈ (fetchViolationFromIACReport iacReport).1.keys,
        (fetchViolationFromIACReport iacReport).1.lookup k
          = some (countSeverity (violationsOf iacReport) k : Int))
    ∧ (∀ k, (fetchViolationFromIACReport iacReport).1.lookup k ≠ some 0)
    ∧ (violationsOf iacReport = [] →
        fetchViolationFromIACReport iacReport = (GoMap.mk [], none)) := by
  obtain ⟨es, hes, hnd, hlook⟩ := fetch_valid iacReport hvalid
  have hkey : ∀ k, k ∈ es.map Prod.fst ↔ countSeverity (violationsOf iacReport) k ≠ 0 := by
    intro k
    constructor
    · intro hk h0
      have hnone : (GoMap.mk es).lookup k = none := by rw [hlook k, if_pos h0]
      exact (lookup_eq_none_iff es k).1 hnone hk
    · intro h0
      by_contra hk
      have hnone := (lookup_eq_none_iff es k).2 hk
      rw [hlook k, if_neg h0] at hnone
      exact Option.noConfusion hnone
  rw [hes]
  refine ⟨rfl, fun h => GoMap.noConfusion h, hnd, ?_, ?_, ?_, ?_⟩
  · intro k
    show k ∈ es.map Prod.fst ↔ _
    rw [hkey k, countSeverity_pos_iff]
  · intro k hk
    have h0 : countSeverity (violationsOf iacReport) k ≠ 0 := (hkey k).1 hk
    show (GoMap.mk es).lookup k = _
    rw [hlook k, if_neg h0]
  · intro k
    show (GoMap.mk es).lookup k ≠ _
    rw [hlook k]
    by_cases h0 : countSeverity (violationsOf iacReport) k = 0
    · rw [if_pos h0]
      exact fun h => Option.noConfusion h
    · rw [if_neg h0]
      intro h
      have h1 := Option.some.inj h
      exact h0 (by exact_mod_cast h1)
  · intro hnil
    have h0 : fetchViolationFromIACReport iacReport = (GoMap.mk [], none) := by
      unfold fetchViolationFromIACReport
      unfold violationsOf at hnil
      rw [hnil]
      rfl
    rw [← hes, h0]

/-- Witness of C6: five findings, two of them high, in mixed case. -/
theorem fetchViolationFromIACReport_counts_witness :
    (∀ v ∈ violationsOf oneOfEach, validSeverity v)
    ∧ fetchViolationFromIACReport oneOfEach
      = (GoMap.mk [("CRITICAL".toList, 1), ("HIGH".toList, 2), ("MEDIUM".toList, 1),
          ("LOW".toList, 1)], none)
    ∧ (fetchViolationFromIACReport oneOfEach).2 = none :=
  ⟨by decide, by decide, (fetchViolationFromIACReport_counts oneOfEach (by decide)).1⟩

/-- C7: fetchViolationFromIACReport returns an error exactly when some
violation has a severity that is not, after upper-casing, one of the four
levels (the empty severity among them); with the error it returns the nil
map.  The upper-casing is that of Go: the severity "hıgh", written with the
dotless i, is HIGH and gives no error. -/
theorem fetchViolationFromIACReport_error (iacReport : IACReportTemplate) :
    ((fetchViolationFromIACReport iacReport).2 ≠ none
      ↔ ∃ v ∈ violationsOf iacReport, ¬ validSeverity v)
    ∧ ((fetchViolationFromIACReport iacReport).2 ≠ none →
        (fetchViolationFromIACReport iacReport).1 = GoMap.nil)
    ∧ (∀ v : Violation, v.Severity = [] → ¬ validSeverity v)
    ∧ fetchViolationFromIACReport dotlessHigh = (GoMap.mk [("HIGH".toList, 1)], none) := by
  have hempty : ∀ v : Violation, v.Severity = [] → ¬ validSeverity v := by
    intro v hv
    unfold validSeverity
    rw [hv]
    decide
  by_cases hbad : ∃ v ∈ violationsOf iacReport, ¬ validSeverity v
  · obtain ⟨s, _, heq⟩ := fetchLoop_invalid (violationsOf iacReport) [] hbad
    have heq' : fetchViolationFromIACReport iacReport
        = (GoMap.nil, some (Error.invalidSeverityExpression s)) := heq
    rw [heq']
    exact ⟨⟨fun _ => hbad, fun _ h => Option.noConfusion h⟩, fun _ => rfl, hempty,
      by decide⟩
  · have hvalid : ∀ v ∈ violationsOf iacReport, validSeverity v := by
      intro v hv
      by_contra h
      exact hbad ⟨v, hv, h⟩
    obtain ⟨es, hes, _, _⟩ := fetch_valid iacReport hvalid
    rw [hes]
    exact ⟨⟨fun h => absurd rfl h, fun h => absurd h hbad⟩, fun h => absurd rfl h, hempty,
      by decide⟩

/-! ## Lemmas on the parser -/

theorem Split_no_sep (s : Str) (sep : Char) (h : sep ∉ s) : Split s sep = [s] := by
  induction s with
  | nil => rfl
  | cons c cs ih =>
    simp only [List.mem_cons, not_or] at h
    have hc : ¬ c = sep := fun hc => h.1 hc.symm
    simp only [Split, hc, if_false, ih h.2]

theorem Split_append (a b : Str) (sep : Char) (h : sep ∉ a) :
    Split (a ++ sep :: b) sep = a :: Split b sep := by
  induction a with
  | nil => simp only [List.nil_append, Split, if_true]
  | cons c cs ih =>
    simp only [List.mem_cons, not_or] at h
    have hc : ¬ c = sep := fun hc => h.1 hc.symm
    show Split (c :: (cs ++ sep :: b)) sep = (c :: cs) :: Split b sep
    rw [Split, if_neg hc, ih h.2]

theorem mem_ToUpper (s : Str) (c : Char) (h : c ∈ s) : toUpperRune c ∈ ToUpper s :=
  List.mem_map_of_mem toUpperRune h

theorem isSeverityName_iff (s : Str) :
    isSeverityName s = true
      ↔ s = "CRITICAL".toList ∨ s = "HIGH".toList ∨ s = "MEDIUM".toList
          ∨ s = "LOW".toList := by
  simp only [isSeverityName, Bool.or_eq_true, beq_iff_eq, or_assoc]

theorem not_mem_of_severity (name : Str) (c : Char)
    (h : isSeverityName (ToUpper name) = true)
    (hc : toUpperRune c = c)
    (hnot : c ∉ "CRITICALHIGHMEDIUMLOW".toList) : c ∉ name := by
  intro hmem
  have hu := mem_ToUpper name c hmem
  rw [hc] at hu
  apply hnot
  rcases (isSeverityName_iff _).1 h with h | h | h | h <;> rw [h] at hu
    <;> simp only [String.toList, List.mem_cons] at hu ⊢ <;> tauto

theorem not_mem_of_upper (s target : Str) (c : Char) (h : ToUpper s = target)
    (hc : toUpperRune c = c) (hnot : c ∉ target) : c ∉ s := by
  intro hmem
  have hu := mem_ToUpper s c hmem
  rw [hc, h] at hu
  exact hnot hu

theorem not_mem_of_digits (l : Str) (c : Char) (h : l.all isDigit = true)
    (hc : isDigit c = false) : c ∉ l := by
  intro hmem
  have := List.all_eq_true.1 h c hmem
  rw [hc] at this
  exact Bool.noConfusion this

theorem Atoi_literal (l : Str) (h : isLiteral l = true) (hr : digitsValue l 0 < 2 ^ 63) :
    Atoi l = Except.ok (digitsValue l 0 : Int) := by
  unfold isLiteral at h
  simp only [Bool.and_eq_true, Bool.not_eq_true', List.isEmpty_eq_false] at h
  obtain ⟨hne, hdig⟩ := h
  cases l with
  | nil => exact absurd rfl hne
  | cons c cs =>
    have hc : isDigit c = true := List.all_eq_true.1 hdig c (by simp)
    have hminus : ¬ c = '-' := by
      intro h; rw [h] at hc; exact absurd hc (by decide)
    have hplus : ¬ c = '+' := by
      intro h; rw [h] at hc; exact absurd hc (by decide)
    have hun : unsignedPart (c :: cs) = c :: cs := by
      simp only [unsignedPart, hminus, hplus, or_self, if_false]
    have hhead : ¬ (c :: cs).head? = some '-' := by
      simp only [List.head?_cons, Option.some.injEq]
      exact hminus
    have hr' : ¬ digitsValue (c :: cs) 0 ≥ 2 ^ 63 := by omega
    unfold Atoi
    simp only [hun, hdig, hhead, if_false, hr']
    simp

theorem comma_not_mem_text (t : Token) (h : t.wellFormed) : ',' ∉ t.text := by
  cases t with
  | operator key value =>
    obtain ⟨hk, hv⟩ := h
    have h1 : ',' ∉ key :=
      not_mem_of_upper key _ ',' hk (by decide) (by decide)
    have h2 : ',' ∉ value := by
      rcases hv with hv | hv
      · exact not_mem_of_upper value _ ',' hv (by decide) (by decide)
      · exact not_mem_of_upper value _ ',' hv (by decide) (by decide)
    simp only [Token.text, List.mem_append, List.mem_cons, not_or]
    exact ⟨h1, by decide, h2⟩
  | severity name literal =>
    obtain ⟨hn, hl⟩ := h
    have h1 : ',' ∉ name := not_mem_of_severity name ',' hn (by decide) (by decide)
    have h2 : ',' ∉ literal := by
      unfold isLiteral at hl
      simp only [Bool.and_eq_true] at hl
      exact not_mem_of_digits literal ',' hl.2 (by decide)
    simp only [Token.text, List.mem_append, List.mem_cons, not_or]
    exact ⟨h1, by decide, h2⟩

theorem Split_render (ts : List Token) (hne : ts ≠ []) (h : ∀ t ∈ ts, t.wellFormed) :
    Split (render ts) ',' = ts.map Token.text := by
  induction ts with
  | nil => exact absurd rfl hne
  | cons t rest ih =>
    have ht : ',' ∉ t.text := comma_not_mem_text t (h t (by simp))
    cases rest with
    | nil => simp only [render, List.map_cons, List.map_nil, Split_no_sep _ _ ht]
    | cons t' rest' =>
      have hrest := ih (by simp) (fun u hu => h u (by simp [hu]))
      show Split (t.text ++ ',' :: render (t' :: rest')) ',' = _
      rw [Split_append _ _ _ ht, hrest]
      rfl

theorem Split_operator_text (key value : Str)
    (h : (Token.operator key value).wellFormed) :
    Split (Token.operator key value).text ':' = [key, value] := by
  obtain ⟨hk, hv⟩ := h
  have h1 : ':' ∉ key := not_mem_of_upper key _ ':' hk (by decide) (by decide)
  have h2 : ':' ∉ value := by
    rcases hv with hv | hv
    · exact not_mem_of_upper value _ ':' hv (by decide) (by decide)
    · exact not_mem_of_upper value _ ':' hv (by decide) (by decide)
  show Split (key ++ ':' :: value) ':' = _
  rw [Split_append _ _ _ h1, Split_no_sep _ _ h2]

theorem Split_severity_text (name literal : Str)
    (h : (Token.severity name literal).wellFormed) :
    Split (Token.severity name literal).text ':' = [name, literal] := by
  obtain ⟨hn, hl⟩ := h
  have h1 : ':' ∉ name := not_mem_of_severity name ':' hn (by decide) (by decide)
  have h2 : ':' ∉ literal := by
    unfold isLiteral at hl
    simp only [Bool.and_eq_true] at hl
    exact not_mem_of_digits literal ':' hl.2 (by decide)
  show Split (name ++ ':' :: literal) ':' = _
  rw [Split_append _ _ _ h1, Split_no_sep _ _ h2]

theorem severity_ne_operator (s : Str) (h : isSeverityName s = true) :
    ¬ s = "OPERATOR".toList := by
  rcases (isSeverityName_iff s).1 h with h | h | h | h <;> rw [h] <;> decide

theorem keys_thresholdsOf (ts : List Token) :
    (thresholdsOf ts).map Prod.fst = severityKeys ts := by
  induction ts with
  | nil => rfl
  | cons t rest ih =>
    cases t with
    | operator key value => simpa [thresholdsOf, severityKeys] using ih
    | severity name literal => simp [thresholdsOf, severityKeys, ih]

/-- The loop run over the text of well-formed pairs: it reaches its end with
the operator and the thresholds the pairs supply. -/
theorem parseLoop_tokens (ts : List Token) :
    ∀ (operator : Str) (acc : List (Str × Int)),
      (∀ t ∈ ts, t.wellFormed) → (∀ t ∈ ts, t.inRange) →
      (operator ≠ [] → ts.filter Token.isOperator = []) →
      (ts.filter Token.isOperator).length ≤ 1 →
      (severityKeys ts).Nodup →
      (∀ k ∈ severityKeys ts, k ∉ acc.map Prod.fst) →
      parseLoop (ts.map Token.text) operator acc
        = parseLoop [] (operatorOf ts operator) (acc ++ thresholdsOf ts) := by
  induction ts with
  | nil => intro operator acc _ _ _ _ _ _; simp [operatorOf, thresholdsOf]
  | cons t rest ih =>
    intro operator acc hwf hin hop hone hnd hdisj
    have hwf' : ∀ u ∈ rest, u.wellFormed := fun u hu => hwf u (by simp [hu])
    have hin' : ∀ u ∈ rest, u.inRange := fun u hu => hin u (by simp [hu])
    cases t with
    | operator key value =>
      have ht := hwf (Token.operator key value) (by simp)
      have hempty : operator = [] := by
        by_contra hne
        have := hop hne
        simp [Token.isOperator] at this
      have hrest0 : rest.filter Token.isOperator = [] := by
        simp only [List.filter_cons, Token.isOperator, if_true, List.length_cons] at hone
        exact List.length_eq_zero.1 (by omega)
      have hval : validateOperator [] (ToUpper value) = (ToUpper value, none) := by
        unfold validateOperator
        simp only [ne_eq, not_true_eq_false, if_false, ht.2, if_true]
      simp only [List.map_cons, parseLoop, Split_operator_text key value ht, ht.1, if_true,
        hempty, hval]
      rw [ih (ToUpper value) acc hwf' hin' (fun _ => hrest0) (by simp [hrest0])
        (by simpa [severityKeys] using hnd)
        (fun k hk => hdisj k (by simpa [severityKeys] using hk))]
      rfl
    | severity name literal =>
      have ht := hwf (Token.severity name literal) (by simp)
      have hrange : digitsValue literal 0 < 2 ^ 63 := hin (Token.severity name literal) (by simp)
      have hkey : ¬ ToUpper name = "OPERATOR".toList := severity_ne_operator _ ht.1
      simp only [severityKeys, List.nodup_cons] at hnd
      have hnotin : ToUpper name ∉ acc.map Prod.fst := hdisj _ (by simp [severityKeys])
      have hlook : ((GoMap.mk acc).lookup (ToUpper name)).isSome = false := by
        rw [(lookup_eq_none_iff acc _).2 hnotin]; rfl
      have hsev : validateSeverity (ToUpper name) (digitsValue literal 0 : Int) = none := by
        unfold validateSeverity
        have : ¬ ((digitsValue literal 0 : Nat) : Int) < 0 := by omega
        simp only [this, if_false, ht.1, if_true]
      simp only [List.map_cons, parseLoop, Split_severity_text name literal ht, hkey, if_false,
        hlook, Bool.false_eq_true, Atoi_literal literal ht.2 hrange, hsev]
      rw [setEntry_of_not_mem acc _ _ hnotin]
      rw [ih operator _ hwf' hin'
        (fun hne => by simpa [Token.isOperator] using hop hne)
        (by simpa [Token.isOperator] using hone) hnd.2]
      · simp only [operatorOf, thresholdsOf, List.append_assoc, List.singleton_append,
          parseLoop]
      · intro k hk
        have h1 : k ∉ acc.map Prod.fst := hdisj k (by simp [severityKeys, hk])
        have h2 : k ≠ ToUpper name := by
          rintro rfl
          exact hnd.1 hk
        simp only [List.map_append, List.map_cons, List.map_nil, List.mem_append,
          List.mem_singleton, not_or]
        exact ⟨h1, h2⟩

theorem text_ne_nil (t : Token) : t.text ≠ [] := by
  cases t <;> simp [Token.text]

theorem render_ne_nil (ts : List Token) (h : ts ≠ []) : render ts ≠ [] := by
  cases ts with
  | nil => exact absurd rfl h
  | cons t rest =>
    cases rest with
    | nil => exact text_ne_nil t
    | cons t' rest' =>
      show t.text ++ ',' :: render (t' :: rest') ≠ []
      simp

theorem operatorOf_no_operator (ts : List Token) :
    ∀ operator, ts.filter Token.isOperator = [] → operatorOf ts operator = operator := by
  induction ts with
  | nil => intro operator _; rfl
  | cons t rest ih =>
    intro operator h
    cases t with
    | operator key value => simp [Token.isOperator] at h
    | severity name literal =>
      simp only [List.filter_cons, Token.isOperator, Bool.false_eq_true, if_false] at h
      simpa [operatorOf] using ih operator h

theorem operatorOf_single (ts : List Token) :
    ∀ operator key value, (ts.filter Token.isOperator).length = 1 →
      Token.operator key value ∈ ts → operatorOf ts operator = ToUpper value := by
  induction ts with
  | nil => intro operator key value _ hm; simp at hm
  | cons t rest ih =>
    intro operator key value hone hm
    cases t with
    | operator key0 value0 =>
      have hrest0 : rest.filter Token.isOperator = [] := by
        simp only [List.filter_cons, Token.isOperator, if_true, List.length_cons] at hone
        exact List.length_eq_zero.1 (by omega)
      rcases List.mem_cons.1 hm with heq | hrest
      · cases heq
        simp only [operatorOf]
        exact operatorOf_no_operator rest _ hrest0
      · have : Token.operator key value ∈ rest.filter Token.isOperator :=
          List.mem_filter.2 ⟨hrest, rfl⟩
        rw [hrest0] at this
        simp at this
    | severity name literal =>
      simp only [List.filter_cons, Token.isOperator, Bool.false_eq_true, if_false] at hone
      rcases List.mem_cons.1 hm with heq | hrest
      · cases heq
      · simpa [operatorOf] using ih operator key value hone hrest

theorem mem_severityKeys (ts : List Token) (k : Str) :
    k ∈ severityKeys ts ↔ ∃ name literal, Token.severity name literal ∈ ts ∧ ToUpper name = k := by
  induction ts with
  | nil => simp [severityKeys]
  | cons t rest ih =>
    cases t with
    | operator key value => simp [severityKeys, ih]
    | severity name literal =>
      simp only [severityKeys, List.mem_cons, ih]
      constructor
      · rintro (h | ⟨n, l, hm, hk⟩)
        · exact ⟨name, literal, Or.inl rfl, h.symm⟩
        · exact ⟨n, l, Or.inr hm, hk⟩
      · rintro ⟨n, l, hm | hm, hk⟩
        · cases hm
          exact Or.inl hk.symm
        · exact Or.inr ⟨n, l, hm, hk⟩

theorem mem_thresholdsOf (ts : List Token) (name literal : Str)
    (h : Token.severity name literal ∈ ts) :
    (ToUpper name, (digitsValue literal 0 : Int)) ∈ thresholdsOf ts := by
  induction ts with
  | nil => simp at h
  | cons t rest ih =>
    cases t with
    | operator key value =>
      rcases List.mem_cons.1 h with heq | hrest
      · cases heq
      · simpa [thresholdsOf] using ih hrest
    | severity name0 literal0 =>
      rcases List.mem_cons.1 h with heq | hrest
      · cases heq
        simp [thresholdsOf]
      · simp only [thresholdsOf, List.mem_cons]
        exact Or.inr (ih hrest)

/-! ## Lemmas on letter case -/

theorem toNat_ofNat_small (n : Nat) (h : n < 128) : (Char.ofNat n).toNat = n := by
  have hv : n.isValidChar := Or.inl (by omega)
  simp only [Char.ofNat, hv, Char.toNat, Char.ofNatAux, dite_true]
  simp [UInt32.toNat, BitVec.toNat_ofNatLt]

/-- A rune is left alone, or it is one of the runes with an upper case of
its own and goes to a letter of `A`..`Z`. -/
theorem toUpperRune_cases (c : Char) :
    (¬ ((97 ≤ c.toNat ∧ c.toNat ≤ 122) ∨ c.toNat = 305 ∨ c.toNat = 383)
        ∧ toUpperRune c = c)
      ∨ (((97 ≤ c.toNat ∧ c.toNat ≤ 122) ∨ c.toNat = 305 ∨ c.toNat = 383)
          ∧ 65 ≤ (toUpperRune c).toNat ∧ (toUpperRune c).toNat ≤ 90) := by
  unfold toUpperRune
  by_cases h : 97 ≤ c.toNat ∧ c.toNat ≤ 122
  · right
    rw [if_pos h, toNat_ofNat_small _ (by omega)]
    omega
  · rw [if_neg h]
    by_cases h1 : c.toNat = 305
    · right
      rw [if_pos h1]
      exact ⟨Or.inr (Or.inl h1), by decide, by decide⟩
    · rw [if_neg h1]
      by_cases h2 : c.toNat = 383
      · right
        rw [if_pos h2]
        exact ⟨Or.inr (Or.inr h2), by decide, by decide⟩
      · left
        rw [if_neg h2]
        exact ⟨fun h' => h'.elim h (fun h' => h'.elim h1 h2), rfl⟩

theorem toUpperRune_of_not_lower (c : Char)
    (h : ¬ ((97 ≤ c.toNat ∧ c.toNat ≤ 122) ∨ c.toNat = 305 ∨ c.toNat = 383)) :
    toUpperRune c = c := by
  rcases toUpperRune_cases c with ⟨_, h'⟩ | ⟨h', _⟩
  · exact h'
  · exact absurd h' h

theorem toUpperRune_idem (c : Char) : toUpperRune (toUpperRune c) = toUpperRune c := by
  rcases toUpperRune_cases c with ⟨_, h⟩ | ⟨_, h1, h2⟩
  · rw [h, h]
  · exact toUpperRune_of_not_lower _ (by omega)

theorem ToUpper_idem (s : Str) : ToUpper (ToUpper s) = ToUpper s := by
  unfold ToUpper
  rw [List.map_map]
  apply List.map_congr_left
  intro c _
  exact toUpperRune_idem c

/-- A character that is no letter is the upper-case form of itself only. -/
theorem toUpperRune_eq_iff (c sep : Char)
    (hsep : ¬ (65 ≤ sep.toNat ∧ sep.toNat ≤ 90)
      ∧ ¬ ((97 ≤ sep.toNat ∧ sep.toNat ≤ 122) ∨ sep.toNat = 305 ∨ sep.toNat = 383)) :
    toUpperRune c = sep ↔ c = sep := by
  constructor
  · intro h
    rcases toUpperRune_cases c with ⟨_, h'⟩ | ⟨_, h1, h2⟩
    · rw [← h', h]
    · rw [h] at h1 h2
      exact absurd ⟨h1, h2⟩ hsep.1
  · intro h
    rw [h]
    exact toUpperRune_of_not_lower _ hsep.2

theorem Split_ne_nil (s : Str) (sep : Char) : Split s sep ≠ [] := by
  cases s with
  | nil => simp [Split]
  | cons c cs =>
    unfold Split
    by_cases hc : c = sep
    · simp [hc]
    · rw [if_neg hc]
      cases Split cs sep <;> simp

theorem Split_ToUpper (s : Str) (sep : Char)
    (hsep : ¬ (65 ≤ sep.toNat ∧ sep.toNat ≤ 90)
      ∧ ¬ ((97 ≤ sep.toNat ∧ sep.toNat ≤ 122) ∨ sep.toNat = 305 ∨ sep.toNat = 383)) :
    Split (ToUpper s) sep = (Split s sep).map ToUpper := by
  induction s with
  | nil => rfl
  | cons c cs ih =>
    show Split (toUpperRune c :: ToUpper cs) sep = _
    by_cases hc : c = sep
    · have hc' : toUpperRune c = sep := (toUpperRune_eq_iff c sep hsep).2 hc
      rw [Split, if_pos hc', Split, if_pos hc, ih]
      rfl
    · have hc' : ¬ toUpperRune c = sep := fun h => hc ((toUpperRune_eq_iff c sep hsep).1 h)
      rw [Split, if_neg hc', Split, if_neg hc, ih]
      cases Split cs sep <;> rfl

theorem ToUpper_eq_nil_iff (s : Str) : ToUpper s = [] ↔ s = [] := by
  unfold ToUpper
  exact List.map_eq_nil_iff

/-- A character that is neither a digit nor a sign makes `Atoi` fail. -/
theorem Atoi_bad (s : Str) (c : Char) (hmem : c ∈ s) (hd : isDigit c = false)
    (hminus : c ≠ '-') (hplus : c ≠ '+') :
    Atoi s = Except.error (NumError.badSyntax s) := by
  have hun : c ∈ unsignedPart s := by
    cases s with
    | nil => simp at hmem
    | cons c0 cs =>
      show c ∈ (if c0 = '-' ∨ c0 = '+' then cs else c0 :: cs)
      by_cases h0 : c0 = '-' ∨ c0 = '+'
      · rw [if_pos h0]
        rcases List.mem_cons.1 hmem with h | h
        · rcases h0 with h0 | h0
          · exact absurd (h.trans h0) hminus
          · exact absurd (h.trans h0) hplus
        · exact h
      · rw [if_neg h0]
        exact hmem
  have hall : (unsignedPart s).all isDigit = false := by
    rw [List.all_eq_false]
    exact ⟨c, hun, by simp [hd]⟩
  unfold Atoi
  simp only [hall, or_true, if_true]

theorem isDigit_false_of_letter (c : Char)
    (h : (65 ≤ c.toNat ∧ c.toNat ≤ 90)
      ∨ ((97 ≤ c.toNat ∧ c.toNat ≤ 122) ∨ c.toNat = 305 ∨ c.toNat = 383)) :
    isDigit c = false ∧ c ≠ '-' ∧ c ≠ '+' := by
  refine ⟨?_, ?_, ?_⟩
  · unfold isDigit
    simp only [decide_eq_false_iff_not]
    omega
  · rintro rfl
    revert h
    decide
  · rintro rfl
    revert h
    decide

/-- Upper-casing a literal changes neither whether `Atoi` accepts it nor the
value. -/
theorem Atoi_ToUpper (v : Str) :
    (∃ n, Atoi v = Except.ok n ∧ Atoi (ToUpper v) = Except.ok n)
      ∨ (∃ e e', Atoi v = Except.error e ∧ Atoi (ToUpper v) = Except.error e') := by
  by_cases hlow : ∃ c ∈ v, (97 ≤ c.toNat ∧ c.toNat ≤ 122) ∨ c.toNat = 305 ∨ c.toNat = 383
  · obtain ⟨c, hc, hrange⟩ := hlow
    right
    obtain ⟨h1, h2, h3⟩ := isDigit_false_of_letter c (Or.inr hrange)
    have hup : 65 ≤ (toUpperRune c).toNat ∧ (toUpperRune c).toNat ≤ 90 := by
      rcases toUpperRune_cases c with ⟨hn, _⟩ | ⟨_, h⟩
      · exact absurd hrange hn
      · exact h
    obtain ⟨h1', h2', h3'⟩ := isDigit_false_of_letter (toUpperRune c) (Or.inl hup)
    exact ⟨_, _, Atoi_bad v c hc h1 h2 h3,
      Atoi_bad (ToUpper v) (toUpperRune c) (mem_ToUpper v c hc) h1' h2' h3'⟩
  · have hsame : ToUpper v = v := by
      unfold ToUpper
      conv_rhs => rw [← List.map_id v]
      apply List.map_congr_left
      intro c hc
      exact toUpperRune_of_not_lower c (fun h => hlow ⟨c, hc, h⟩)
    rw [hsame]
    cases h : Atoi v with
    | error e => exact Or.inr ⟨e, e, rfl, rfl⟩
    | ok n => exact Or.inl ⟨n, rfl, rfl⟩

theorem colon_no_letter :
    ¬ (65 ≤ ':'.toNat ∧ ':'.toNat ≤ 90)
      ∧ ¬ ((97 ≤ ':'.toNat ∧ ':'.toNat ≤ 122) ∨ ':'.toNat = 305 ∨ ':'.toNat = 383) := by
  decide

theorem comma_no_letter :
    ¬ (65 ≤ ','.toNat ∧ ','.toNat ≤ 90)
      ∧ ¬ ((97 ≤ ','.toNat ∧ ','.toNat ≤ 122) ∨ ','.toNat = 305 ∨ ','.toNat = 383) := by
  decide

theorem observe_parseFail (e e' : Error) : observe (parseFail e) = observe (parseFail e') :=
  rfl

/-- The loop sees the same thing on upper-cased pairs. -/
theorem parseLoop_ToUpper (pairs : List Str) :
    ∀ (operator : Str) (acc : List (Str × Int)),
      observe (parseLoop (pairs.map ToUpper) operator acc)
        = observe (parseLoop pairs operator acc) := by
  induction pairs with
  | nil => intro operator acc; rfl
  | cons pair rest ih =>
    intro operator acc
    simp only [List.map_cons, parseLoop, Split_ToUpper pair ':' colon_no_letter]
    cases hparts : Split pair ':' with
    | nil => rfl
    | cons part0 parts =>
      simp only [List.map_cons, ToUpper_idem]
      by_cases hkey : ToUpper part0 = "OPERATOR".toList
      · simp only [hkey, if_true]
        cases parts with
        | nil => rfl
        | cons part1 more =>
          simp only [List.map_cons, ToUpper_idem]
          cases hval : validateOperator operator (ToUpper part1) with
          | mk op err =>
            cases err with
            | some e => rfl
            | none => exact ih op acc
      · simp only [hkey, if_false]
        by_cases hdup : ((GoMap.mk acc).lookup (ToUpper part0)).isSome = true
        · simp only [hdup, if_true]
        · simp only [hdup, if_false]
          cases parts with
          | nil => rfl
          | cons part1 more =>
            simp only [List.map_cons]
            rcases Atoi_ToUpper part1 with ⟨n, h1, h2⟩ | ⟨e, e', h1, h2⟩
            · rw [h1, h2]
              simp only
              cases hsev : validateSeverity (ToUpper part0) n with
              | some err => rfl
              | none => exact ih operator _
            · rw [h1, h2]
              exact observe_parseFail _ _

/-! ## The parser -/

/-- C8: the empty expression is no error: ParseFailureExpression returns the
operator OR and the threshold map CRITICAL:1, HIGH:1, MEDIUM:1, LOW:1. -/
theorem ParseFailureExpression_empty :
    ParseFailureExpression "".toList
      = Outcome.returns ("OR".toList,
          GoMap.mk [("CRITICAL".toList, 1), ("HIGH".toList, 1), ("MEDIUM".toList, 1),
            ("LOW".toList, 1)],
          none) := by
  decide

/-- C9, as amended: on an expression of exactly one pair operator:AND or
operator:OR and one or more severity pairs with pairwise distinct names and
non-negative integer literals that fit the 64-bit int, in any order and any
letter case, ParseFailureExpression succeeds with the upper-cased operator
and a threshold map whose keys are exactly the upper-cased severity names,
each mapped to the value of its literal. -/
theorem ParseFailureExpression_wellFormed (ts : List Token)
    (hwf : WellFormedExpression ts) (hin : ∀ t ∈ ts, t.inRange) :
    render ts ≠ []
    ∧ ParseFailureExpression (render ts)
        = Outcome.returns (operatorOf ts [], GoMap.mk (thresholdsOf ts), none)
    ∧ (∀ key value, Token.operator key value ∈ ts → operatorOf ts [] = ToUpper value)
    ∧ (GoMap.mk (thresholdsOf ts)).WF
    ∧ (∀ k, k ∈ (GoMap.mk (thresholdsOf ts)).keys
        ↔ ∃ name literal, Token.severity name literal ∈ ts ∧ ToUpper name = k)
    ∧ (∀ name literal, Token.severity name literal ∈ ts →
        (GoMap.mk (thresholdsOf ts)).lookup (ToUpper name)
          = some (digitsValue literal 0 : Int)) := by
  obtain ⟨hall, hone, hsome, hnd⟩ := hwf
  have hne : ts ≠ [] := by
    rintro rfl
    exact hsome rfl
  have hrender : render ts ≠ [] := render_ne_nil ts hne
  have hkeys : (thresholdsOf ts).map Prod.fst = severityKeys ts := keys_thresholdsOf ts
  have hopmem : ∃ key value, Token.operator key value ∈ ts := by
    have hpos : (ts.filter Token.isOperator) ≠ [] := by
      intro h0
      rw [h0] at hone
      simp at hone
    obtain ⟨t, ht⟩ := List.exists_mem_of_ne_nil _ hpos
    obtain ⟨htm, hto⟩ := List.mem_filter.1 ht
    cases t with
    | operator key value => exact ⟨key, value, htm⟩
    | severity name literal => simp [Token.isOperator] at hto
  refine ⟨hrender, ?_, fun key value hm => operatorOf_single ts [] key value hone hm, ?_, ?_, ?_⟩
  · obtain ⟨key, value, hm⟩ := hopmem
    have hop : operatorOf ts [] = ToUpper value := operatorOf_single ts [] key value hone hm
    have hopne : ¬ operatorOf ts [] = [] := by
      rw [hop]
      rcases (hall _ hm).2 with h | h <;> rw [h] <;> decide
    have hlen : ¬ (thresholdsOf ts).length = 0 := by
      intro h0
      apply hsome
      rw [← hkeys, List.length_eq_zero.1 h0]
      rfl
    unfold ParseFailureExpression
    simp only [hrender, if_false]
    rw [Split_render ts hne hall,
      parseLoop_tokens ts [] [] hall hin (fun h => absurd rfl h) (by omega) hnd (by simp)]
    simp only [List.nil_append, parseLoop, hlen, hopne, if_false]
  · show ((thresholdsOf ts).map Prod.fst).Nodup
    rw [hkeys]
    exact hnd
  · intro k
    show k ∈ (thresholdsOf ts).map Prod.fst ↔ _
    rw [hkeys]
    exact mem_severityKeys ts k
  · intro name literal hm
    exact lookup_of_mem _ (by rw [hkeys]; exact hnd) _ _ (mem_thresholdsOf ts name literal hm)

/-- Witness of C9: "HiGH:1,oPERATOR:oR,critical:02" gives OR with HIGH:1 and
CRITICAL:2. -/
theorem ParseFailureExpression_wellFormed_witness :
    WellFormedExpression mixedCasePairs
    ∧ (∀ t ∈ mixedCasePairs, t.inRange)
    ∧ render mixedCasePairs = "HiGH:1,oPERATOR:oR,critical:02".toList
    ∧ ParseFailureExpression (render mixedCasePairs)
        = Outcome.returns ("OR".toList,
            GoMap.mk [("HIGH".toList, 1), ("CRITICAL".toList, 2)], none)
    ∧ ParseFailureExpression (render mixedCasePairs)
        = Outcome.returns (operatorOf mixedCasePairs [],
            GoMap.mk (thresholdsOf mixedCasePairs), none) :=
  ⟨by decide, by decide, by decide, by decide,
    (ParseFailureExpression_wellFormed mixedCasePairs (by decide) (by decide)).2.1⟩

/-- Counterexample to C9 as stated: the pairs of
"critical:9223372036854775808,operator:or" are one operator pair and one
severity pair with a non-negative integer literal, and ParseFailureExpression
returns the conversion error, the literal being out of the range of int. -/
theorem ParseFailureExpression_literal_out_of_range :
    WellFormedExpression overflowingPairs
    ∧ render overflowingPairs = "critical:9223372036854775808,operator:or".toList
    ∧ ParseFailureExpression (render overflowingPairs)
        = Outcome.returns ([], GoMap.nil,
            some (Error.convertingValue
              (NumError.outOfRange "9223372036854775808".toList))) := by
  decide

/-- C10: ParseFailureExpression is case-insensitive: on an ASCII expression
and on its upper-case form it either fails both times or succeeds both times
with the same operator and the same threshold map. -/
theorem ParseFailureExpression_case_insensitive (expression : Str)
    (hascii : isASCII expression) :
    observe (ParseFailureExpression (ToUpper expression))
      = observe (ParseFailureExpression expression) := by
  unfold ParseFailureExpression
  by_cases he : expression = []
  · subst he
    rfl
  · have he' : ¬ ToUpper expression = [] := fun h => he ((ToUpper_eq_nil_iff _).1 h)
    simp only [he, he', if_false]
    rw [Split_ToUpper expression ',' comma_no_letter]
    exact parseLoop_ToUpper _ [] []

/-- Witness of C10: "CrItICal:2,HiGH:1,medium:3,oPERATOR:oR" gives OR with
CRITICAL:2, HIGH:1, MEDIUM:3, and so does its upper-case form. -/
theorem ParseFailureExpression_case_insensitive_witness :
    isASCII "CrItICal:2,HiGH:1,medium:3,oPERATOR:oR".toList
    ∧ ToUpper "CrItICal:2,HiGH:1,medium:3,oPERATOR:oR".toList
        = "CRITICAL:2,HIGH:1,MEDIUM:3,OPERATOR:OR".toList
    ∧ ParseFailureExpression "CrItICal:2,HiGH:1,medium:3,oPERATOR:oR".toList
        = Outcome.returns ("OR".toList,
            GoMap.mk [("CRITICAL".toList, 2), ("HIGH".toList, 1), ("MEDIUM".toList, 3)],
            none)
    ∧ observe (ParseFailureExpression
          (ToUpper "CrItICal:2,HiGH:1,medium:3,oPERATOR:oR".toList))
        = observe (ParseFailureExpression
          "CrItICal:2,HiGH:1,medium:3,oPERATOR:oR".toList) :=
  ⟨by decide, by decide, by decide,
    ParseFailureExpression_case_insensitive
      "CrItICal:2,HiGH:1,medium:3,oPERATOR:oR".toList (by decide)⟩

/-! ## Lemmas on the steps of the parser -/

theorem Split_of_mem (s : Str) (sep : Char) (h : sep ∈ s) :
    ∃ p0 p1 more, Split s sep = p0 :: p1 :: more := by
  induction s with
  | nil => simp at h
  | cons c cs ih =>
    by_cases hc : c = sep
    · obtain ⟨q, qs, hq⟩ := List.exists_cons_of_ne_nil (Split_ne_nil cs sep)
      exact ⟨[], q, qs, by rw [Split, if_pos hc, hq]⟩
    · have hmem : sep ∈ cs := by
        rcases List.mem_cons.1 h with h' | h'
        · exact absurd h'.symm hc
        · exact h'
      obtain ⟨p0, p1, more, hp⟩ := ih hmem
      exact ⟨c :: p0, p1, more, by rw [Split, if_neg hc, hp]⟩

/-- One turn of the loop: it panics on a pair without colon, or returns an
error, or goes on with the operator set, or goes on with a threshold added. -/
theorem parseLoop_step (pair : Str) (rest : List Str) (operator : Str)
    (acc : List (Str × Int)) :
    (':' ∉ pair ∧ parseLoop (pair :: rest) operator acc = Outcome.panics)
    ∨ (∃ err, parseLoop (pair :: rest) operator acc = parseFail err)
    ∨ (∃ p0 p1 more, Split pair ':' = p0 :: p1 :: more
        ∧ ToUpper p0 = "OPERATOR".toList ∧ operator = []
        ∧ (ToUpper p1 = "AND".toList ∨ ToUpper p1 = "OR".toList)
        ∧ parseLoop (pair :: rest) operator acc = parseLoop rest (ToUpper p1) acc)
    ∨ (∃ p0 p1 more n, Split pair ':' = p0 :: p1 :: more
        ∧ ToUpper p0 ≠ "OPERATOR".toList
        ∧ (GoMap.mk acc).lookup (ToUpper p0) = none
        ∧ isSeverityName (ToUpper p0) = true
        ∧ Atoi p1 = Except.ok n ∧ 0 ≤ n
        ∧ parseLoop (pair :: rest) operator acc
            = parseLoop rest operator (setEntry acc (ToUpper p0) n)) := by
  by_cases hcolon : ':' ∈ pair
  · obtain ⟨p0, p1, more, hsplit⟩ := Split_of_mem pair ':' hcolon
    by_cases hkey : ToUpper p0 = "OPERATOR".toList
    · by_cases hop : operator = []
      · by_cases hval : ToUpper p1 = "AND".toList ∨ ToUpper p1 = "OR".toList
        · refine Or.inr (Or.inr (Or.inl ⟨p0, p1, more, hsplit, hkey, hop, hval, ?_⟩))
          simp only [parseLoop, hsplit, hkey, if_true, validateOperator, hop, ne_eq,
            not_true_eq_false, if_false, hval]
        · refine Or.inr (Or.inl ⟨Error.invalidOperator [], ?_⟩)
          simp only [parseLoop, hsplit, hkey, if_true, validateOperator, hop, ne_eq,
            not_true_eq_false, if_false, hval]
      · refine Or.inr (Or.inl ⟨Error.moreThanOneOperator operator, ?_⟩)
        simp only [parseLoop, hsplit, hkey, if_true, validateOperator, ne_eq, hop,
          not_false_eq_true]
    · by_cases hdup : ((GoMap.mk acc).lookup (ToUpper p0)).isSome = true
      · refine Or.inr (Or.inl ⟨Error.duplicateSeverity (ToUpper p0), ?_⟩)
        simp only [parseLoop, hsplit, hkey, if_false, hdup, if_true]
      · have hnone : (GoMap.mk acc).lookup (ToUpper p0) = none := by
          cases h : (GoMap.mk acc).lookup (ToUpper p0) with
          | none => rfl
          | some x => rw [h] at hdup; exact absurd rfl hdup
        cases hat : Atoi p1 with
        | error e =>
          refine Or.inr (Or.inl ⟨Error.convertingValue e, ?_⟩)
          simp only [parseLoop, hsplit, hkey, if_false, hdup, hat, Bool.false_eq_true]
        | ok n =>
          cases hsev : validateSeverity (ToUpper p0) n with
          | some err =>
            refine Or.inr (Or.inl ⟨err, ?_⟩)
            simp only [parseLoop, hsplit, hkey, if_false, hdup, hat, hsev, Bool.false_eq_true]
          | none =>
            have hn : 0 ≤ n ∧ isSeverityName (ToUpper p0) = true := by
              unfold validateSeverity at hsev
              by_cases h0 : n < 0
              · rw [if_pos h0] at hsev; exact Option.noConfusion hsev
              · rw [if_neg h0] at hsev
                by_cases h1 : isSeverityName (ToUpper p0) = true
                · exact ⟨by omega, h1⟩
                · rw [if_neg h1] at hsev; exact Option.noConfusion hsev
            refine Or.inr (Or.inr (Or.inr
              ⟨p0, p1, more, n, hsplit, hkey, hnone, hn.2, hat, hn.1, ?_⟩))
            simp only [parseLoop, hsplit, hkey, if_false, hdup, hat, hsev, Bool.false_eq_true]
  · have hsplit : Split pair ':' = [pair] := Split_no_sep pair ':' hcolon
    by_cases hkey : ToUpper pair = "OPERATOR".toList
    · refine Or.inl ⟨hcolon, ?_⟩
      simp only [parseLoop, hsplit, hkey, if_true]
    · by_cases hdup : ((GoMap.mk acc).lookup (ToUpper pair)).isSome = true
      · refine Or.inr (Or.inl ⟨Error.duplicateSeverity (ToUpper pair), ?_⟩)
        simp only [parseLoop, hsplit, hkey, if_false, hdup, if_true]
      · refine Or.inl ⟨hcolon, ?_⟩
        simp only [parseLoop, hsplit, hkey, if_false, hdup, Bool.false_eq_true]

theorem parseFail_ne_success (err : Error) (op : Str) (m : GoMap Int) :
    parseFail err ≠ Outcome.returns (op, m, none) := by
  intro h
  unfold parseFail at h
  injection h with h
  injection h with _ h
  injection h with _ h
  exact Option.noConfusion h

theorem parseFail_ne_panics (err : Error) : parseFail err ≠ Outcome.panics := by
  intro h
  unfold parseFail at h
  exact Outcome.noConfusion h

theorem keyOf_of_split (pair p0 : Str) (ps : List Str) (h : Split pair ':' = p0 :: ps) :
    keyOf pair = ToUpper p0 := by
  unfold keyOf
  rw [h]

theorem valueOf_of_split (pair p0 p1 : Str) (more : List Str)
    (h : Split pair ':' = p0 :: p1 :: more) : valueOf pair = some p1 := by
  unfold valueOf
  rw [h]

/-- The end of the loop: no panic there. -/
theorem parseLoop_nil_cases (operator : Str) (acc : List (Str × Int)) :
    (∃ err, parseLoop [] operator acc = parseFail err)
    ∨ (acc ≠ [] ∧ operator ≠ []
        ∧ parseLoop [] operator acc = Outcome.returns (operator, GoMap.mk acc, none)) := by
  by_cases hlen : acc.length = 0
  · exact Or.inl ⟨Error.noViolationParameter, by simp only [parseLoop, hlen, if_true]⟩
  · by_cases hop : operator = []
    · exact Or.inl ⟨Error.noOperator, by simp only [parseLoop, hlen, if_false, hop, if_true]⟩
    · refine Or.inr ⟨fun h => hlen (by rw [h]; rfl), hop, ?_⟩
      simp only [parseLoop, hlen, if_false, hop]

/-- With a colon in every pair the loop does not panic. -/
theorem parseLoop_no_panic (pairs : List Str) :
    ∀ (operator : Str) (acc : List (Str × Int)),
      (∀ pair ∈ pairs, ':' ∈ pair) → parseLoop pairs operator acc ≠ Outcome.panics := by
  induction pairs with
  | nil =>
    intro operator acc _
    rcases parseLoop_nil_cases operator acc with ⟨err, h⟩ | ⟨_, _, h⟩
    · rw [h]; exact parseFail_ne_panics err
    · rw [h]; exact fun h' => Outcome.noConfusion h'
  | cons pair rest ih =>
    intro operator acc hcolon
    have hrest : ∀ p ∈ rest, ':' ∈ p := fun p hp => hcolon p (by simp [hp])
    rcases parseLoop_step pair rest operator acc with
      ⟨hno, _⟩ | ⟨err, h⟩ | ⟨p0, p1, more, _, _, _, _, h⟩ | ⟨p0, p1, more, n, _, _, _, _, _, _, h⟩
    · exact absurd (hcolon pair (by simp)) hno
    · rw [h]; exact parseFail_ne_panics err
    · rw [h]; exact ih _ _ hrest
    · rw [h]; exact ih _ _ hrest

/-- A call of the loop panics, returns an error, or returns an operator and a
map that is not nil. -/
theorem parseLoop_cases (pairs : List Str) :
    ∀ (operator : Str) (acc : List (Str × Int)),
      parseLoop pairs operator acc = Outcome.panics
      ∨ returnsError (parseLoop pairs operator acc)
      ∨ ∃ op es, parseLoop pairs operator acc = Outcome.returns (op, GoMap.mk es, none) := by
  induction pairs with
  | nil =>
    intro operator acc
    rcases parseLoop_nil_cases operator acc with ⟨err, h⟩ | ⟨_, _, h⟩
    · exact Or.inr (Or.inl ⟨err, h⟩)
    · exact Or.inr (Or.inr ⟨_, _, h⟩)
  | cons pair rest ih =>
    intro operator acc
    rcases parseLoop_step pair rest operator acc with
      ⟨_, h⟩ | ⟨err, h⟩ | ⟨p0, p1, more, _, _, _, _, h⟩ | ⟨p0, p1, more, n, _, _, _, _, _, _, h⟩
    · exact Or.inl h
    · exact Or.inr (Or.inl ⟨err, h⟩)
    · rw [h]; exact ih _ _
    · rw [h]; exact ih _ _

/-- A successful run of the loop accepted every pair. -/
theorem parseLoop_success_pairs (pairs : List Str) :
    ∀ (operator : Str) (acc : List (Str × Int)) (op : Str) (m : GoMap Int),
      parseLoop pairs operator acc = Outcome.returns (op, m, none) →
      ∀ pair ∈ pairs, pairAccepted pair := by
  induction pairs with
  | nil => intro _ _ _ _ _ pair hp; simp at hp
  | cons pair rest ih =>
    intro operator acc op m hs q hq
    rcases parseLoop_step pair rest operator acc with
      ⟨_, h⟩ | ⟨err, h⟩ | ⟨p0, p1, more, hsplit, hkey, _, hval, h⟩
        | ⟨p0, p1, more, n, hsplit, hkey, _, hname, hat, hn, h⟩
    · rw [h] at hs; exact Outcome.noConfusion hs
    · rw [h] at hs; exact absurd hs (parseFail_ne_success _ _ _)
    · rw [h] at hs
      rcases List.mem_cons.1 hq with rfl | hq'
      · refine ⟨p1, valueOf_of_split _ _ _ _ hsplit, Or.inl ⟨?_, hval⟩⟩
        rw [keyOf_of_split _ _ _ hsplit]; exact hkey
      · exact ih _ _ _ _ hs q hq'
    · rw [h] at hs
      rcases List.mem_cons.1 hq with rfl | hq'
      · refine ⟨p1, valueOf_of_split _ _ _ _ hsplit, Or.inr ⟨?_, ?_, n, hat, hn⟩⟩
        · rw [keyOf_of_split _ _ _ hsplit]; exact hkey
        · rw [keyOf_of_split _ _ _ hsplit]; exact hname
      · exact ih _ _ _ _ hs q hq'

theorem severityKeysOf_cons (pair : Str) (rest : List Str) :
    severityKeysOf (pair :: rest)
      = if keyOf pair = "OPERATOR".toList then severityKeysOf rest
        else keyOf pair :: severityKeysOf rest := by
  unfold severityKeysOf
  by_cases h : keyOf pair = "OPERATOR".toList
  · rw [if_pos h, List.map_cons, List.filter_cons_of_neg]
    simpa using h
  · rw [if_neg h, List.map_cons, List.filter_cons_of_pos]
    simpa using h

theorem operatorPairsOf_cons (pair : Str) (rest : List Str) :
    operatorPairsOf (pair :: rest)
      = if keyOf pair = "OPERATOR".toList then pair :: operatorPairsOf rest
        else operatorPairsOf rest := by
  unfold operatorPairsOf
  by_cases h : keyOf pair = "OPERATOR".toList
  · rw [if_pos h, List.filter_cons_of_pos]
    simpa using h
  · rw [if_neg h, List.filter_cons_of_neg]
    simpa using h

/-- A successful run of the loop met no severity key twice, and none that
was in the map before. -/
theorem parseLoop_success_keys (pairs : List Str) :
    ∀ (operator : Str) (acc : List (Str × Int)) (op : Str) (m : GoMap Int),
      parseLoop pairs operator acc = Outcome.returns (op, m, none) →
      (severityKeysOf pairs).Nodup
        ∧ ∀ k ∈ severityKeysOf pairs, k ∉ acc.map Prod.fst := by
  induction pairs with
  | nil =>
    intro _ _ _ _ _
    exact ⟨List.nodup_nil, fun k hk => by simp [severityKeysOf] at hk⟩
  | cons pair rest ih =>
    intro operator acc op m hs
    rcases parseLoop_step pair rest operator acc with
      ⟨_, h⟩ | ⟨err, h⟩ | ⟨p0, p1, more, hsplit, hkey, _, _, h⟩
        | ⟨p0, p1, more, n, hsplit, hkey, hnone, _, _, _, h⟩
    · rw [h] at hs; exact Outcome.noConfusion hs
    · rw [h] at hs; exact absurd hs (parseFail_ne_success _ _ _)
    · rw [h] at hs
      have hk : keyOf pair = "OPERATOR".toList := by
        rw [keyOf_of_split _ _ _ hsplit]; exact hkey
      rw [severityKeysOf_cons, if_pos hk]
      exact ih _ _ _ _ hs
    · rw [h] at hs
      have hk : keyOf pair = ToUpper p0 := keyOf_of_split _ _ _ hsplit
      have hk' : ¬ keyOf pair = "OPERATOR".toList := by rw [hk]; exact hkey
      obtain ⟨hnd, hdisj⟩ := ih _ _ _ _ hs
      have hin : ∀ k, k ∈ severityKeysOf rest → k ≠ ToUpper p0 ∧ k ∉ acc.map Prod.fst := by
        intro k hkr
        have := hdisj k hkr
        rw [keys_setEntry] at this
        exact ⟨fun h1 => this (Or.inl h1), fun h2 => this (Or.inr h2)⟩
      rw [severityKeysOf_cons, if_neg hk', hk]
      refine ⟨List.nodup_cons.2 ⟨fun hmem => (hin _ hmem).1 rfl, hnd⟩, ?_⟩
      intro k hkm
      rcases List.mem_cons.1 hkm with rfl | hkr
      · exact (lookup_eq_none_iff acc _).1 hnone
      · exact (hin k hkr).2

/-- A successful run of the loop met the operator key once at most, and not
at all when the operator was set before. -/
theorem parseLoop_success_operators (pairs : List Str) :
    ∀ (operator : Str) (acc : List (Str × Int)) (op : Str) (m : GoMap Int),
      parseLoop pairs operator acc = Outcome.returns (op, m, none) →
      (operatorPairsOf pairs).length ≤ 1
        ∧ (operator ≠ [] → operatorPairsOf pairs = []) := by
  induction pairs with
  | nil =>
    intro _ _ _ _ _
    exact ⟨by simp [operatorPairsOf], fun _ => rfl⟩
  | cons pair rest ih =>
    intro operator acc op m hs
    rcases parseLoop_step pair rest operator acc with
      ⟨_, h⟩ | ⟨err, h⟩ | ⟨p0, p1, more, hsplit, hkey, hop, hval, h⟩
        | ⟨p0, p1, more, n, hsplit, hkey, _, _, _, _, h⟩
    · rw [h] at hs; exact Outcome.noConfusion hs
    · rw [h] at hs; exact absurd hs (parseFail_ne_success _ _ _)
    · rw [h] at hs
      have hk : keyOf pair = "OPERATOR".toList := by
        rw [keyOf_of_split _ _ _ hsplit]; exact hkey
      have hne : ToUpper p1 ≠ [] := by
        rcases hval with hv | hv <;> rw [hv] <;> decide
      have hrest := (ih _ _ _ _ hs).2 hne
      rw [operatorPairsOf_cons, if_pos hk, hrest]
      exact ⟨by simp, fun hne' => absurd hop hne'⟩
    · rw [h] at hs
      have hk' : ¬ keyOf pair = "OPERATOR".toList := by
        rw [keyOf_of_split _ _ _ hsplit]; exact hkey
      rw [operatorPairsOf_cons, if_neg hk']
      exact ih _ _ _ _ hs

theorem mem_setEntry (es : List (Str × Int)) (k : Str) (v : Int) (e : Str × Int)
    (h : e ∈ setEntry es k v) : e = (k, v) ∨ e ∈ es := by
  induction es with
  | nil =>
    simp only [setEntry, List.mem_singleton] at h
    exact Or.inl h
  | cons e0 rest ih =>
    obtain ⟨k0, v0⟩ := e0
    by_cases hk : k0 = k
    · simp only [setEntry, hk, if_true, List.mem_cons] at h
      rcases h with h | h
      · exact Or.inl h
      · exact Or.inr (List.mem_cons_of_mem _ h)
    · simp only [setEntry, hk, if_false, List.mem_cons] at h
      rcases h with h | h
      · exact Or.inr (by rw [h]; exact List.mem_cons_self _ _)
      · rcases ih h with h' | h'
        · exact Or.inl h'
        · exact Or.inr (List.mem_cons_of_mem _ h')

/-- What a successful run of the loop returns: AND or OR, and a map that is
not empty, of severity names and values that are not negative. -/
theorem parseLoop_success_invariant (pairs : List Str) :
    ∀ (operator : Str) (acc : List (Str × Int)) (op : Str) (m : GoMap Int),
      parseLoop pairs operator acc = Outcome.returns (op, m, none) →
      (operator = [] ∨ operator = "AND".toList ∨ operator = "OR".toList) →
      (∀ e ∈ acc, isSeverityName e.1 = true ∧ 0 ≤ e.2) →
      (op = "AND".toList ∨ op = "OR".toList)
        ∧ ∃ es, m = GoMap.mk es ∧ es ≠ []
            ∧ ((acc.map Prod.fst).Nodup → (es.map Prod.fst).Nodup)
            ∧ ∀ e ∈ es, isSeverityName e.1 = true ∧ 0 ≤ e.2 := by
  induction pairs with
  | nil =>
    intro operator acc op m hs hop hacc
    rcases parseLoop_nil_cases operator acc with ⟨err, h⟩ | ⟨hne, hopne, h⟩
    · rw [h] at hs; exact absurd hs (parseFail_ne_success _ _ _)
    · rw [h] at hs
      injection hs with hs
      injection hs with h1 hs
      injection hs with h2 _
      subst h1 h2
      refine ⟨?_, acc, rfl, hne, id, hacc⟩
      rcases hop with h0 | h0
      · exact absurd h0 hopne
      · exact h0
  | cons pair rest ih =>
    intro operator acc op m hs hop hacc
    rcases parseLoop_step pair rest operator acc with
      ⟨_, h⟩ | ⟨err, h⟩ | ⟨p0, p1, more, _, _, _, hval, h⟩
        | ⟨p0, p1, more, n, _, _, _, hname, _, hn, h⟩
    · rw [h] at hs; exact Outcome.noConfusion hs
    · rw [h] at hs; exact absurd hs (parseFail_ne_success _ _ _)
    · rw [h] at hs
      exact ih _ _ _ _ hs (Or.inr hval) hacc
    · rw [h] at hs
      obtain ⟨hopr, es, hm, hne, hnd, hall⟩ := ih _ _ _ _ hs hop (by
        intro e he
        rcases mem_setEntry acc _ _ e he with h1 | h1
        · rw [h1]; exact ⟨hname, hn⟩
        · exact hacc e h1)
      exact ⟨hopr, es, hm, hne, fun h0 => hnd (nodup_setEntry _ _ _ h0), hall⟩

theorem parse_nonempty (expression : Str) (h : expression ≠ []) :
    ParseFailureExpression expression = parseLoop (Split expression ',') [] [] := by
  unfold ParseFailureExpression
  simp only [h, if_false]

theorem allColon_ne_nil (expression : Str) (h : allColon expression) : expression ≠ [] := by
  rintro rfl
  have := h [] (by simp [Split])
  simp at this

/-- With a colon in every pair, a call that does not succeed returns an
error. -/
theorem returnsError_of_not_success (expression : Str) (hcolon : allColon expression)
    (hno : ∀ op m,
      parseLoop (Split expression ',') [] [] ≠ Outcome.returns (op, m, none)) :
    returnsError (ParseFailureExpression expression) := by
  rw [parse_nonempty expression (allColon_ne_nil expression hcolon)]
  rcases parseLoop_cases (Split expression ',') [] [] with h | h | ⟨op, es, h⟩
  · exact absurd h (parseLoop_no_panic _ _ _ hcolon)
  · exact h
  · exact absurd h (hno _ _)

/-! ## Rejected expressions -/

/-- C11: a severity key in two pairs.  The expression "low,high:1,high:2"
holds the key HIGH twice, and the call panics on the first pair, which has no
colon, where an error is to be returned.  The test expression gives the
duplicate error, and so does every expression with a repeated severity key
whose pairs all hold a colon, whatever the values. -/
theorem ParseFailureExpression_duplicate_severity :
    ¬ (severityKeysOf (Split "low,high:1,high:2".toList ',')).Nodup
    ∧ ParseFailureExpression "low,high:1,high:2".toList = Outcome.panics
    ∧ ParseFailureExpression "critical:2,high:1,medium:3,medium:4,operator:or".toList
        = parseFail (Error.duplicateSeverity "MEDIUM".toList)
    ∧ ParseFailureExpression "high:1,HIGH:1,operator:or".toList
        = parseFail (Error.duplicateSeverity "HIGH".toList)
    ∧ ∀ expression, allColon expression →
        ¬ (severityKeysOf (Split expression ',')).Nodup →
        returnsError (ParseFailureExpression expression) := by
  refine ⟨by decide, by decide, by decide, by decide, ?_⟩
  intro expression hcolon hdup
  apply returnsError_of_not_success expression hcolon
  intro op m hs
  exact hdup (parseLoop_success_keys _ _ _ _ _ hs).1

/-- C12: the operator key in two pairs.  The expression
"operator:or,operator" holds the key twice, and the call panics on the second
pair, which has no value, where an error is to be returned.  The test
expression gives the error, and so does every expression with the operator
key in two pairs whose pairs all hold a colon, whatever the values. -/
theorem ParseFailureExpression_duplicate_operator :
    2 ≤ (operatorPairsOf (Split "operator:or,operator".toList ',')).length
    ∧ ParseFailureExpression "operator:or,operator".toList = Outcome.panics
    ∧ ParseFailureExpression "critical:2,operator:or,operator:and".toList
        = parseFail (Error.moreThanOneOperator "OR".toList)
    ∧ ParseFailureExpression "critical:2,operator:or,OPERATOR:or".toList
        = parseFail (Error.moreThanOneOperator "OR".toList)
    ∧ ∀ expression, allColon expression →
        2 ≤ (operatorPairsOf (Split expression ',')).length →
        returnsError (ParseFailureExpression expression) := by
  refine ⟨by decide, by decide, by decide, by decide, ?_⟩
  intro expression hcolon htwo
  apply returnsError_of_not_success expression hcolon
  intro op m hs
  have := (parseLoop_success_operators _ _ _ _ _ hs).1
  omega

/-- C13: a severity value that is negative or no integer.  The expression
"critical,high:-1,operator:or" holds the pair high:-1, and the call panics on
the first pair, which has no colon, where an error is to be returned.  The
two expressions of the claim give errors, and so does every expression with
such a pair whose pairs all hold a colon. -/
theorem ParseFailureExpression_rejected_value :
    (∃ pair ∈ Split "critical,high:-1,operator:or".toList ',', hasRejectedValue pair)
    ∧ ParseFailureExpression "critical,high:-1,operator:or".toList = Outcome.panics
    ∧ ParseFailureExpression "high:-1,operator:or".toList = parseFail Error.negativeValues
    ∧ ParseFailureExpression "critical:invalid,high:1,medium:3".toList
        = parseFail (Error.convertingValue (NumError.badSyntax "invalid".toList))
    ∧ ∀ expression, allColon expression →
        (∃ pair ∈ Split expression ',', hasRejectedValue pair) →
        returnsError (ParseFailureExpression expression) := by
  refine ⟨⟨"high:-1".toList, by decide, by decide, "-1".toList, by decide, by decide⟩,
    by decide, by decide, by decide, ?_⟩
  intro expression hcolon hbad
  apply returnsError_of_not_success expression hcolon
  intro op m hs
  obtain ⟨pair, hmem, hkey, v, hv, hrej⟩ := hbad
  obtain ⟨v', hv', hacc⟩ := parseLoop_success_pairs _ _ _ _ _ hs pair hmem
  rw [hv] at hv'
  cases hv'
  rcases hacc with ⟨hk, _⟩ | ⟨_, _, n, hat, hn⟩
  · exact hkey hk
  · unfold rejectedValue at hrej
    rw [hat] at hrej
    simp only at hrej
    omega

/-- C14: a key that is neither the operator key nor a severity name.  The
expression "critical,foo:1,operator:or" holds the pair foo:1, and the call
panics on the first pair, which has no colon, where an error is to be
returned.  Every expression with such a pair whose pairs all hold a colon
gives an error, and validateSeverity returns nil exactly for a count that is
not negative and one of the four upper-case names.  The key is compared
after the upper-casing of Go: "crıtıcal", written with the dotless i, is the
severity CRITICAL and no unknown key. -/
theorem ParseFailureExpression_unknown_key :
    (∃ pair ∈ Split "critical,foo:1,operator:or".toList ',', hasUnknownKey pair)
    ∧ ParseFailureExpression "critical,foo:1,operator:or".toList = Outcome.panics
    ∧ ParseFailureExpression "foo:1,operator:or".toList
        = parseFail (Error.invalidSeverityExpression "FOO".toList)
    ∧ ParseFailureExpression "crıtıcal:1,operator:or".toList
        = Outcome.returns ("OR".toList, GoMap.mk [("CRITICAL".toList, 1)], none)
    ∧ (¬ ∃ pair ∈ Split "crıtıcal:1,operator:or".toList ',', hasUnknownKey pair)
    ∧ (∀ expression, allColon expression →
        (∃ pair ∈ Split expression ',', hasUnknownKey pair) →
        returnsError (ParseFailureExpression expression))
    ∧ ∀ (s : Str) (n : Int), validateSeverity s n = none
        ↔ 0 ≤ n ∧ (s = "CRITICAL".toList ∨ s = "HIGH".toList ∨ s = "MEDIUM".toList
            ∨ s = "LOW".toList) := by
  refine ⟨⟨"foo:1".toList, by decide, ⟨"1".toList, by decide⟩, by decide, by decide⟩,
    by decide, by decide, by decide, ?_, ?_, ?_⟩
  · rintro ⟨pair, hmem, _, hkey, hname⟩
    have hcases : pair = "crıtıcal:1".toList ∨ pair = "operator:or".toList := by
      have hsplit : Split "crıtıcal:1,operator:or".toList ','
          = ["crıtıcal:1".toList, "operator:or".toList] := by decide
      rw [hsplit] at hmem
      simpa using hmem
    rcases hcases with h | h
    · rw [h] at hname
      revert hname
      decide
    · rw [h] at hkey
      revert hkey
      decide
  · intro expression hcolon hbad
    apply returnsError_of_not_success expression hcolon
    intro op m hs
    obtain ⟨pair, hmem, _, hkey, hname⟩ := hbad
    obtain ⟨v', _, hacc⟩ := parseLoop_success_pairs _ _ _ _ _ hs pair hmem
    rcases hacc with ⟨hk, _⟩ | ⟨_, hn, _⟩
    · exact hkey hk
    · rw [hname] at hn
      exact Bool.noConfusion hn
  · intro s n
    rw [← isSeverityName_iff]
    unfold validateSeverity
    by_cases h0 : n < 0
    · rw [if_pos h0]
      constructor
      · intro h; exact Option.noConfusion h
      · intro h; omega
    · rw [if_neg h0]
      by_cases h1 : isSeverityName s = true
      · rw [if_pos h1]
        exact ⟨fun _ => ⟨by omega, h1⟩, fun _ => rfl⟩
      · rw [if_neg h1]
        constructor
        · intro h; exact Option.noConfusion h
        · intro h; exact absurd h.2 h1

/-- C15: an operator value that is neither AND nor OR.  The expression
"critical,operator:xor" holds the pair operator:xor, and the call panics on
the first pair, which has no colon, where an error is to be returned.  Every
expression with such a pair whose pairs all hold a colon gives an error, and
validateOperator with no operator set returns its argument without error
exactly for AND and OR, and otherwise the empty operator with an error. -/
theorem ParseFailureExpression_unknown_operator :
    (∃ pair ∈ Split "critical,operator:xor".toList ',', hasUnknownOperator pair)
    ∧ ParseFailureExpression "critical,operator:xor".toList = Outcome.panics
    ∧ ParseFailureExpression "critical:1,operator:xor".toList
        = parseFail (Error.invalidOperator [])
    ∧ (∀ expression, allColon expression →
        (∃ pair ∈ Split expression ',', hasUnknownOperator pair) →
        returnsError (ParseFailureExpression expression))
    ∧ (∀ v : Str, v = "AND".toList ∨ v = "OR".toList → validateOperator [] v = (v, none))
    ∧ ∀ v : Str, ¬ (v = "AND".toList ∨ v = "OR".toList) →
        validateOperator [] v = ([], some (Error.invalidOperator [])) := by
  refine ⟨⟨"operator:xor".toList, by decide, by decide, "xor".toList, by decide, by decide,
      by decide⟩, by decide, by decide, ?_, ?_, ?_⟩
  · intro expression hcolon hbad
    apply returnsError_of_not_success expression hcolon
    intro op m hs
    obtain ⟨pair, hmem, hkey, v, hv, hand, hor⟩ := hbad
    obtain ⟨v', hv', hacc⟩ := parseLoop_success_pairs _ _ _ _ _ hs pair hmem
    rw [hv] at hv'
    cases hv'
    rcases hacc with ⟨_, h | h⟩ | ⟨hk, _⟩
    · exact hand h
    · exact hor h
    · exact hk hkey
  · intro v hv
    unfold validateOperator
    simp only [ne_eq, not_true_eq_false, if_false, hv, if_true]
  · intro v hv
    unfold validateOperator
    simp only [ne_eq, not_true_eq_false, if_false, hv]

theorem thresholdsOf_eq_nil (ts : List Token) (h : severityKeys ts = []) :
    thresholdsOf ts = [] := by
  have hk := keys_thresholdsOf ts
  rw [h] at hk
  exact List.map_eq_nil_iff.1 hk

/-- The parser on the text of valid pairs: the two checks after the loop, on
the operator and the thresholds the pairs supply. -/
theorem parse_validPairs (ts : List Token) (h : ValidPairs ts) :
    ParseFailureExpression (render ts)
      = parseLoop [] (operatorOf ts []) (thresholdsOf ts) := by
  obtain ⟨hne, hwf, hin, hone, hnd⟩ := h
  rw [parse_nonempty _ (render_ne_nil ts hne), Split_render ts hne hwf,
    parseLoop_tokens ts [] [] hwf hin (fun h0 => absurd rfl h0) hone hnd (by simp)]
  rfl

/-- C16: on a non-empty expression whose pairs are all valid, the call fails
with the error of the missing violation parameter when there is no severity
pair, and with the error of the missing operator when there are severity
pairs and no operator pair; these are two different errors. -/
theorem ParseFailureExpression_missing_part (ts : List Token) (h : ValidPairs ts) :
    (severityKeys ts = [] →
        ParseFailureExpression (render ts) = parseFail Error.noViolationParameter)
    ∧ (severityKeys ts ≠ [] → ts.filter Token.isOperator = [] →
        ParseFailureExpression (render ts) = parseFail Error.noOperator)
    ∧ Error.noViolationParameter ≠ Error.noOperator := by
  refine ⟨?_, ?_, fun h0 => Error.noConfusion h0⟩
  · intro hnone
    rw [parse_validPairs ts h, thresholdsOf_eq_nil ts hnone]
    rfl
  · intro hsome hnoop
    have hlen : ¬ (thresholdsOf ts).length = 0 := by
      intro h0
      apply hsome
      rw [← keys_thresholdsOf ts, List.length_eq_zero.1 h0]
      rfl
    rw [parse_validPairs ts h, operatorOf_no_operator ts [] hnoop]
    simp only [parseLoop, hlen, if_false, if_true]

/-- Witness of C16: "oPerator:or" has no severity pair and
"critical:2,high:1,medium:3" has no operator pair. -/
theorem ParseFailureExpression_missing_part_witness :
    ValidPairs operatorOnlyPairs ∧ ValidPairs severityOnlyPairs
    ∧ render operatorOnlyPairs = "oPerator:or".toList
    ∧ render severityOnlyPairs = "critical:2,high:1,medium:3".toList
    ∧ ParseFailureExpression (render operatorOnlyPairs)
        = parseFail Error.noViolationParameter
    ∧ ParseFailureExpression (render severityOnlyPairs) = parseFail Error.noOperator :=
  ⟨by decide, by decide, by decide, by decide,
    (ParseFailureExpression_missing_part operatorOnlyPairs (by decide)).1 (by decide),
    (ParseFailureExpression_missing_part severityOnlyPairs (by decide)).2.1
      (by decide) (by decide)⟩

/-- C17: the parser is not total.  On "critical", on "operator" and on
"critical:2,operator:or," (whose last pair is empty) the call panics on the
index of the missing value, where an error is to be returned.  A panic comes
from a pair without colon only. -/
theorem ParseFailureExpression_panics :
    ParseFailureExpression "critical".toList = Outcome.panics
    ∧ ParseFailureExpression "operator".toList = Outcome.panics
    ∧ ParseFailureExpression "critical:2,operator:or,".toList = Outcome.panics
    ∧ ∀ expression, ParseFailureExpression expression = Outcome.panics →
        ∃ pair ∈ Split expression ',', ':' ∉ pair := by
  refine ⟨by decide, by decide, by decide, ?_⟩
  intro expression hp
  by_contra hno
  have hcolon : allColon expression := by
    intro pair hpair
    by_contra hc
    exact hno ⟨pair, hpair, hc⟩
  rw [parse_nonempty _ (allColon_ne_nil _ hcolon)] at hp
  exact parseLoop_no_panic _ _ _ hcolon hp

/-! ## Behind the parser -/

/-- The operator of a successful parse is AND or OR. -/
theorem parse_success_operator (expression op : Str) (m : GoMap Int)
    (h : ParseFailureExpression expression = Outcome.returns (op, m, none)) :
    op = "AND".toList ∨ op = "OR".toList := by
  by_cases he : expression = []
  · subst he
    have hd : ParseFailureExpression [] = Outcome.returns ("OR".toList,
        GoMap.mk [("CRITICAL".toList, 1), ("HIGH".toList, 1), ("MEDIUM".toList, 1),
          ("LOW".toList, 1)], none) := by decide
    rw [hd] at h
    injection h with h
    injection h with h1 _
    exact Or.inr h1.symm
  · rw [parse_nonempty _ he] at h
    exact (parseLoop_success_invariant _ _ _ _ _ h (Or.inl rfl) (by simp)).1

/-- C18: whenever ParseFailureExpression succeeds, the operator is exactly
AND or OR, the threshold map is not empty, every key is one of the four
upper-case severity names and every value is at least 0. -/
theorem ParseFailureExpression_success_shape (expression op : Str) (m : GoMap Int)
    (h : ParseFailureExpression expression = Outcome.returns (op, m, none)) :
    (op = "AND".toList ∨ op = "OR".toList)
    ∧ m.len ≠ 0
    ∧ m.WF
    ∧ (∀ k ∈ m.keys, k = "CRITICAL".toList ∨ k = "HIGH".toList ∨ k = "MEDIUM".toList
        ∨ k = "LOW".toList)
    ∧ ∀ e ∈ m.entries, 0 ≤ e.2 := by
  by_cases he : expression = []
  · subst he
    have hd : ParseFailureExpression [] = Outcome.returns ("OR".toList,
        GoMap.mk [("CRITICAL".toList, 1), ("HIGH".toList, 1), ("MEDIUM".toList, 1),
          ("LOW".toList, 1)], none) := by decide
    rw [hd] at h
    injection h with h
    injection h with h1 h
    injection h with h2 _
    subst h1 h2
    decide
  · rw [parse_nonempty _ he] at h
    obtain ⟨hop, es, hm, hne, hnd, hall⟩ :=
      parseLoop_success_invariant _ _ _ _ _ h (Or.inl rfl) (by simp)
    subst hm
    refine ⟨hop, ?_, hnd (by simp), ?_, fun e he' => (hall e he').2⟩
    · show es.length ≠ 0
      intro h0
      exact hne (List.length_eq_zero.1 h0)
    · intro k hk
      obtain ⟨e, he', rfl⟩ := List.mem_map.1 hk
      exact (isSeverityName_iff _).1 (hall e he').1

/-- Witness of C18: "critical:2,operator:and" succeeds with AND and
CRITICAL:2. -/
theorem ParseFailureExpression_success_shape_witness :
    ParseFailureExpression "critical:2,operator:and".toList
      = Outcome.returns ("AND".toList, GoMap.mk [("CRITICAL".toList, 2)], none)
    ∧ ("AND".toList = "AND".toList ∨ "AND".toList = "OR".toList) :=
  ⟨by decide,
    (ParseFailureExpression_success_shape "critical:2,operator:and".toList "AND".toList
      (GoMap.mk [("CRITICAL".toList, 2)]) (by decide)).1⟩

/-- C19: with the operator and thresholds of a successful parse,
EvaluateIACScanReport returns an error only when some violation of the report
has an invalid severity, and never the error of the invalid operator. -/
theorem EvaluateIACScanReport_after_parse (expression op : Str) (m : GoMap Int)
    (iacReport : IACReportTemplate)
    (h : ParseFailureExpression expression = Outcome.returns (op, m, none)) :
    ((EvaluateIACScanReport iacReport m op).2 ≠ none →
        ∃ v ∈ violationsOf iacReport, ¬ validSeverity v)
    ∧ ∀ o, (EvaluateIACScanReport iacReport m op).2
        ≠ some (Error.invalidSeverityOperator o) := by
  have hop := parse_success_operator expression op m h
  by_cases hbad : ∃ v ∈ violationsOf iacReport, ¬ validSeverity v
  · obtain ⟨s, _, heq⟩ := fetchLoop_invalid (violationsOf iacReport) [] hbad
    have heq' : fetchViolationFromIACReport iacReport
        = (GoMap.nil, some (Error.invalidSeverityExpression s)) := heq
    have hev : EvaluateIACScanReport iacReport m op
        = (false, some (Error.fetchViolation (Error.invalidSeverityExpression s))) := by
      unfold EvaluateIACScanReport
      rw [heq']
    rw [hev]
    exact ⟨fun _ => hbad, fun o h0 => Error.noConfusion (Option.some.inj h0)⟩
  · have hvalid : ∀ v ∈ violationsOf iacReport, validSeverity v := by
      intro v hv
      by_contra h0
      exact hbad ⟨v, hv, h0⟩
    obtain ⟨es, hes, _, _⟩ := fetch_valid iacReport hvalid
    have hnone : (EvaluateIACScanReport iacReport m op).2 = none := by
      unfold EvaluateIACScanReport
      rw [hes]
      rcases hop with h0 | h0 <;> subst h0 <;> simp [isBreachingThreshold]
    rw [hnone]
    exact ⟨fun h0 => absurd rfl h0, fun o h0 => Option.noConfusion h0⟩

/-- Witness of C19: the parse of "critical:2,operator:and" and a report of two
critical findings. -/
theorem EvaluateIACScanReport_after_parse_witness :
    ParseFailureExpression "critical:2,operator:and".toList
      = Outcome.returns ("AND".toList, GoMap.mk [("CRITICAL".toList, 2)], none)
    ∧ EvaluateIACScanReport twoCritical (GoMap.mk [("CRITICAL".toList, 2)]) "AND".toList
      = (true, none)
    ∧ ∀ o, (EvaluateIACScanReport twoCritical (GoMap.mk [("CRITICAL".toList, 2)])
        "AND".toList).2 ≠ some (Error.invalidSeverityOperator o) :=
  ⟨by decide, by decide,
    (EvaluateIACScanReport_after_parse "critical:2,operator:and".toList "AND".toList
      (GoMap.mk [("CRITICAL".toList, 2)]) twoCritical (by decide)).2⟩

/-! ## Severities without a threshold -/

theorem index_setEntry (es : List (Str × Int)) (k : Str) (v : Int) (k' : Str) :
    (GoMap.mk (setEntry es k v)).index k'
      = if k = k' then v else (GoMap.mk es).index k' := by
  unfold GoMap.index
  rw [lookup_setEntry]
  by_cases h : k = k'
  · rw [if_pos h, if_pos h]; rfl
  · rw [if_neg h, if_neg h]

theorem computeLoop_congr (c c' : GoMap Int) (es : List (Str × Int)) :
    (∀ k ∈ es.map Prod.fst, c.index (ToUpper k) = c'.index (ToUpper k)) →
    ∀ acc, computeLoop c es acc = computeLoop c' es acc := by
  induction es with
  | nil => intro _ acc; rfl
  | cons e rest ih =>
    obtain ⟨k, t⟩ := e
    intro h acc
    have hk : c.index (ToUpper k) = c'.index (ToUpper k) := h k (by simp)
    have hrest : ∀ k' ∈ rest.map Prod.fst, c.index (ToUpper k') = c'.index (ToUpper k') :=
      fun k' hk' => h k' (by simp only [List.map_cons, List.mem_cons]; exact Or.inr hk')
    simp only [computeLoop, hk, ih hrest]

/-- The counting loop on a list with unnamed violations added: the same
error, and the same counts for the keys of the thresholds. -/
theorem fetchLoop_added (thresholds : GoMap Int) (vs vs' : List Violation)
    (h : AddedUnnamed thresholds vs vs') :
    ∀ acc acc' : List (Str × Int), agreeOn thresholds (GoMap.mk acc) (GoMap.mk acc') →
      (fetchLoop vs' acc').2 = (fetchLoop vs acc).2
        ∧ agreeOn thresholds (fetchLoop vs acc).1 (fetchLoop vs' acc').1 := by
  induction h with
  | done =>
    intro acc acc' hagree
    exact ⟨rfl, hagree⟩
  | keep v _ ih =>
    intro acc acc' hagree
    by_cases hv : isSeverityName (ToUpper v.Severity) = true
    · simp only [fetchLoop, hv, Bool.not_true, Bool.false_eq_true, if_false]
      apply ih
      intro k hk
      rw [index_setEntry, index_setEntry]
      by_cases hs : ToUpper v.Severity = ToUpper k
      · rw [if_pos hs, if_pos hs, hs, hagree k hk]
      · rw [if_neg hs, if_neg hs]
        exact hagree k hk
    · have hv' : isSeverityName (ToUpper v.Severity) = false := by simpa using hv
      simp only [fetchLoop, hv', Bool.not_false, if_true]
      exact ⟨trivial, fun k _ => rfl⟩
  | add v hvalid hunnamed _ ih =>
    intro acc acc' hagree
    have hv : isSeverityName (ToUpper v.Severity) = true := hvalid
    simp only [fetchLoop, hv, Bool.not_true, Bool.false_eq_true, if_false]
    apply ih
    intro k hk
    rw [index_setEntry]
    have hs : ¬ ToUpper v.Severity = ToUpper k := fun h0 => hunnamed k hk h0.symm
    rw [if_neg hs]
    exact hagree k hk

/-- Unnamed violations added, the map ranged over in the same order both
times: the same result, for every threshold map and every operator. -/
theorem evaluate_added_unnamed (iacReport iacReport' : IACReportTemplate)
    (thresholds : GoMap Int) (operator : Str)
    (h : AddedUnnamed thresholds (violationsOf iacReport) (violationsOf iacReport')) :
    EvaluateIACScanReport iacReport' thresholds operator
      = EvaluateIACScanReport iacReport thresholds operator := by
  obtain ⟨herr, hagree⟩ := fetchLoop_added thresholds _ _ h [] [] (fun k _ => rfl)
  have hf : fetchViolationFromIACReport iacReport = fetchLoop (violationsOf iacReport) [] := rfl
  have hf' : fetchViolationFromIACReport iacReport'
      = fetchLoop (violationsOf iacReport') [] := rfl
  unfold EvaluateIACScanReport
  rw [hf, hf']
  cases hres : fetchLoop (violationsOf iacReport) [] with
  | mk m e =>
    cases hres' : fetchLoop (violationsOf iacReport') [] with
    | mk m' e' =>
      rw [hres, hres'] at herr hagree
      simp only at herr hagree
      subst herr
      cases e' with
      | some err => rfl
      | none =>
        simp only
        have hc : computeViolationState m' thresholds = computeViolationState m thresholds := by
          unfold computeViolationState
          rw [computeLoop_congr m' m thresholds.entries (fun k hk => (hagree k hk).symm)]
        rw [hc]

/-- The loop of `computeViolationState` on keys that stay distinct when
upper-cased: one flag for each entry, under the upper-cased key. -/
theorem computeLoop_upper (severityCounts : GoMap Int) (es : List (Str × Int)) :
    ∀ acc : List (Str × Bool),
      ((es.map Prod.fst).map ToUpper).Nodup →
      (∀ k ∈ es.map Prod.fst, ToUpper k ∉ acc.map Prod.fst) →
      computeLoop severityCounts es acc
        = acc ++ es.map
            (fun e => (ToUpper e.1, breachFlag severityCounts (ToUpper e.1) e.2)) := by
  induction es with
  | nil => intro acc _ _; simp [computeLoop]
  | cons e rest ih =>
    obtain ⟨k, t⟩ := e
    intro acc hnd hdisj
    simp only [List.map_cons, List.nodup_cons] at hnd
    have hnot : ToUpper k ∉ acc.map Prod.fst := hdisj k (by simp)
    have hstep : ∀ b : Bool, computeLoop severityCounts rest (setEntry acc (ToUpper k) b)
        = (acc ++ [(ToUpper k, b)]) ++ rest.map
            (fun e => (ToUpper e.1, breachFlag severityCounts (ToUpper e.1) e.2)) := by
      intro b
      rw [setEntry_of_not_mem acc (ToUpper k) b hnot]
      apply ih _ hnd.2
      intro k' hk'
      have h1 : ToUpper k' ∉ acc.map Prod.fst := hdisj k' (by simp [hk'])
      have h2 : ToUpper k' ≠ ToUpper k := by
        intro heq
        exact hnd.1 (heq ▸ List.mem_map_of_mem ToUpper hk')
      simp only [List.map_append, List.map_cons, List.map_nil, List.mem_append,
        List.mem_singleton, not_or]
      exact ⟨h1, h2⟩
    simp only [computeLoop, breachFlag]
    by_cases h0 : severityCounts.index (ToUpper k) = 0
    · simp only [h0, if_true]
      rw [hstep]
      simp only [List.append_assoc, List.singleton_append, List.map_cons, breachFlag, h0,
        if_true]
    · simp only [h0, if_false]
      rw [hstep]
      simp only [List.append_assoc, List.singleton_append, List.map_cons, breachFlag, h0,
        if_false]

/-- The combination of the flags does not depend on the order in which the
flag map is ranged over. -/
theorem isBreachingThreshold_perm (operator : Str) (flags flags' : List (Str × Bool))
    (h : flags'.Perm flags) :
    isBreachingThreshold operator (GoMap.mk flags')
      = isBreachingThreshold operator (GoMap.mk flags) := by
  have hall : all (GoMap.mk flags') = all (GoMap.mk flags) := by
    rw [Bool.eq_iff_iff, all_iff, all_iff]
    show (flags' ≠ [] ∧ ∀ e ∈ flags', e.2 = true) ↔ (flags ≠ [] ∧ ∀ e ∈ flags, e.2 = true)
    constructor
    · rintro ⟨hne, hall⟩
      exact ⟨fun h0 => hne (List.Perm.eq_nil (h0 ▸ h)), fun e he => hall e (h.mem_iff.2 he)⟩
    · rintro ⟨hne, hall⟩
      exact ⟨fun h0 => hne (List.Perm.eq_nil (h0 ▸ h.symm)),
        fun e he => hall e (h.mem_iff.1 he)⟩
  have hany : any (GoMap.mk flags') = any (GoMap.mk flags) := by
    rw [Bool.eq_iff_iff, any_iff, any_iff]
    show (∃ e ∈ flags', e.2 = true) ↔ (∃ e ∈ flags, e.2 = true)
    constructor
    · rintro ⟨e, he, hv⟩
      exact ⟨e, h.mem_iff.1 he, hv⟩
    · rintro ⟨e, he, hv⟩
      exact ⟨e, h.mem_iff.2 he, hv⟩
  unfold isBreachingThreshold
  rw [hall, hany]

/-- With threshold keys that stay distinct when upper-cased, the result does
not depend on the order in which the threshold map is ranged over. -/
theorem evaluate_perm (iacReport : IACReportTemplate) (thresholds thresholds' : GoMap Int)
    (operator : Str)
    (hdistinct : (thresholds.keys.map ToUpper).Nodup)
    (horder : thresholds'.entries.Perm thresholds.entries) :
    EvaluateIACScanReport iacReport thresholds' operator
      = EvaluateIACScanReport iacReport thresholds operator := by
  have hdistinct' : (thresholds'.keys.map ToUpper).Nodup :=
    (((horder.map Prod.fst).map ToUpper).nodup_iff).2 hdistinct
  unfold EvaluateIACScanReport
  cases hres : fetchViolationFromIACReport iacReport with
  | mk m e =>
    cases e with
    | some err => rfl
    | none =>
      simp only
      unfold computeViolationState
      rw [computeLoop_upper m thresholds.entries [] hdistinct (by simp),
        computeLoop_upper m thresholds'.entries [] hdistinct' (by simp)]
      exact isBreachingThreshold_perm operator _ _ (List.Perm.append_left [] (horder.map _))

/-- Counterexample to C20 as stated: the thresholds high:5 and HIGH:1 are one
map whose two keys name the same severity.  Ranged over in one order the later entry
HIGH:1 decides, and a report of one high finding breaches under OR; ranged
over in the other order high:5 decides, and the same report, as well as the
report with a medium finding added, which no key names, does not breach.
The result of the call is not determined by the report, the map and the
operator, and adding the medium finding does not leave it unchanged. -/
theorem EvaluateIACScanReport_colliding_keys :
    highTwiceReversed.entries.Perm highTwice.entries
    ∧ highTwice.WF
    ∧ AddedUnnamed highTwice (violationsOf oneHigh) (violationsOf oneHighPlusMedium)
    ∧ EvaluateIACScanReport oneHigh highTwice "OR".toList = (true, none)
    ∧ EvaluateIACScanReport oneHigh highTwiceReversed "OR".toList = (false, none)
    ∧ EvaluateIACScanReport oneHighPlusMedium highTwiceReversed "OR".toList = (false, none)
    ∧ EvaluateIACScanReport oneHighPlusMedium highTwiceReversed "OR".toList
        ≠ EvaluateIACScanReport oneHigh highTwice "OR".toList :=
  ⟨List.Perm.swap _ _ _, by decide,
    AddedUnnamed.keep _ (AddedUnnamed.add _ (by decide) (by decide) AddedUnnamed.done),
    by decide, by decide, by decide, by decide⟩

/-- C20: severities without a threshold have no influence, for a threshold
map whose keys stay pairwise distinct when upper-cased: when violations of
valid severities that no threshold key names, ignoring case, are added to a
report, anywhere and in any number, EvaluateIACScanReport returns the same
result, for every operator and whatever the orders in which the two calls
range over the map. -/
theorem EvaluateIACScanReport_unnamed_added (iacReport iacReport' : IACReportTemplate)
    (thresholds thresholds' : GoMap Int) (operator : Str)
    (hdistinct : (thresholds.keys.map ToUpper).Nodup)
    (horder : thresholds'.entries.Perm thresholds.entries)
    (h : AddedUnnamed thresholds (violationsOf iacReport) (violationsOf iacReport')) :
    EvaluateIACScanReport iacReport' thresholds' operator
      = EvaluateIACScanReport iacReport thresholds operator := by
  rw [evaluate_perm iacReport' thresholds thresholds' operator hdistinct horder]
  exact evaluate_added_unnamed iacReport iacReport' thresholds operator h

/-- Witness of C20: the thresholds CRITICAL:2 and HIGH:1 under AND stay
breached when a medium finding is added, the map being ranged over in the
other order the second time. -/
theorem EvaluateIACScanReport_unnamed_added_witness :
    (criticalHigh.keys.map ToUpper).Nodup
    ∧ highCritical.entries.Perm criticalHigh.entries
    ∧ AddedUnnamed criticalHigh (violationsOf breaching) (violationsOf breachingPlusMedium)
    ∧ EvaluateIACScanReport breaching criticalHigh "AND".toList = (true, none)
    ∧ EvaluateIACScanReport breachingPlusMedium highCritical "AND".toList
      = EvaluateIACScanReport breaching criticalHigh "AND".toList :=
  ⟨by decide, List.Perm.swap _ _ _,
    AddedUnnamed.keep _ (AddedUnnamed.add _ (by decide) (by decide)
      (AddedUnnamed.keep _ (AddedUnnamed.keep _ AddedUnnamed.done))),
    by decide,
    EvaluateIACScanReport_unnamed_added breaching breachingPlusMedium criticalHigh
      highCritical "AND".toList (by decide) (List.Perm.swap _ _ _)
      (AddedUnnamed.keep _ (AddedUnnamed.add _ (by decide) (by decide)
        (AddedUnnamed.keep _ (AddedUnnamed.keep _ AddedUnnamed.done))))⟩

/-! ## Lemmas on the converter -/

theorem getUniqueLoop_lookup (vs : List Violation) :
    ∀ (acc : List (Str × Violation)) (policyID : Str),
      (GoMap.mk (getUniqueLoop vs acc)).lookup policyID
        = match (GoMap.mk acc).lookup policyID with
          | some v => some v
          | none => firstWith vs policyID := by
  induction vs with
  | nil =>
    intro acc policyID
    cases h : (GoMap.mk acc).lookup policyID <;> simp [getUniqueLoop, firstWith, h]
  | cons v rest ih =>
    intro acc policyID
    by_cases hin : ((GoMap.mk acc).lookup v.PolicyID).isSome = true
    · have hstep : getUniqueLoop (v :: rest) acc = getUniqueLoop rest acc := by
        simp only [getUniqueLoop, hin, Bool.not_true, Bool.false_eq_true, if_false]
      rw [hstep, ih]
      cases h : (GoMap.mk acc).lookup policyID with
      | some w => rfl
      | none =>
        have hne : ¬ v.PolicyID = policyID := by
          intro heq
          rw [heq, h] at hin
          exact Bool.noConfusion hin
        simp only [firstWith, List.find?_cons, hne, decide_False]
    · have hnone : (GoMap.mk acc).lookup v.PolicyID = none := by
        cases h : (GoMap.mk acc).lookup v.PolicyID with
        | none => rfl
        | some x => rw [h] at hin; exact absurd rfl hin
      have hstep : getUniqueLoop (v :: rest) acc
          = getUniqueLoop rest (setEntry acc v.PolicyID v) := by
        simp only [getUniqueLoop, hnone, Option.isSome_none, Bool.not_false, if_true]
      rw [hstep, ih, lookup_setEntry]
      by_cases heq : v.PolicyID = policyID
      · rw [if_pos heq]
        rw [heq] at hnone
        rw [hnone]
        simp only [firstWith, List.find?_cons, heq, decide_True]
      · rw [if_neg heq]
        cases h : (GoMap.mk acc).lookup policyID with
        | some w => rfl
        | none => simp only [firstWith, List.find?_cons, heq, decide_False]

theorem getUniqueLoop_nodup (vs : List Violation) :
    ∀ acc : List (Str × Violation), (acc.map Prod.fst).Nodup →
      ((getUniqueLoop vs acc).map Prod.fst).Nodup := by
  induction vs with
  | nil => intro acc h; exact h
  | cons v rest ih =>
    intro acc h
    by_cases hin : ((GoMap.mk acc).lookup v.PolicyID).isSome = true
    · simp only [getUniqueLoop, hin, Bool.not_true, Bool.false_eq_true, if_false]
      exact ih acc h
    · simp only [getUniqueLoop, hin, Bool.not_false, if_true]
      exact ih _ (nodup_setEntry _ _ _ h)

theorem getUniqueViolations_lookup (vs : List Violation) (policyID : Str) :
    (getUniqueViolations vs).lookup policyID = firstWith vs policyID := by
  unfold getUniqueViolations
  rw [getUniqueLoop_lookup]
  rfl

theorem getUniqueViolations_nodup (vs : List Violation) :
    ((getUniqueViolations vs).entries.map Prod.fst).Nodup :=
  getUniqueLoop_nodup vs [] List.nodup_nil

/-- Every entry of the map of unique violations is a policy identifier with
the first violation that carries it. -/
theorem getUniqueViolations_entry (vs : List Violation) (e : Str × Violation)
    (h : e ∈ (getUniqueViolations vs).entries) : firstWith vs e.1 = some e.2 := by
  rw [← getUniqueViolations_lookup]
  exact lookup_of_mem _ (getUniqueViolations_nodup vs) e.1 e.2 h

theorem firstWith_some (vs : List Violation) (policyID : Str) (v : Violation)
    (h : firstWith vs policyID = some v) : v ∈ vs ∧ v.PolicyID = policyID := by
  unfold firstWith at h
  exact ⟨List.mem_of_find?_eq_some h, by simpa using List.find?_some h⟩

theorem firstWith_isSome_iff (vs : List Violation) (policyID : Str) :
    (∃ v, firstWith vs policyID = some v) ↔ ∃ v ∈ vs, v.PolicyID = policyID := by
  constructor
  · rintro ⟨v, hv⟩
    exact ⟨v, firstWith_some vs policyID v hv⟩
  · rintro ⟨v, hv, hid⟩
    cases h : firstWith vs policyID with
    | some w => exact ⟨w, rfl⟩
    | none =>
      unfold firstWith at h
      have := List.find?_eq_none.1 h v hv
      simp [hid] at this

theorem getUniqueViolations_keys (vs : List Violation) (policyID : Str) :
    policyID ∈ (getUniqueViolations vs).entries.map Prod.fst
      ↔ ∃ v ∈ vs, v.PolicyID = policyID := by
  rw [← firstWith_isSome_iff, ← getUniqueViolations_lookup]
  have hnone := lookup_eq_none_iff (getUniqueViolations vs).entries policyID
  have hmk : GoMap.mk (getUniqueViolations vs).entries = getUniqueViolations vs := rfl
  rw [hmk] at hnone
  constructor
  · intro hmem
    cases h : (getUniqueViolations vs).lookup policyID with
    | some w => exact ⟨w, rfl⟩
    | none => exact absurd hmem (hnone.1 h)
  · rintro ⟨w, hw⟩
    by_contra hmem
    rw [hnone.2 hmem] at hw
    exact Option.noConfusion hw

theorem constructRulesLoop_valid (es : List (Str × Violation)) :
    ∀ rules : List Rule, (∀ e ∈ es, isSeverityValid e.2.Severity = true) →
      constructRulesLoop es rules = (rules ++ es.map (fun e => ruleOf e.1 e.2), none) := by
  induction es with
  | nil => intro rules _; simp [constructRulesLoop]
  | cons e rest ih =>
    obtain ⟨policyID, violation⟩ := e
    intro rules h
    have hv : isSeverityValid violation.Severity = true := h (policyID, violation) (by simp)
    simp only [constructRulesLoop, hv, Bool.not_true, Bool.false_eq_true, if_false]
    rw [ih _ (fun e he => h e (List.mem_cons_of_mem _ he))]
    simp only [List.map_cons, List.append_assoc, List.singleton_append]

theorem constructRulesLoop_invalid (es : List (Str × Violation)) :
    ∀ rules : List Rule, (∃ e ∈ es, isSeverityValid e.2.Severity = false) →
      ∃ s, isSeverityValid s = false
        ∧ constructRulesLoop es rules = ([], some (ConverterError.invalidSeverity s)) := by
  induction es with
  | nil =>
    intro rules h
    obtain ⟨e, he, _⟩ := h
    exact absurd he (List.not_mem_nil e)
  | cons e rest ih =>
    obtain ⟨policyID, violation⟩ := e
    intro rules h
    by_cases hv : isSeverityValid violation.Severity = true
    · have hrest : ∃ e ∈ rest, isSeverityValid e.2.Severity = false := by
        obtain ⟨e, he, hbad⟩ := h
        rcases List.mem_cons.1 he with rfl | he'
        · rw [hv] at hbad; exact Bool.noConfusion hbad
        · exact ⟨e, he', hbad⟩
      obtain ⟨s, hs, heq⟩ := ih (rules ++ [ruleOf policyID violation]) hrest
      refine ⟨s, hs, ?_⟩
      simp only [constructRulesLoop, hv, Bool.not_true, Bool.false_eq_true, if_false]
      exact heq
    · have hv' : isSeverityValid violation.Severity = false := by simpa using hv
      refine ⟨violation.Severity, hv', ?_⟩
      simp only [constructRulesLoop, hv', Bool.not_false, if_true]

theorem constructResultsLoop_eq (vs : List Violation) :
    ∀ results : List Result, constructResultsLoop vs results = results ++ vs.map resultOf := by
  induction vs with
  | nil => intro results; simp [constructResultsLoop]
  | cons v rest ih =>
    intro results
    simp only [constructResultsLoop, ih, List.map_cons, List.append_assoc,
      List.singleton_append]

theorem constructResults_eq (vs : List Violation) : constructResults vs = vs.map resultOf := by
  unfold constructResults
  rw [constructResultsLoop_eq]
  rfl

/-- The two ways a call of the converter ends: the error of an invalid
severity with the empty output, or the full output. -/
theorem FromIACScanReport_cases (rangeOrder : RangeOrder) (report : IACValidationReport) :
    (∃ s, isSeverityValid s = false
        ∧ (∃ e ∈ rangeOrder (getUniqueViolations report.Violations).entries,
            isSeverityValid e.2.Severity = false)
        ∧ FromIACScanReport rangeOrder report
          = ({}, some (ConverterError.constructRules (ConverterError.invalidSeverity s))))
    ∨ ((∀ e ∈ rangeOrder (getUniqueViolations report.Violations).entries,
          isSeverityValid e.2.Severity = true)
        ∧ constructRules rangeOrder (getUniqueViolations report.Violations)
          = ((rangeOrder (getUniqueViolations report.Violations).entries).map
              (fun e => ruleOf e.1 e.2), none)
        ∧ FromIACScanReport rangeOrder report
          = ({ Version := SARIF_VERSION
               Schema := SARIF_SCHEMA
               Runs :=
                [{ Tool :=
                    { Driver :=
                      { Name := IAC_TOOL_NAME
                        Version := VERSION
                        InformationURI := IAC_TOOL_DOCUMENTATION_LINK
                        Rules := (rangeOrder (getUniqueViolations report.Violations).entries).map
                          (fun e => ruleOf e.1 e.2) } }
                   Results := constructResults report.Violations }] }, none)) := by
  by_cases hbad : ∃ e ∈ rangeOrder (getUniqueViolations report.Violations).entries,
      isSeverityValid e.2.Severity = false
  · obtain ⟨s, hs, heq⟩ := constructRulesLoop_invalid _ [] hbad
    refine Or.inl ⟨s, hs, hbad, ?_⟩
    unfold FromIACScanReport constructRules
    simp only [heq]
  · have hall : ∀ e ∈ rangeOrder (getUniqueViolations report.Violations).entries,
        isSeverityValid e.2.Severity = true := by
      intro e he
      cases h : isSeverityValid e.2.Severity with
      | true => rfl
      | false => exact absurd ⟨e, he, h⟩ hbad
    have heq := constructRulesLoop_valid _ [] hall
    rw [List.nil_append] at heq
    refine Or.inr ⟨hall, heq, ?_⟩
    unfold FromIACScanReport constructRules
    simp only [heq]

/-! ## The results of the converter -/

/-- C21: constructResults returns a list as long as the violation list, its
i-th result built from the i-th violation alone: the rule id is the policy id,
the one location holds the one logical location named by the asset id, and
the properties repeat the asset id, the asset and the asset type; nothing is
deduplicated. -/
theorem constructResults_pointwise (violations : List Violation) :
    (constructResults violations).length = violations.length
    ∧ ∀ (i : Nat) (v : Violation), violations[i]? = some v →
        (constructResults violations)[i]? = some (resultOf v)
        ∧ (resultOf v).RuleID = v.PolicyID
        ∧ (resultOf v).Locations
            = [{ LogicalLocations := [{ FullyQualifiedName := v.AssetID }] }]
        ∧ (resultOf v).Properties.AssetID = v.AssetID
        ∧ (resultOf v).Properties.Asset = v.ViolatedAsset.Asset
        ∧ (resultOf v).Properties.AssetType = v.ViolatedAsset.AssetType := by
  rw [constructResults_eq]
  refine ⟨List.length_map _ _, ?_⟩
  intro i v hv
  refine ⟨?_, rfl, rfl, rfl, rfl, rfl⟩
  rw [List.getElem?_map, hv]
  rfl

/-- C22: the message of the result of a violation is "Asset type: ", the
asset type, " has a violation, next steps: " and the next steps, one after
the other; with both fields empty it is
"Asset type:  has a violation, next steps: ". -/
theorem constructResults_message (violations : List Violation) :
    (∀ (i : Nat) (v : Violation), violations[i]? = some v →
      ((constructResults violations)[i]?).map (fun r => r.Message.Text)
        = some ("Asset type: ".toList ++ v.ViolatedAsset.AssetType
            ++ " has a violation, next steps: ".toList ++ v.NextSteps))
    ∧ (∀ v : Violation, v.ViolatedAsset.AssetType = [] → v.NextSteps = [] →
        (constructResults [v]).map (fun r => r.Message.Text)
          = ["Asset type:  has a violation, next steps: ".toList]) := by
  constructor
  · intro i v hv
    rw [constructResults_eq, List.getElem?_map, hv]
    rfl
  · intro v h1 h2
    rw [constructResults_eq]
    simp only [List.map_cons, List.map_nil, resultOf, h1, h2, List.append_nil]
    decide

/-- C26: whenever FromIACScanReport returns an error, the output beside it is
the empty value: no version, no schema, no runs, so no rules and no
results. -/
theorem FromIACScanReport_error_output (rangeOrder : RangeOrder)
    (report : IACValidationReport)
    (h : (FromIACScanReport rangeOrder report).2 ≠ none) :
    (FromIACScanReport rangeOrder report).1 = {}
    ∧ (FromIACScanReport rangeOrder report).1.Version = []
    ∧ (FromIACScanReport rangeOrder report).1.Schema = []
    ∧ (FromIACScanReport rangeOrder report).1.Runs = []
    ∧ rulesOf (FromIACScanReport rangeOrder report).1 = []
    ∧ resultsOf (FromIACScanReport rangeOrder report).1 = [] := by
  rcases FromIACScanReport_cases rangeOrder report with ⟨s, _, _, heq⟩ | ⟨_, _, heq⟩
  · rw [heq]
    exact ⟨rfl, rfl, rfl, rfl, rfl, rfl⟩
  · rw [heq] at h
    exact absurd rfl h

/-- Witness of C26: the report of the tests with the severity
INVALID_SEVERITY. -/
theorem FromIACScanReport_error_output_witness :
    FromIACScanReport id IACValidationReportWithInvalidSeverity
      = ({}, some (ConverterError.constructRules
          (ConverterError.invalidSeverity "INVALID_SEVERITY".toList)))
    ∧ (FromIACScanReport id IACValidationReportWithInvalidSeverity).1 = {} :=
  ⟨by decide,
    (FromIACScanReport_error_output id IACValidationReportWithInvalidSeverity
      (by decide)).1⟩

/-- C28: whenever FromIACScanReport succeeds, the output has version "2.1.0",
the schema of SARIF 2.1.0, and one run; the driver of its tool is named
"analyze-code-security-scc", of version "1.0.0", with the link to the
validate-iac documentation and the rules constructRules returned, and its
results are those constructResults builds from the input. -/
theorem FromIACScanReport_success_output (rangeOrder : RangeOrder)
    (report : IACValidationReport)
    (h : (FromIACScanReport rangeOrder report).2 = none) :
    (FromIACScanReport rangeOrder report).1.Version = "2.1.0".toList
    ∧ (FromIACScanReport rangeOrder report).1.Schema
        = "https://raw.githubusercontent.com/oasis-tcs/sarif-spec/master/Schemata/sarif-schema-2.1.0.json".toList
    ∧ ∃ run, (FromIACScanReport rangeOrder report).1.Runs = [run]
        ∧ run.Tool.Driver.Name = "analyze-code-security-scc".toList
        ∧ run.Tool.Driver.Version = "1.0.0".toList
        ∧ run.Tool.Driver.InformationURI
            = "https://cloud.google.com/security-command-center/docs/validate-iac".toList
        ∧ run.Tool.Driver.Rules
            = (constructRules rangeOrder (getUniqueViolations report.Violations)).1
        ∧ run.Results = constructResults report.Violations := by
  rcases FromIACScanReport_cases rangeOrder report with ⟨s, _, _, heq⟩ | ⟨_, hrules, heq⟩
  · rw [heq] at h
    exact Option.noConfusion h
  · rw [heq, hrules]
    exact ⟨rfl, rfl, _, rfl, rfl, rfl, rfl, rfl, rfl⟩

/-- Witness of C28: the valid report of the tests gives the output the tests
expect. -/
theorem FromIACScanReport_success_output_witness :
    FromIACScanReport id IACValidationValidReport = (IACValidSarifOutput, none)
    ∧ (FromIACScanReport id IACValidationValidReport).1.Version = "2.1.0".toList :=
  ⟨by decide, (FromIACScanReport_success_output id IACValidationValidReport (by decide)).1⟩

/-- C30: on a report with a violation of an invalid severity,
EvaluateIACScanReport returns the verdict false and an error, whatever the
thresholds and the operator, an invalid operator included. -/
theorem EvaluateIACScanReport_invalid_severity (iacReport : IACReportTemplate)
    (thresholds : GoMap Int) (operator : Str)
    (h : ∃ v ∈ violationsOf iacReport, ¬ validSeverity v) :
    (EvaluateIACScanReport iacReport thresholds operator).1 = false
    ∧ (EvaluateIACScanReport iacReport thresholds operator).2 ≠ none
    ∧ ∀ o, (EvaluateIACScanReport iacReport thresholds operator).2
        ≠ some (Error.invalidSeverityOperator o) := by
  obtain ⟨s, _, heq⟩ := fetchLoop_invalid (violationsOf iacReport) [] h
  have heq' : fetchViolationFromIACReport iacReport
      = (GoMap.nil, some (Error.invalidSeverityExpression s)) := heq
  have hev : EvaluateIACScanReport iacReport thresholds operator
      = (false, some (Error.fetchViolation (Error.invalidSeverityExpression s))) := by
    unfold EvaluateIACScanReport
    rw [heq']
  rw [hev]
  exact ⟨rfl, fun h0 => Option.noConfusion h0,
    fun o h0 => Error.noConfusion (Option.some.inj h0)⟩

/-- Witness of C30: an invalid severity under the operator "RANDOM".  The
severity "hıgh", written with the dotless i, is not an invalid one: Go
upper-cases it to HIGH, and the report breaches the threshold HIGH:1. -/
theorem EvaluateIACScanReport_invalid_severity_witness :
    (∃ v ∈ violationsOf invalidSeverityReport, ¬ validSeverity v)
    ∧ EvaluateIACScanReport invalidSeverityReport criticalHigh "RANDOM".toList
      = (false, some (Error.fetchViolation
          (Error.invalidSeverityExpression "INVALID".toList)))
    ∧ (EvaluateIACScanReport invalidSeverityReport criticalHigh "RANDOM".toList).1 = false
    ∧ (∀ v ∈ violationsOf dotlessHigh, validSeverity v)
    ∧ EvaluateIACScanReport dotlessHigh criticalHigh "OR".toList = (true, none) :=
  ⟨by decide, by decide,
    (EvaluateIACScanReport_invalid_severity invalidSeverityReport criticalHigh
      "RANDOM".toList (by decide)).1, by decide, by decide⟩

/-! ## The rules of the converter -/

theorem mem_of_lookup {V : Type} (es : List (Str × V)) (k : Str) (v : V)
    (h : (GoMap.mk es).lookup k = some v) : (k, v) ∈ es := by
  induction es with
  | nil => exact Option.noConfusion h
  | cons e rest ih =>
    obtain ⟨k0, v0⟩ := e
    rw [lookup_mk_cons] at h
    by_cases hk : k0 = k
    · rw [if_pos hk] at h
      rw [← hk, ← Option.some.inj h]
      exact List.mem_cons_self _ _
    · rw [if_neg hk] at h
      exact List.mem_cons_of_mem _ (ih h)

theorem mem_rangeOrder (rangeOrder : RangeOrder) (hvalid : rangeOrder.valid)
    (es : List (Str × Violation)) (e : Str × Violation) :
    e ∈ rangeOrder es ↔ e ∈ es :=
  (hvalid es).mem_iff

/-- With a valid order the converter fails exactly when the first violation
of some policy identifier has a severity it does not accept. -/
theorem FromIACScanReport_error_iff (rangeOrder : RangeOrder) (hvalid : rangeOrder.valid)
    (report : IACValidationReport) :
    (FromIACScanReport rangeOrder report).2 ≠ none
      ↔ ∃ v ∈ report.Violations, firstSeenInvalid report.Violations v := by
  rcases FromIACScanReport_cases rangeOrder report with
    ⟨s, _, ⟨e, he, hbad⟩, heq⟩ | ⟨hall, _, heq⟩
  · rw [heq]
    have he' := (mem_rangeOrder rangeOrder hvalid _ e).1 he
    have hfirst := getUniqueViolations_entry report.Violations e he'
    obtain ⟨hmem, hid⟩ := firstWith_some _ _ _ hfirst
    refine ⟨fun _ => ⟨e.2, hmem, ?_, hbad⟩, fun _ h0 => Option.noConfusion h0⟩
    rw [hid]
    exact hfirst
  · rw [heq]
    refine ⟨fun h0 => absurd rfl h0, ?_⟩
    rintro ⟨v, _, hfirst, hbad⟩
    rw [← getUniqueViolations_lookup] at hfirst
    have hmem : (v.PolicyID, v) ∈ (getUniqueViolations report.Violations).entries :=
      mem_of_lookup _ _ _ hfirst
    have := hall _ ((mem_rangeOrder rangeOrder hvalid _ _).2 hmem)
    rw [hbad] at this
    exact Bool.noConfusion this

/-- The converter succeeds when every severity is one of the four names as
the converter compares them, in upper case. -/
theorem FromIACScanReport_succeeds (rangeOrder : RangeOrder) (report : IACValidationReport)
    (horder : rangeOrder.valid)
    (hsev : ∀ v ∈ report.Violations, isSeverityValid v.Severity = true) :
    (FromIACScanReport rangeOrder report).2 = none := by
  rcases FromIACScanReport_cases rangeOrder report with
    ⟨s, _, ⟨e, he, hbad⟩, _⟩ | ⟨_, _, heq⟩
  · have he' := (mem_rangeOrder rangeOrder horder _ e).1 he
    have hfirst := getUniqueViolations_entry report.Violations e he'
    have := hsev _ (firstWith_some _ _ _ hfirst).1
    rw [hbad] at this
    exact Bool.noConfusion this
  · rw [heq]

/-- The rules of a conversion that succeeds: one for each distinct policy
identifier, with the fields of the first violation, in input order, that
carries the identifier, in whatever order the map is visited. -/
theorem rules_of_success (rangeOrder : RangeOrder) (report : IACValidationReport)
    (horder : rangeOrder.valid)
    (hok : (FromIACScanReport rangeOrder report).2 = none) :
    ((rulesOf (FromIACScanReport rangeOrder report).1).map (fun r => r.ID)).Nodup
    ∧ (∀ policyID, policyID ∈ (rulesOf (FromIACScanReport rangeOrder report).1).map
          (fun r => r.ID)
        ↔ ∃ v ∈ report.Violations, v.PolicyID = policyID)
    ∧ ∀ rule ∈ rulesOf (FromIACScanReport rangeOrder report).1,
        ∃ v, firstWith report.Violations rule.ID = some v
          ∧ rule.FullDescription.Text = v.ViolatedPolicy.Description
          ∧ rule.Properties.Severity = v.Severity
          ∧ rule.Properties.PolicyType = v.ViolatedPolicy.ConstraintType
          ∧ rule.Properties.ComplianceStandard = v.ViolatedPolicy.ComplianceStandards
          ∧ rule.Properties.PolicySet = v.ViolatedPosture.PolicySet
          ∧ rule.Properties.Posture = v.ViolatedPosture.Posture
          ∧ rule.Properties.PostureRevisionID = v.ViolatedPosture.PostureRevisionID
          ∧ rule.Properties.PostureDeploymentID = v.ViolatedPosture.PostureDeployment
          ∧ rule.Properties.Constraints = v.ViolatedPolicy.Constraint
          ∧ rule.Properties.NextSteps = v.NextSteps := by
  rcases FromIACScanReport_cases rangeOrder report with
    ⟨s, _, _, heq⟩ | ⟨_, _, heq⟩
  · rw [heq] at hok
    exact Option.noConfusion hok
  · rw [heq]
    have hrules : rulesOf
        ({ Version := SARIF_VERSION
           Schema := SARIF_SCHEMA
           Runs :=
            [{ Tool :=
                { Driver :=
                  { Name := IAC_TOOL_NAME
                    Version := VERSION
                    InformationURI := IAC_TOOL_DOCUMENTATION_LINK
                    Rules := (rangeOrder (getUniqueViolations report.Violations).entries).map
                      (fun e => ruleOf e.1 e.2) } }
               Results := constructResults report.Violations }] } : SarifOutput)
        = (rangeOrder (getUniqueViolations report.Violations).entries).map
            (fun e => ruleOf e.1 e.2) := by
      show _ ++ [] = _
      exact List.append_nil _
    simp only [hrules]
    have hids : ((rangeOrder (getUniqueViolations report.Violations).entries).map
          (fun e => ruleOf e.1 e.2)).map (fun r => r.ID)
        = (rangeOrder (getUniqueViolations report.Violations).entries).map Prod.fst := by
      rw [List.map_map]
      rfl
    have hperm := (horder (getUniqueViolations report.Violations).entries).map Prod.fst
    refine ⟨?_, ?_, ?_⟩
    · rw [hids]
      exact hperm.nodup_iff.2 (getUniqueViolations_nodup report.Violations)
    · intro policyID
      rw [hids, hperm.mem_iff]
      exact getUniqueViolations_keys report.Violations policyID
    · intro rule hrule
      obtain ⟨e, he, rfl⟩ := List.mem_map.1 hrule
      have he' := (mem_rangeOrder rangeOrder horder _ e).1 he
      exact ⟨e.2, getUniqueViolations_entry report.Violations e he',
        rfl, rfl, rfl, rfl, rfl, rfl, rfl, rfl, rfl, rfl⟩

/-- C23: one rule for each policy identifier.  On one violation of the policy
P1 and of the severity "high", which is valid ignoring case, the converter
fails and no rule comes out, in whatever order the map is visited, where one
rule of the identifier P1 is to come out: isSeverityValid compares the
severity as it is written.  On three violations, the first and the last of
the policy P1, two rules come out, the one of P1 with the fields of the
first.  The converter succeeds on every list whose severities are written in
upper case, and whenever it succeeds there is one rule for each distinct
policy identifier: no two rules share an ID, the IDs are the policy
identifiers of the input, and the fields of a rule are those of the first
violation, in input order, that carries its identifier. -/
theorem FromIACScanReport_rules :
    (∀ v ∈ lowerCaseHigh.Violations, validSeverity v)
    ∧ (∃ v ∈ lowerCaseHigh.Violations, v.PolicyID = "P1".toList)
    ∧ (∀ rangeOrder : RangeOrder, rangeOrder.valid →
        (FromIACScanReport rangeOrder lowerCaseHigh).2 ≠ none
          ∧ rulesOf (FromIACScanReport rangeOrder lowerCaseHigh).1 = [])
    ∧ rulesOf (FromIACScanReport id sharedPolicy).1
        = [{ ID := "P1".toList
             Properties := { Severity := "HIGH".toList, NextSteps := "first".toList } },
           { ID := "P2".toList, Properties := { Severity := "LOW".toList } }]
    ∧ (∀ (rangeOrder : RangeOrder) (report : IACValidationReport), rangeOrder.valid →
        (∀ v ∈ report.Violations, isSeverityValid v.Severity = true) →
        (FromIACScanReport rangeOrder report).2 = none)
    ∧ ∀ (rangeOrder : RangeOrder) (report : IACValidationReport), rangeOrder.valid →
        (FromIACScanReport rangeOrder report).2 = none →
        ((rulesOf (FromIACScanReport rangeOrder report).1).map (fun r => r.ID)).Nodup
        ∧ (∀ policyID, policyID ∈ (rulesOf (FromIACScanReport rangeOrder report).1).map
              (fun r => r.ID)
            ↔ ∃ v ∈ report.Violations, v.PolicyID = policyID)
        ∧ ∀ rule ∈ rulesOf (FromIACScanReport rangeOrder report).1,
            ∃ v, firstWith report.Violations rule.ID = some v
              ∧ rule.FullDescription.Text = v.ViolatedPolicy.Description
              ∧ rule.Properties.Severity = v.Severity
              ∧ rule.Properties.PolicyType = v.ViolatedPolicy.ConstraintType
              ∧ rule.Properties.ComplianceStandard = v.ViolatedPolicy.ComplianceStandards
              ∧ rule.Properties.PolicySet = v.ViolatedPosture.PolicySet
              ∧ rule.Properties.Posture = v.ViolatedPosture.Posture
              ∧ rule.Properties.PostureRevisionID = v.ViolatedPosture.PostureRevisionID
              ∧ rule.Properties.PostureDeploymentID = v.ViolatedPosture.PostureDeployment
              ∧ rule.Properties.Constraints = v.ViolatedPolicy.Constraint
              ∧ rule.Properties.NextSteps = v.NextSteps := by
  refine ⟨by decide, by decide, ?_, by decide,
    fun rangeOrder report horder hsev => FromIACScanReport_succeeds rangeOrder report horder hsev,
    fun rangeOrder report horder hok => rules_of_success rangeOrder report horder hok⟩
  intro rangeOrder hvalid
  have herr : (FromIACScanReport rangeOrder lowerCaseHigh).2 ≠ none :=
    (FromIACScanReport_error_iff rangeOrder hvalid lowerCaseHigh).2 (by decide)
  refine ⟨herr, ?_⟩
  rcases FromIACScanReport_cases rangeOrder lowerCaseHigh with
    ⟨s, _, _, heq⟩ | ⟨_, _, heq⟩
  · rw [heq]
    rfl
  · rw [heq] at herr
    exact absurd rfl herr

/-- C24: the order of the rules.  The rules follow the order in which the map
of unique violations is visited, which the run time is free to choose: on two
violations of the policies P1 and P2 the rules come out as P1, P2 when the
map is visited in the order of insertion and as P2, P1 when it is visited in
the reverse order, where the first-seen order P1, P2 is to come out always. -/
theorem FromIACScanReport_rule_order :
    RangeOrder.valid id ∧ RangeOrder.valid List.reverse
    ∧ firstSeenIDs twoPolicies.Violations = ["P1".toList, "P2".toList]
    ∧ (rulesOf (FromIACScanReport id twoPolicies).1).map (fun r => r.ID)
      = ["P1".toList, "P2".toList]
    ∧ (rulesOf (FromIACScanReport List.reverse twoPolicies).1).map (fun r => r.ID)
      = ["P2".toList, "P1".toList]
    ∧ FromIACScanReport List.reverse twoPolicies ≠ FromIACScanReport id twoPolicies :=
  ⟨fun es => List.Perm.refl es, fun es => List.reverse_perm es, by decide, by decide,
    by decide, by decide⟩

/-- C25: the severity of a later violation of a policy.  On two violations of
the policy P1, the first HIGH and the second INVALID, the converter succeeds,
in whatever order the map is visited, where it is to fail: constructRules
sees the map of unique violations only, so the converter fails exactly when
the first violation of some policy has a severity it does not accept. -/
theorem FromIACScanReport_duplicate_invalid :
    (∃ v ∈ duplicateInvalid.Violations, ¬ validSeverity v)
    ∧ (∀ rangeOrder : RangeOrder, rangeOrder.valid →
        (FromIACScanReport rangeOrder duplicateInvalid).2 = none)
    ∧ rulesOf (FromIACScanReport id duplicateInvalid).1
        = [{ ID := "P1".toList, Properties := { Severity := "HIGH".toList } }]
    ∧ (resultsOf (FromIACScanReport id duplicateInvalid).1).length = 2
    ∧ ∀ (rangeOrder : RangeOrder) (report : IACValidationReport), rangeOrder.valid →
        ((FromIACScanReport rangeOrder report).2 ≠ none
          ↔ ∃ v ∈ report.Violations, firstSeenInvalid report.Violations v) := by
  refine ⟨by decide, ?_, by decide, by decide,
    fun rangeOrder report hvalid => FromIACScanReport_error_iff rangeOrder hvalid report⟩
  intro rangeOrder hvalid
  by_contra herr
  have := (FromIACScanReport_error_iff rangeOrder hvalid duplicateInvalid).1 herr
  revert this
  decide

/-- C27: the case of a severity.  On one violation of the severity "high",
which the counter of the validator accepts, the converter fails, in whatever
order the map is visited, where it is to succeed: isSeverityValid compares
the severity as it is written, without the upper-casing of the counter. -/
theorem FromIACScanReport_lower_case :
    (∀ v ∈ lowerCaseHigh.Violations, validSeverity v)
    ∧ fetchViolationFromIACReport { Response := { IacValidationReport := lowerCaseHigh } }
        = (GoMap.mk [("HIGH".toList, 1)], none)
    ∧ isSeverityValid "high".toList = false
    ∧ isSeverityValid (ToUpper "high".toList) = true
    ∧ FromIACScanReport id lowerCaseHigh
        = ({}, some (ConverterError.constructRules
            (ConverterError.invalidSeverity "high".toList)))
    ∧ ∀ rangeOrder : RangeOrder, rangeOrder.valid →
        (FromIACScanReport rangeOrder lowerCaseHigh).2 ≠ none := by
  refine ⟨by decide, by decide, by decide, by decide, by decide, ?_⟩
  intro rangeOrder hvalid
  exact (FromIACScanReport_error_iff rangeOrder hvalid lowerCaseHigh).2 (by decide)

/-! ## The text of an error -/

/-- C29: the text of the error of a rejected operator.  For
"critical:1,operator:xor" the parser returns the error of the invalid
operator with the operator set so far, which is empty, in place of the
rejected value: the text is "invalid operator: " and holds neither XOR nor
xor, where it is to mention the value; so it is for every rejected value. -/
theorem ParseFailureExpression_operator_message :
    ParseFailureExpression "critical:1,operator:xor".toList
      = parseFail (Error.invalidOperator [])
    ∧ (∀ numErrorText, Error.message numErrorText (Error.invalidOperator [])
        = "invalid operator: ".toList)
    ∧ containsText "invalid operator: ".toList "XOR".toList = false
    ∧ containsText "invalid operator: ".toList "xor".toList = false
    ∧ ∀ v : Str, ¬ (v = "AND".toList ∨ v = "OR".toList) →
        (validateOperator [] v).2 = some (Error.invalidOperator []) := by
  refine ⟨by decide, fun _ => rfl, by decide, by decide, ?_⟩
  intro v hv
  unfold validateOperator
  simp only [ne_eq, not_true_eq_false, if_false, hv]

/-! ## Lemmas on the verdict -/

/-- The verdict on a valid report: the operator applied to the flags of the
threshold entries. -/
theorem evaluate_valid (iacReport : IACReportTemplate) (thresholds : GoMap Int)
    (operator : Str) (hvalid : ∀ v ∈ violationsOf iacReport, validSeverity v)
    (hwf : thresholds.WF) (hupper : ∀ k ∈ thresholds.keys, isUpperCase k) :
    EvaluateIACScanReport iacReport thresholds operator
      = isBreachingThreshold operator
          (GoMap.mk (thresholds.entries.map
            (fun e => (e.1, reached (violationsOf iacReport) e)))) := by
  obtain ⟨es, hes, _, hlook⟩ := fetch_valid iacReport hvalid
  have hidx : ∀ k, (GoMap.mk es).index k = (countSeverity (violationsOf iacReport) k : Int) :=
    fun k => index_of_lookup es k _ (hlook k)
  have hflag : ∀ e : Str × Int,
      breachFlag (GoMap.mk es) e.1 e.2 = reached (violationsOf iacReport) e := by
    intro e
    rw [Bool.eq_iff_iff, breachFlag_iff, hidx]
    unfold reached
    rw [decide_eq_true_iff]
    constructor
    · rintro ⟨h1, h2⟩
      exact ⟨by omega, h2⟩
    · rintro ⟨h1, h2⟩
      exact ⟨by omega, h2⟩
  unfold EvaluateIACScanReport
  rw [hes]
  simp only
  rw [computeViolationState_eq _ _ hwf hupper]
  have hmap : thresholds.entries.map (fun e => (e.1, breachFlag (GoMap.mk es) e.1 e.2))
      = thresholds.entries.map (fun e => (e.1, reached (violationsOf iacReport) e)) := by
    apply List.map_congr_left
    intro e _
    rw [hflag e]
  rw [hmap]

theorem breaching_OR_flags (es : List (Str × Int)) (f : Str × Int → Bool) :
    (isBreachingThreshold "OR".toList (GoMap.mk (es.map (fun e => (e.1, f e))))).1 = true
      ↔ ∃ e ∈ es, f e = true := by
  have hne : ¬ "OR".toList = "AND".toList := by decide
  simp only [isBreachingThreshold, hne, if_false, if_true, any_iff, GoMap.entries]
  constructor
  · rintro ⟨e', he', hb⟩
    obtain ⟨e, he, rfl⟩ := List.mem_map.1 he'
    exact ⟨e, he, hb⟩
  · rintro ⟨e, he, hb⟩
    exact ⟨_, List.mem_map_of_mem _ he, hb⟩

theorem breaching_AND_flags (es : List (Str × Int)) (f : Str × Int → Bool) :
    (isBreachingThreshold "AND".toList (GoMap.mk (es.map (fun e => (e.1, f e))))).1 = true
      ↔ es ≠ [] ∧ ∀ e ∈ es, f e = true := by
  simp only [isBreachingThreshold, if_true, all_iff, GoMap.entries]
  constructor
  · rintro ⟨hnil, hall⟩
    refine ⟨fun h0 => hnil (by rw [h0]; rfl), ?_⟩
    intro e he
    exact hall _ (List.mem_map_of_mem _ he)
  · rintro ⟨hnil, hall⟩
    refine ⟨fun h0 => hnil (List.map_eq_nil_iff.1 h0), ?_⟩
    intro e' he'
    obtain ⟨e, he, rfl⟩ := List.mem_map.1 he'
    exact hall e he

/-- A verdict of true comes from a report of valid severities only. -/
theorem valid_of_verdict_true (iacReport : IACReportTemplate) (thresholds : GoMap Int)
    (operator : Str) (h : (EvaluateIACScanReport iacReport thresholds operator).1 = true) :
    ∀ v ∈ violationsOf iacReport, validSeverity v := by
  by_contra hbad
  have hex : ∃ v ∈ violationsOf iacReport, ¬ validSeverity v := by
    by_contra hno
    apply hbad
    intro v hv
    by_contra hv'
    exact hno ⟨v, hv, hv'⟩
  obtain ⟨s, _, heq⟩ := fetchLoop_invalid (violationsOf iacReport) [] hex
  have heq' : fetchViolationFromIACReport iacReport
      = (GoMap.nil, some (Error.invalidSeverityExpression s)) := heq
  have hev : EvaluateIACScanReport iacReport thresholds operator
      = (false, some (Error.fetchViolation (Error.invalidSeverityExpression s))) := by
    unfold EvaluateIACScanReport
    rw [heq']
  rw [hev] at h
  exact Bool.noConfusion h

theorem computeLoop_raiseZero (counts : GoMap Int) (hnonneg : ∀ k, 0 ≤ counts.index k)
    (es : List (Str × Int)) :
    ∀ acc, computeLoop counts (es.map (fun e => (e.1, if e.2 = 0 then 1 else e.2))) acc
      = computeLoop counts es acc := by
  induction es with
  | nil => intro acc; rfl
  | cons e rest ih =>
    obtain ⟨k, t⟩ := e
    intro acc
    have h0 := hnonneg (ToUpper k)
    by_cases hz : counts.index (ToUpper k) = 0
    · simp only [List.map_cons, computeLoop, hz, if_true, ih]
    · have hd : decide (counts.index (ToUpper k) ≥ (if t = 0 then 1 else t))
          = decide (counts.index (ToUpper k) ≥ t) := by
        by_cases ht : t = 0
        · rw [if_pos ht, ht]
          have h1 : counts.index (ToUpper k) ≥ 1 := by omega
          have h2 : counts.index (ToUpper k) ≥ 0 := h0
          simp only [h1, h2]
        · rw [if_neg ht]
      simp only [List.map_cons, computeLoop, hz, if_false, hd, ih]

theorem raiseZero_entries (thresholds : GoMap Int) :
    (raiseZero thresholds).entries
      = thresholds.entries.map (fun e => (e.1, if e.2 = 0 then 1 else e.2)) := by
  cases thresholds <;> rfl

theorem breachFlag_eq_flagSpec (counts : GoMap Int) (k : Str) (t : Int)
    (h : 0 ≤ counts.index k) : breachFlag counts k t = flagSpec (counts.index k) t := by
  rw [Bool.eq_iff_iff, breachFlag_iff]
  unfold flagSpec
  rw [decide_eq_true_iff]
  constructor
  · rintro ⟨h1, h2⟩
    omega
  · intro h1
    constructor <;> omega

theorem evaluate_raiseZero (iacReport : IACReportTemplate) (thresholds : GoMap Int)
    (operator : Str) :
    EvaluateIACScanReport iacReport (raiseZero thresholds) operator
      = EvaluateIACScanReport iacReport thresholds operator := by
  by_cases hbad : ∃ v ∈ violationsOf iacReport, ¬ validSeverity v
  · obtain ⟨s, _, heq⟩ := fetchLoop_invalid (violationsOf iacReport) [] hbad
    have heq' : fetchViolationFromIACReport iacReport
        = (GoMap.nil, some (Error.invalidSeverityExpression s)) := heq
    unfold EvaluateIACScanReport
    rw [heq']
  · have hvalid : ∀ v ∈ violationsOf iacReport, validSeverity v := by
      intro v hv
      by_contra h0
      exact hbad ⟨v, hv, h0⟩
    obtain ⟨es, hes, _, hlook⟩ := fetch_valid iacReport hvalid
    have hnonneg : ∀ k, 0 ≤ (GoMap.mk es).index k := by
      intro k
      rw [index_of_lookup es k _ (hlook k)]
      exact Int.natCast_nonneg _
    unfold EvaluateIACScanReport
    rw [hes]
    simp only
    unfold computeViolationState
    rw [raiseZero_entries, computeLoop_raiseZero _ hnonneg]

theorem threeCritical_nonneg : ∀ k, 0 ≤ threeCritical.index k := by
  intro k
  unfold threeCritical GoMap.index
  rw [lookup_mk_cons]
  by_cases h1 : "CRITICAL".toList = k
  · rw [if_pos h1]; decide
  · rw [if_neg h1, lookup_mk_cons]
    by_cases h2 : "HIGH".toList = k
    · rw [if_pos h2]; decide
    · rw [if_neg h2]
      exact le_refl _

/-! ## The zero-count override, growth and the default policy -/

/-- C31: the zero-count override makes the thresholds 0 and 1 the same: for
counts that are not negative the flag computeViolationState gives to a
threshold t on a count c is (c >= max(t, 1)); for t >= 1 it is (c >= t); and
the verdict stays the same when every threshold 0 is replaced by 1. -/
theorem computeViolationState_override (severityCounts thresholds : GoMap Int)
    (hwf : thresholds.WF) (hupper : ∀ k ∈ thresholds.keys, isUpperCase k)
    (hnonneg : ∀ k, 0 ≤ severityCounts.index k) :
    (∀ k t, (k, t) ∈ thresholds.entries →
        (computeViolationState severityCounts thresholds).lookup k
          = some (flagSpec (severityCounts.index k) t))
    ∧ (∀ k t, (k, t) ∈ thresholds.entries → 1 ≤ t →
        (computeViolationState severityCounts thresholds).lookup k
          = some (decide (severityCounts.index k ≥ t)))
    ∧ ∀ (iacReport : IACReportTemplate) (operator : Str),
        EvaluateIACScanReport iacReport (raiseZero thresholds) operator
          = EvaluateIACScanReport iacReport thresholds operator := by
  have hkeys : (thresholds.entries.map
      (fun e => (e.1, breachFlag severityCounts e.1 e.2))).map Prod.fst
        = thresholds.entries.map Prod.fst := by
    rw [List.map_map]; rfl
  have hlook : ∀ k t, (k, t) ∈ thresholds.entries →
      (computeViolationState severityCounts thresholds).lookup k
        = some (flagSpec (severityCounts.index k) t) := by
    intro k t hkt
    rw [computeViolationState_eq _ _ hwf hupper]
    have hl := lookup_of_mem
      (thresholds.entries.map (fun e => (e.1, breachFlag severityCounts e.1 e.2)))
      (by rw [hkeys]; exact hwf) k (breachFlag severityCounts k t)
      (List.mem_map.2 ⟨(k, t), hkt, rfl⟩)
    rw [hl, breachFlag_eq_flagSpec _ _ _ (hnonneg k)]
  refine ⟨hlook, ?_, fun iacReport operator => evaluate_raiseZero iacReport thresholds operator⟩
  intro k t hkt ht
  rw [hlook k t hkt]
  unfold flagSpec
  have hmax : max t 1 = t := by omega
  rw [hmax]

/-- Witness of C31: the count 3 against the threshold 0 and the count 0
against the threshold 0. -/
theorem computeViolationState_override_witness :
    zeroThresholds.WF
    ∧ (∀ k, 0 ≤ threeCritical.index k)
    ∧ computeViolationState threeCritical zeroThresholds
      = GoMap.mk [("CRITICAL".toList, true), ("HIGH".toList, false), ("LOW".toList, false)]
    ∧ computeViolationState threeCritical (raiseZero zeroThresholds)
      = computeViolationState threeCritical zeroThresholds
    ∧ (computeViolationState threeCritical zeroThresholds).lookup "CRITICAL".toList
      = some (flagSpec (threeCritical.index "CRITICAL".toList) 0) :=
  ⟨by decide, threeCritical_nonneg, by decide, by decide,
    (computeViolationState_override threeCritical zeroThresholds (by decide) (by decide)
      threeCritical_nonneg).1 "CRITICAL".toList 0 (by decide)⟩

/-- C32: the verdict grows with the findings: with a threshold map of
distinct upper-case keys and the operator AND or OR, when the verdict on a
report is true it is true on the report with further violations of valid
severities appended. -/
theorem EvaluateIACScanReport_monotone (iacReport iacReport' : IACReportTemplate)
    (extra : List Violation) (thresholds : GoMap Int) (operator : Str)
    (hwf : thresholds.WF) (hupper : ∀ k ∈ thresholds.keys, isUpperCase k)
    (hop : operator = "AND".toList ∨ operator = "OR".toList)
    (happend : violationsOf iacReport' = violationsOf iacReport ++ extra)
    (hextra : ∀ v ∈ extra, validSeverity v)
    (htrue : (EvaluateIACScanReport iacReport thresholds operator).1 = true) :
    (EvaluateIACScanReport iacReport' thresholds operator).1 = true := by
  have hvalid := valid_of_verdict_true iacReport thresholds operator htrue
  have hvalid' : ∀ v ∈ violationsOf iacReport', validSeverity v := by
    intro v hv
    rw [happend] at hv
    rcases List.mem_append.1 hv with h | h
    · exact hvalid v h
    · exact hextra v h
  have hmono : ∀ e : Str × Int, reached (violationsOf iacReport) e = true →
      reached (violationsOf iacReport') e = true := by
    intro e he
    unfold reached at he ⊢
    rw [decide_eq_true_iff] at he ⊢
    have hcount : countSeverity (violationsOf iacReport') e.1
        = countSeverity (violationsOf iacReport) e.1 + countSeverity extra e.1 := by
      unfold countSeverity
      rw [happend, List.countP_append]
    rw [hcount]
    push_cast
    constructor <;> omega
  rw [evaluate_valid iacReport thresholds operator hvalid hwf hupper] at htrue
  rw [evaluate_valid iacReport' thresholds operator hvalid' hwf hupper]
  rcases hop with h | h
  · subst h
    rw [breaching_AND_flags] at htrue ⊢
    exact ⟨htrue.1, fun e he => hmono e (htrue.2 e he)⟩
  · subst h
    rw [breaching_OR_flags] at htrue ⊢
    obtain ⟨e, he, hb⟩ := htrue
    exact ⟨e, he, hmono e hb⟩

/-- Witness of C32: two critical findings breach CRITICAL:2 under OR, and
still do with a high finding appended. -/
theorem EvaluateIACScanReport_monotone_witness :
    EvaluateIACScanReport twoCritical (GoMap.mk [("CRITICAL".toList, 2)]) "OR".toList
      = (true, none)
    ∧ violationsOf twoCriticalPlusHigh
      = violationsOf twoCritical ++ [{ Severity := "High".toList }]
    ∧ (EvaluateIACScanReport twoCriticalPlusHigh (GoMap.mk [("CRITICAL".toList, 2)])
        "OR".toList).1 = true :=
  ⟨by decide, by decide,
    EvaluateIACScanReport_monotone twoCritical twoCriticalPlusHigh
      [{ Severity := "High".toList }] (GoMap.mk [("CRITICAL".toList, 2)]) "OR".toList
      (by decide) (by decide) (by decide) (by decide) (by decide) (by decide)⟩

/-- C33: under the default policy the verdict is any finding at all: on a
report of valid severities, EvaluateIACScanReport with the operator and the
thresholds that ParseFailureExpression returns for the empty expression gives
no error, and true exactly when the report has a violation. -/
theorem EvaluateIACScanReport_default_policy (iacReport : IACReportTemplate)
    (op : Str) (m : GoMap Int)
    (hvalid : ∀ v ∈ violationsOf iacReport, validSeverity v)
    (hparse : ParseFailureExpression "".toList = Outcome.returns (op, m, none)) :
    (EvaluateIACScanReport iacReport m op).2 = none
    ∧ ((EvaluateIACScanReport iacReport m op).1 = true ↔ violationsOf iacReport ≠ []) := by
  have hd : ParseFailureExpression "".toList = Outcome.returns ("OR".toList,
      GoMap.mk [("CRITICAL".toList, 1), ("HIGH".toList, 1), ("MEDIUM".toList, 1),
        ("LOW".toList, 1)], none) := by decide
  rw [hd] at hparse
  injection hparse with hparse
  injection hparse with h1 hparse
  injection hparse with h2 _
  subst h1 h2
  rw [evaluate_valid iacReport _ _ hvalid (by decide) (by decide)]
  refine ⟨by simp [isBreachingThreshold], ?_⟩
  show (isBreachingThreshold "OR".toList (GoMap.mk
      (([("CRITICAL".toList, (1 : Int)), ("HIGH".toList, 1), ("MEDIUM".toList, 1),
        ("LOW".toList, 1)]).map (fun e => (e.1, reached (violationsOf iacReport) e))))).1
      = true ↔ _
  rw [breaching_OR_flags]
  constructor
  · rintro ⟨e, _, he⟩ hnil
    unfold reached at he
    rw [decide_eq_true_iff, hnil] at he
    have : countSeverity [] e.1 = 0 := rfl
    rw [this] at he
    omega
  · intro hne
    obtain ⟨v, rest, hvs⟩ := List.exists_cons_of_ne_nil hne
    have hv : validSeverity v := hvalid v (by rw [hvs]; exact List.mem_cons_self _ _)
    have hcount : countSeverity (violationsOf iacReport) (ToUpper v.Severity) ≠ 0 :=
      (countSeverity_pos_iff _ _).2 ⟨v, by rw [hvs]; exact List.mem_cons_self _ _, rfl⟩
    have hreach : reached (violationsOf iacReport) (ToUpper v.Severity, 1) = true := by
      unfold reached
      rw [decide_eq_true_iff]
      have h1 : (countSeverity (violationsOf iacReport) (ToUpper v.Severity) : Int) ≥ 1 := by
        omega
      exact ⟨h1, h1⟩
    refine ⟨(ToUpper v.Severity, 1), ?_, hreach⟩
    rcases (isSeverityName_iff _).1 hv with h | h | h | h <;> rw [h] <;> decide

/-- Witness of C33: one low finding breaches the default policy. -/
theorem EvaluateIACScanReport_default_policy_witness :
    (∀ v ∈ violationsOf oneLow, validSeverity v)
    ∧ EvaluateIACScanReport oneLow
        (GoMap.mk [("CRITICAL".toList, 1), ("HIGH".toList, 1), ("MEDIUM".toList, 1),
          ("LOW".toList, 1)]) "OR".toList = (true, none)
    ∧ (EvaluateIACScanReport oneLow
        (GoMap.mk [("CRITICAL".toList, 1), ("HIGH".toList, 1), ("MEDIUM".toList, 1),
          ("LOW".toList, 1)]) "OR".toList).2 = none :=
  ⟨by decide, by decide,
    (EvaluateIACScanReport_default_policy oneLow "OR".toList
      (GoMap.mk [("CRITICAL".toList, 1), ("HIGH".toList, 1), ("MEDIUM".toList, 1),
        ("LOW".toList, 1)]) (by decide) (by decide)).1⟩

/-! ## Referential integrity -/

theorem filter_ID_of_not_mem (rules : List Rule) (policyID : Str)
    (h : policyID ∉ rules.map (fun rule => rule.ID)) :
    rules.filter (fun rule => decide (rule.ID = policyID)) = [] := by
  induction rules with
  | nil => rfl
  | cons r rest ih =>
    simp only [List.map_cons, List.mem_cons, not_or] at h
    have hne : ¬ r.ID = policyID := fun h0 => h.1 h0.symm
    rw [List.filter_cons_of_neg (by simpa using hne)]
    exact ih h.2

/-- In a catalog without two rules of the same ID, an ID that occurs is the
ID of one rule exactly. -/
theorem filter_ID_unique (rules : List Rule) (policyID : Str)
    (hnd : (rules.map (fun rule => rule.ID)).Nodup)
    (hmem : policyID ∈ rules.map (fun rule => rule.ID)) :
    (rules.filter (fun rule => decide (rule.ID = policyID))).length = 1 := by
  induction rules with
  | nil => simp at hmem
  | cons r rest ih =>
    simp only [List.map_cons, List.nodup_cons] at hnd
    by_cases hr : r.ID = policyID
    · rw [List.filter_cons_of_pos (by simpa using hr),
        filter_ID_of_not_mem rest policyID (by rw [← hr]; exact hnd.1)]
      rfl
    · rw [List.filter_cons_of_neg (by simpa using hr)]
      apply ih hnd.2
      simp only [List.map_cons, List.mem_cons] at hmem
      rcases hmem with h | h
      · exact absurd h.symm hr
      · exact h

/-- C35: whenever FromIACScanReport succeeds, in its one run the rule id of
every result is the ID of exactly one rule of the catalog, and the ID of
every rule is the rule id of some result, in whatever order the map is
visited. -/
theorem FromIACScanReport_referential (rangeOrder : RangeOrder)
    (report : IACValidationReport) (horder : rangeOrder.valid)
    (hsucc : (FromIACScanReport rangeOrder report).2 = none) :
    ∃ run, (FromIACScanReport rangeOrder report).1.Runs = [run]
      ∧ (∀ r ∈ run.Results,
          (run.Tool.Driver.Rules.filter
            (fun rule => decide (rule.ID = r.RuleID))).length = 1)
      ∧ ∀ rule ∈ run.Tool.Driver.Rules, ∃ r ∈ run.Results, r.RuleID = rule.ID := by
  rcases FromIACScanReport_cases rangeOrder report with ⟨s, _, _, heq⟩ | ⟨_, _, heq⟩
  · rw [heq] at hsucc
    exact Option.noConfusion hsucc
  · rw [heq]
    refine ⟨_, rfl, ?_, ?_⟩
    · intro r hr
      have hr' : r ∈ report.Violations.map resultOf := by
        rw [← constructResults_eq]; exact hr
      obtain ⟨v, hv, rfl⟩ := List.mem_map.1 hr'
      have hids : ((rangeOrder (getUniqueViolations report.Violations).entries).map
            (fun e => ruleOf e.1 e.2)).map (fun rule => rule.ID)
          = (rangeOrder (getUniqueViolations report.Violations).entries).map Prod.fst := by
        rw [List.map_map]
        rfl
      have hperm := (horder (getUniqueViolations report.Violations).entries).map Prod.fst
      apply filter_ID_unique
      · rw [hids]
        exact hperm.nodup_iff.2 (getUniqueViolations_nodup report.Violations)
      · rw [hids, hperm.mem_iff]
        exact (getUniqueViolations_keys report.Violations _).2 ⟨v, hv, rfl⟩
    · intro rule hrule
      obtain ⟨e, he, rfl⟩ := List.mem_map.1 hrule
      have he' := (mem_rangeOrder rangeOrder horder _ e).1 he
      obtain ⟨hmem, hid⟩ := firstWith_some _ _ _
        (getUniqueViolations_entry report.Violations e he')
      refine ⟨resultOf e.2, ?_, hid⟩
      show resultOf e.2 ∈ constructResults report.Violations
      rw [constructResults_eq]
      exact List.mem_map_of_mem _ hmem

/-- Witness of C35: three violations, the first and the last of policy P1. -/
theorem FromIACScanReport_referential_witness :
    RangeOrder.valid id
    ∧ (FromIACScanReport id sharedPolicy).2 = none
    ∧ (resultsOf (FromIACScanReport id sharedPolicy).1).map (fun r => r.RuleID)
      = ["P1".toList, "P2".toList, "P1".toList]
    ∧ (rulesOf (FromIACScanReport id sharedPolicy).1).map (fun rule => rule.ID)
      = ["P1".toList, "P2".toList]
    ∧ ∃ run, (FromIACScanReport id sharedPolicy).1.Runs = [run]
      ∧ (∀ r ∈ run.Results,
          (run.Tool.Driver.Rules.filter
            (fun rule => decide (rule.ID = r.RuleID))).length = 1)
      ∧ ∀ rule ∈ run.Tool.Driver.Rules, ∃ r ∈ run.Results, r.RuleID = rule.ID :=
  ⟨fun es => List.Perm.refl es, by decide, by decide, by decide,
    FromIACScanReport_referential id sharedPolicy (fun es => List.Perm.refl es) (by decide)⟩

/-! ## Lemmas on the end of the loop -/

/-- The parser is its loop followed by the two checks. -/
theorem parseLoop_eq_afterLoop (pairs : List Str) :
    ∀ (operator : Str) (acc : List (Str × Int)),
      parseLoop pairs operator acc = afterLoop (runLoop pairs operator acc) := by
  induction pairs with
  | nil => intro operator acc; rfl
  | cons pair rest ih =>
    intro operator acc
    simp only [parseLoop, runLoop]
    cases hparts : Split pair ':' with
    | nil => rfl
    | cons part0 parts =>
      simp only
      by_cases hkey : ToUpper part0 = "OPERATOR".toList
      · simp only [hkey, if_true]
        cases parts with
        | nil => rfl
        | cons part1 more =>
          simp only
          cases hval : validateOperator operator (ToUpper part1) with
          | mk op err =>
            cases err with
            | some e => rfl
            | none => exact ih op acc
      · simp only [hkey, if_false]
        by_cases hdup : ((GoMap.mk acc).lookup (ToUpper part0)).isSome = true
        · simp only [hdup, if_true]
          rfl
        · simp only [hdup, if_false]
          cases parts with
          | nil => rfl
          | cons part1 more =>
            simp only
            cases hat : Atoi part1 with
            | error e => rfl
            | ok n =>
              simp only
              cases hsev : validateSeverity (ToUpper part0) n with
              | some err => rfl
              | none => exact ih operator _

/-- One turn of the loop alone: it is left, or goes on with the operator set,
or goes on with a threshold added. -/
theorem runLoop_step (pair : Str) (rest : List Str) (operator : Str)
    (acc : List (Str × Int)) :
    (∃ result, runLoop (pair :: rest) operator acc = LoopEnd.leaves result)
    ∨ (∃ p0 p1 more, Split pair ':' = p0 :: p1 :: more
        ∧ ToUpper p0 = "OPERATOR".toList ∧ operator = []
        ∧ (ToUpper p1 = "AND".toList ∨ ToUpper p1 = "OR".toList)
        ∧ runLoop (pair :: rest) operator acc = runLoop rest (ToUpper p1) acc)
    ∨ (∃ p0 p1 more n, Split pair ':' = p0 :: p1 :: more
        ∧ ToUpper p0 ≠ "OPERATOR".toList
        ∧ (GoMap.mk acc).lookup (ToUpper p0) = none
        ∧ runLoop (pair :: rest) operator acc
            = runLoop rest operator (setEntry acc (ToUpper p0) n)) := by
  cases hparts : Split pair ':' with
  | nil => exact Or.inl ⟨Outcome.panics, by simp only [runLoop, hparts]⟩
  | cons p0 parts =>
    by_cases hkey : ToUpper p0 = "OPERATOR".toList
    · cases parts with
      | nil => exact Or.inl ⟨Outcome.panics, by simp only [runLoop, hparts, hkey, if_true]⟩
      | cons p1 more =>
        by_cases hop : operator = []
        · by_cases hval : ToUpper p1 = "AND".toList ∨ ToUpper p1 = "OR".toList
          · refine Or.inr (Or.inl ⟨p0, p1, more, rfl, hkey, hop, hval, ?_⟩)
            simp only [runLoop, hparts, hkey, if_true, validateOperator, hop, ne_eq,
              not_true_eq_false, if_false, hval]
          · refine Or.inl ⟨parseFail (Error.invalidOperator []), ?_⟩
            simp only [runLoop, hparts, hkey, if_true, validateOperator, hop, ne_eq,
              not_true_eq_false, if_false, hval]
        · refine Or.inl ⟨parseFail (Error.moreThanOneOperator operator), ?_⟩
          simp only [runLoop, hparts, hkey, if_true, validateOperator, ne_eq, hop,
            not_false_eq_true]
    · by_cases hdup : ((GoMap.mk acc).lookup (ToUpper p0)).isSome = true
      · refine Or.inl ⟨parseFail (Error.duplicateSeverity (ToUpper p0)), ?_⟩
        simp only [runLoop, hparts, hkey, if_false, hdup, if_true]
      · have hnone : (GoMap.mk acc).lookup (ToUpper p0) = none := by
          cases h : (GoMap.mk acc).lookup (ToUpper p0) with
          | none => rfl
          | some x => rw [h] at hdup; exact absurd rfl hdup
        cases parts with
        | nil =>
          exact Or.inl ⟨Outcome.panics, by
            simp only [runLoop, hparts, hkey, if_false, hdup, Bool.false_eq_true]⟩
        | cons p1 more =>
          cases hat : Atoi p1 with
          | error e =>
            refine Or.inl ⟨parseFail (Error.convertingValue e), ?_⟩
            simp only [runLoop, hparts, hkey, if_false, hdup, hat, Bool.false_eq_true]
          | ok n =>
            cases hsev : validateSeverity (ToUpper p0) n with
            | some err =>
              refine Or.inl ⟨parseFail err, ?_⟩
              simp only [runLoop, hparts, hkey, if_false, hdup, hat, hsev,
                Bool.false_eq_true]
            | none =>
              refine Or.inr (Or.inr ⟨p0, p1, more, n, rfl, hkey, hnone, ?_⟩)
              simp only [runLoop, hparts, hkey, if_false, hdup, hat, hsev,
                Bool.false_eq_true]

/-- What a completed loop leaves: the keys met are added to the map, and the
operator is empty exactly when it was empty and no operator pair was met. -/
theorem runLoop_completes (pairs : List Str) :
    ∀ (operator : Str) (acc : List (Str × Int)) (op : Str) (final : List (Str × Int)),
      runLoop pairs operator acc = LoopEnd.completes op final →
      final.map Prod.fst = acc.map Prod.fst ++ severityKeysOf pairs
        ∧ (op = [] ↔ operator = [] ∧ operatorPairsOf pairs = []) := by
  induction pairs with
  | nil =>
    intro operator acc op final h
    simp only [runLoop] at h
    injection h with h1 h2
    subst h1 h2
    exact ⟨by simp [severityKeysOf], by simp [operatorPairsOf]⟩
  | cons pair rest ih =>
    intro operator acc op final h
    rcases runLoop_step pair rest operator acc with
      ⟨result, hl⟩ | ⟨p0, p1, more, hsplit, hkey, hop, hval, hstep⟩
        | ⟨p0, p1, more, n, hsplit, hkey, hnone, hstep⟩
    · rw [hl] at h
      exact LoopEnd.noConfusion h
    · rw [hstep] at h
      obtain ⟨h1, h2⟩ := ih _ _ _ _ h
      have hk : keyOf pair = "OPERATOR".toList := by
        rw [keyOf_of_split _ _ _ hsplit]; exact hkey
      have hne : ToUpper p1 ≠ [] := by
        rcases hval with hv | hv <;> rw [hv] <;> decide
      rw [severityKeysOf_cons, if_pos hk, operatorPairsOf_cons, if_pos hk]
      refine ⟨h1, ?_⟩
      constructor
      · intro h0
        exact absurd (h2.1 h0).1 hne
      · rintro ⟨_, h0⟩
        exact List.noConfusion h0
    · rw [hstep] at h
      obtain ⟨h1, h2⟩ := ih _ _ _ _ h
      have hk : keyOf pair = ToUpper p0 := keyOf_of_split _ _ _ hsplit
      have hk' : ¬ keyOf pair = "OPERATOR".toList := by rw [hk]; exact hkey
      have hnot : ToUpper p0 ∉ acc.map Prod.fst := (lookup_eq_none_iff acc _).1 hnone
      rw [setEntry_of_not_mem acc _ _ hnot] at h1
      rw [severityKeysOf_cons, if_neg hk', operatorPairsOf_cons, if_neg hk', hk]
      refine ⟨?_, h2⟩
      rw [h1]
      simp only [List.map_append, List.map_cons, List.map_nil, List.append_assoc,
        List.singleton_append]

theorem parseFail_injective (a b : Error) (h : parseFail a = parseFail b) : a = b := by
  unfold parseFail at h
  injection h with h
  injection h with _ h
  injection h with _ h
  exact Option.some.inj h

/-- The two checks after the loop, by cases. -/
theorem parseLoop_nil_eq (operator : Str) (final : List (Str × Int)) :
    (final = [] → parseLoop [] operator final = parseFail Error.noViolationParameter)
    ∧ (final ≠ [] → operator = [] → parseLoop [] operator final = parseFail Error.noOperator)
    ∧ (final ≠ [] → operator ≠ [] →
        parseLoop [] operator final = Outcome.returns (operator, GoMap.mk final, none)) := by
  refine ⟨?_, ?_, ?_⟩
  · intro h
    subst h
    rfl
  · intro h hop
    have hlen : ¬ final.length = 0 := fun h0 => h (List.length_eq_zero.1 h0)
    simp only [parseLoop, hlen, if_false, hop, if_true]
  · intro h hop
    have hlen : ¬ final.length = 0 := fun h0 => h (List.length_eq_zero.1 h0)
    simp only [parseLoop, hlen, if_false, hop]

/-! ## The end of the loop -/

/-- C34: the two failures after the loop never hold together.  On a non-empty
expression whose pairs the loop all processes without leaving, the operator
is set or the map is not empty at the end of the loop; the error of the
missing violation parameter is returned exactly when no severity pair was
given, and the error of the missing operator exactly when no operator pair
was given. -/
theorem ParseFailureExpression_after_loop (expression op : Str)
    (final : List (Str × Int)) (hne : expression ≠ [])
    (hrun : runLoop (Split expression ',') [] [] = LoopEnd.completes op final) :
    (op ≠ [] ∨ final ≠ [])
    ∧ (ParseFailureExpression expression = parseFail Error.noViolationParameter
        ↔ final = [])
    ∧ (ParseFailureExpression expression = parseFail Error.noOperator
        ↔ final ≠ [] ∧ op = [])
    ∧ (ParseFailureExpression expression = parseFail Error.noViolationParameter
        ↔ severityKeysOf (Split expression ',') = [])
    ∧ (ParseFailureExpression expression = parseFail Error.noOperator
        ↔ operatorPairsOf (Split expression ',') = []) := by
  obtain ⟨hkeys, hop⟩ := runLoop_completes _ _ _ _ _ hrun
  have hkeys' : final.map Prod.fst = severityKeysOf (Split expression ',') := by
    rw [hkeys]; rfl
  have hop' : op = [] ↔ operatorPairsOf (Split expression ',') = [] := by
    rw [hop]
    exact ⟨fun h => h.2, fun h => ⟨rfl, h⟩⟩
  have hfinal : final = [] ↔ severityKeysOf (Split expression ',') = [] := by
    rw [← hkeys']
    exact List.map_eq_nil_iff.symm
  have hone : op ≠ [] ∨ final ≠ [] := by
    obtain ⟨p, ps, hps⟩ := List.exists_cons_of_ne_nil (Split_ne_nil expression ',')
    by_cases hk : keyOf p = "OPERATOR".toList
    · left
      intro h0
      have := hop'.1 h0
      rw [hps, operatorPairsOf_cons, if_pos hk] at this
      exact List.noConfusion this
    · right
      intro h0
      have := hfinal.1 h0
      rw [hps, severityKeysOf_cons, if_neg hk] at this
      exact List.noConfusion this
  have hparse : ParseFailureExpression expression = parseLoop [] op final := by
    rw [parse_nonempty _ hne, parseLoop_eq_afterLoop, hrun]
    rfl
  obtain ⟨hA, hB, hC⟩ := parseLoop_nil_eq op final
  have hviol : ParseFailureExpression expression = parseFail Error.noViolationParameter
      ↔ final = [] := by
    rw [hparse]
    constructor
    · intro h
      by_contra hfin
      by_cases hopn : op = []
      · rw [hB hfin hopn] at h
        exact Error.noConfusion (parseFail_injective _ _ h)
      · rw [hC hfin hopn] at h
        exact parseFail_ne_success _ _ _ h.symm
    · exact hA
  have hoper : ParseFailureExpression expression = parseFail Error.noOperator
      ↔ final ≠ [] ∧ op = [] := by
    rw [hparse]
    constructor
    · intro h
      by_cases hfin : final = []
      · rw [hA hfin] at h
        exact Error.noConfusion (parseFail_injective _ _ h)
      · by_cases hopn : op = []
        · exact ⟨hfin, hopn⟩
        · rw [hC hfin hopn] at h
          exact absurd h.symm (parseFail_ne_success _ _ _)
    · rintro ⟨hfin, hopn⟩
      exact hB hfin hopn
  refine ⟨hone, hviol, hoper, hviol.trans hfinal, ?_⟩
  rw [hoper, ← hop']
  constructor
  · exact fun h => h.2
  · intro h
    refine ⟨?_, h⟩
    rcases hone with h1 | h1
    · exact absurd h h1
    · exact h1

/-- Witness of C34: the loop completes on "operator:or" with the operator
set and the map empty. -/
theorem ParseFailureExpression_after_loop_witness :
    "operator:or".toList ≠ []
    ∧ runLoop (Split "operator:or".toList ',') [] [] = LoopEnd.completes "OR".toList []
    ∧ runLoop (Split "critical:2,high:1".toList ',') [] []
      = LoopEnd.completes [] [("CRITICAL".toList, 2), ("HIGH".toList, 1)]
    ∧ ParseFailureExpression "operator:or".toList = parseFail Error.noViolationParameter
    ∧ ParseFailureExpression "critical:2,high:1".toList = parseFail Error.noOperator
    ∧ ("OR".toList ≠ [] ∨ ([] : List (Str × Int)) ≠ []) :=
  ⟨by decide, by decide, by decide, by decide, by decide,
    (ParseFailureExpression_after_loop "operator:or".toList "OR".toList []
      (by decide) (by decide)).1⟩

/-! ## Lemmas on the fields of a pair -/

theorem Split_take_one (cs s : Str) :
    (Split (cs ++ ':' :: s) ':').take 1 = (Split cs ':').take 1 := by
  induction cs with
  | nil => simp only [List.nil_append, Split, if_true, List.take_succ_cons, List.take_zero]
  | cons c rest ih =>
    show (Split (c :: (rest ++ ':' :: s)) ':').take 1 = (Split (c :: rest) ':').take 1
    by_cases hc : c = ':'
    · rw [Split, if_pos hc, Split, if_pos hc]
      rfl
    · rw [Split, if_neg hc, Split, if_neg hc]
      obtain ⟨h1, t1, e1⟩ := List.exists_cons_of_ne_nil (Split_ne_nil (rest ++ ':' :: s) ':')
      obtain ⟨h2, t2, e2⟩ := List.exists_cons_of_ne_nil (Split_ne_nil rest ':')
      rw [e1, e2] at ih ⊢
      simp only [List.take_succ_cons, List.take_zero, List.cons.injEq, and_true] at ih ⊢
      exact ⟨trivial, ih⟩

theorem Split_take_two (x s : Str) (h : ':' ∈ x) :
    (Split (x ++ ':' :: s) ':').take 2 = (Split x ':').take 2 := by
  induction x with
  | nil => simp at h
  | cons c rest ih =>
    show (Split (c :: (rest ++ ':' :: s)) ':').take 2 = (Split (c :: rest) ':').take 2
    by_cases hc : c = ':'
    · rw [Split, if_pos hc, Split, if_pos hc]
      show [] :: (Split (rest ++ ':' :: s) ':').take 1 = [] :: (Split rest ':').take 1
      rw [Split_take_one]
    · have hmem : ':' ∈ rest := by
        rcases List.mem_cons.1 h with h' | h'
        · exact absurd h'.symm hc
        · exact h'
      have ih' := ih hmem
      rw [Split, if_neg hc, Split, if_neg hc]
      obtain ⟨h1, t1, e1⟩ := List.exists_cons_of_ne_nil (Split_ne_nil (rest ++ ':' :: s) ':')
      obtain ⟨h2, t2, e2⟩ := List.exists_cons_of_ne_nil (Split_ne_nil rest ':')
      rw [e1, e2] at ih' ⊢
      simp only [List.take_succ_cons, List.cons.injEq] at ih' ⊢
      exact ⟨⟨trivial, ih'.1⟩, ih'.2⟩

/-- The loop on two lists of pairs with the same first pair. -/
theorem parseLoop_cons_congr (pair : Str) (rest rest' : List Str)
    (h : ∀ operator acc, parseLoop rest operator acc = parseLoop rest' operator acc) :
    ∀ operator acc,
      parseLoop (pair :: rest) operator acc = parseLoop (pair :: rest') operator acc := by
  intro operator acc
  simp only [parseLoop, h]

/-- The loop reads the first two fields of a pair only. -/
theorem parseLoop_head_congr (pair pair' : Str) (rest : List Str)
    (h : (Split pair ':').take 2 = (Split pair' ':').take 2) :
    ∀ operator acc,
      parseLoop (pair :: rest) operator acc = parseLoop (pair' :: rest) operator acc := by
  intro operator acc
  obtain ⟨a, as, hp⟩ := List.exists_cons_of_ne_nil (Split_ne_nil pair ':')
  obtain ⟨a', as', hp'⟩ := List.exists_cons_of_ne_nil (Split_ne_nil pair' ':')
  rw [hp, hp'] at h
  cases as with
  | nil =>
    cases as' with
    | nil =>
      simp only [List.take_succ_cons, List.take_nil, List.cons.injEq, and_true] at h
      subst h
      simp only [parseLoop, hp, hp']
    | cons b' m' =>
      simp only [List.take_succ_cons, List.take_nil, List.take_zero, List.cons.injEq] at h
      exact absurd h.2 (by simp)
  | cons b m =>
    cases as' with
    | nil =>
      simp only [List.take_succ_cons, List.take_nil, List.take_zero, List.cons.injEq] at h
      exact absurd h.2 (by simp)
    | cons b' m' =>
      simp only [List.take_succ_cons, List.take_zero, List.cons.injEq, and_true] at h
      obtain ⟨h1, h2⟩ := h
      subst h1 h2
      simp only [parseLoop, hp, hp']

/-- The loop on a list of pairs with one pair replaced by a pair of the same
first two fields. -/
theorem parseLoop_replace (pair pair' : Str) (post : List Str)
    (h : (Split pair ':').take 2 = (Split pair' ':').take 2) (pre : List Str) :
    ∀ operator acc,
      parseLoop (pre ++ pair :: post) operator acc
        = parseLoop (pre ++ pair' :: post) operator acc := by
  induction pre with
  | nil => exact parseLoop_head_congr pair pair' post h
  | cons p rest ih => exact parseLoop_cons_congr p _ _ ih

theorem ne_nil_of_pair_mem (expression pair : Str) (hmem : pair ∈ Split expression ',')
    (hpair : pair ≠ []) : expression ≠ [] := by
  rintro rfl
  have h0 : Split [] ',' = [[]] := rfl
  rw [h0, List.mem_singleton] at hmem
  exact hpair hmem

/-! ## The fields after the second -/

/-- C36: the parser reads the first two fields of a pair and ignores the
rest: an expression with the pair k:v:s among its pairs is parsed exactly as
the expression with that pair replaced by k:v, for every key k, value v and
suffix s. -/
theorem ParseFailureExpression_ignores_suffix (expression expression' : Str)
    (pre post : List Str) (k v s : Str)
    (h : Split expression ',' = pre ++ ((k ++ ':' :: v) ++ ':' :: s) :: post)
    (h' : Split expression' ',' = pre ++ (k ++ ':' :: v) :: post) :
    ParseFailureExpression expression = ParseFailureExpression expression' := by
  have hne : expression ≠ [] := by
    apply ne_nil_of_pair_mem expression ((k ++ ':' :: v) ++ ':' :: s)
    · rw [h]
      exact List.mem_append_right _ (List.mem_cons_self _ _)
    · simp
  have hne' : expression' ≠ [] := by
    apply ne_nil_of_pair_mem expression' (k ++ ':' :: v)
    · rw [h']
      exact List.mem_append_right _ (List.mem_cons_self _ _)
    · simp
  have hcolon : ':' ∈ k ++ ':' :: v :=
    List.mem_append_right _ (List.mem_cons_self _ _)
  rw [parse_nonempty _ hne, parse_nonempty _ hne', h, h']
  exact parseLoop_replace _ _ post (Split_take_two (k ++ ':' :: v) s hcolon) pre [] []

/-- Witness of C36: "critical:2:junk,operator:or:and" gives OR with
CRITICAL:2, as "critical:2,operator:or:and" and "critical:2,operator:or"
do. -/
theorem ParseFailureExpression_ignores_suffix_witness :
    ParseFailureExpression "critical:2:junk,operator:or:and".toList
      = Outcome.returns ("OR".toList, GoMap.mk [("CRITICAL".toList, 2)], none)
    ∧ ParseFailureExpression "critical:2,operator:or".toList
      = Outcome.returns ("OR".toList, GoMap.mk [("CRITICAL".toList, 2)], none)
    ∧ ParseFailureExpression "critical:2:junk,operator:or:and".toList
      = ParseFailureExpression "critical:2,operator:or:and".toList :=
  ⟨by decide, by decide,
    ParseFailureExpression_ignores_suffix "critical:2:junk,operator:or:and".toList
      "critical:2,operator:or:and".toList [] ["operator:or:and".toList]
      "critical".toList "2".toList "junk".toList (by decide) (by decide)⟩

end IacValidation
